import Mathlib

/-!
# OVH secret-manager provider: enumeration and push reconciliation

A shallow embedding of `pkg/provider/ovh` (Go).

* Go `string` and `[]byte` values are Lean `String`s.  The code only ever inspects or cuts a
  string at the ASCII byte `'/'`, which in UTF-8 text is always a whole character, so indexing
  by character (`String.data`) agrees with Go's byte indexing on every UTF-8 string.
* A Go function returning `(T, error)` returns the Lean pair `T × Option GoError`; a nil slice
  and an empty slice are both `[]`, a nil map and an empty map are both the empty list.
* The remote store (`OkmsClient`) is an interface: it is a parameter here, a record of
  transitions on an arbitrary remote state `σ`.  Every call made through it is appended,
  with the error it returned, to the `log` of the `World`.
* The Go libraries `encoding/json`, `gjson` and `regexp` are parameters (`GoLib`).
* `recursivelyGetSecretsList` is recursive on the shape of the remote namespace; it takes a
  fuel argument and answers `Outcome.outOfFuel` when it is exhausted.  A nil pointer
  dereference is `Outcome.panics`.
-/

namespace Ovh

/-! ## Go values -/

/-- Go `[]byte`. -/
abbrev Bytes := String

/-- Go `error` values that this package creates or inspects. -/
inductive GoError where
  /-- The result of `errors.New(msg)` or of `fmt.Errorf` without `%w`. -/
  | text (msg : String)
  /-- The sentinel `esv1.NoSecretErr`. -/
  | NoSecretErr
  /-- A `*okms.KmsError` with its `ErrorCode`. -/
  | KmsError (ErrorCode : Nat) (body : String)
  /-- A `*strconv.NumError` of `strconv.Atoi` for the input `num`. -/
  | NumError (num : String) (reason : String)
  /-- The result of `fmt.Errorf(msg + ": %w", err)`. -/
  | wrap (msg : String) (err : GoError)
  deriving DecidableEq, Repr

/-- Go `errors.Is(err, esv1.NoSecretErr)`: the sentinel is searched along the `%w` chain. -/
def errorsIsNoSecretErr : GoError → Bool
  | .NoSecretErr => true
  | .wrap _ err => errorsIsNoSecretErr err
  | _ => false

/-- Go `any` as it occurs in secret values: decoded JSON, plus `json.RawMessage`.
A JSON number is kept as its literal: the package never computes with one. -/
inductive GoAny where
  | nil
  | bool (b : Bool)
  | float64 (lit : String)
  | string (s : String)
  | RawMessage (b : Bytes)
  | slice (xs : List GoAny)
  | map (m : List (String × GoAny))

/-- Go `map[string]T`, as the list of its entries (keys pairwise distinct). -/
abbrev GoMap (α : Type) := List (String × α)

/-- Go `m[key] = v`. -/
def GoMap.set {α : Type} (m : GoMap α) (key : String) (v : α) : GoMap α :=
  if m.any (fun e => e.1 == key) then m.map (fun e => if e.1 == key then (key, v) else e)
  else m ++ [(key, v)]

/-- Go `m[key]` for a `map[string][]byte`: the zero value (nil, of length 0) when absent. -/
def GoMap.getBytes (m : GoMap Bytes) (key : String) : Bytes :=
  match m.find? (fun e => e.1 == key) with
  | some e => e.2
  | none => ""

/-! ## SDK types (`okms-sdk-go/types`), restricted to the fields this package reads or writes -/

structure SecretMetadata where
  Keys : Option (List String)

structure GetMetadataResponse where
  Data : Option SecretMetadata

structure SecretV2Metadata where
  CurrentVersion : Option Nat

structure SecretV2Version where
  Data : Option (GoMap GoAny)

structure GetSecretV2Response where
  Metadata : Option SecretV2Metadata
  Version : Option SecretV2Version

structure SecretV2VersionShort where
  Data : Option (GoMap GoAny)

structure PostSecretV2Request where
  Path : String
  Version : SecretV2VersionShort

structure PutSecretV2Request where
  Version : Option SecretV2VersionShort

/-- The interface `OkmsClient` of `provider.go`, over a remote state `σ`. -/
structure OkmsClient (σ : Type) where
  GetSecretV2 : σ → String → String → Option Nat → Option Bool →
    (Option GetSecretV2Response × Option GoError) × σ
  GetSecretsMetadata : σ → String → String → Bool →
    (Option GetMetadataResponse × Option GoError) × σ
  PostSecretV2 : σ → String → PostSecretV2Request → Option GoError × σ
  PutSecretV2 : σ → String → String → Option Nat → PutSecretV2Request → Option GoError × σ
  DeleteSecretV2 : σ → String → String → Option GoError × σ

/-- One call made through the `OkmsClient` interface, with its arguments. -/
inductive Call where
  | GetSecretV2 (okmsId path : String) (version : Option Nat) (includeData : Option Bool)
  | GetSecretsMetadata (okmsId path : String) (list : Bool)
  | PostSecretV2 (okmsId : String) (body : PostSecretV2Request)
  | PutSecretV2 (okmsId path : String) (cas : Option Nat) (body : PutSecretV2Request)
  | DeleteSecretV2 (okmsId path : String)

/-- A call made through the interface together with the error it returned (`none`: nil). -/
structure Event where
  call : Call
  err : Option GoError

/-- The remote state together with the log of the calls made so far, oldest first. -/
structure World (σ : Type) where
  remote : σ
  log : List Event

/-- How a run of a function of the package ends. -/
inductive Outcome (α : Type) where
  | returns (a : α)
  /-- A run-time panic (nil pointer dereference). -/
  | panics
  /-- The fuel of the embedding ran out before the function returned. -/
  | outOfFuel

/-- The struct `ovhClient` of `provider.go` (the fields the operations use). -/
structure ovhClient (σ : Type) where
  okmsId : String
  cas : Bool
  okmsClient : OkmsClient σ

/-! ## Strings -/

/-- Go `s[len(s)-1] == '/'`, for a non-empty `s`. -/
def lastIsSlash (s : String) : Bool :=
  s.data[s.data.length - 1]? == some '/'

/-- Go `s[:len(s)-1]`. -/
def dropLastByte (s : String) : String :=
  String.mk (s.data.take (s.data.length - 1))

/-! ## `client_get_all_secrets.go`: enumeration -/

/-- The call `okmsClient.GetSecretsMetadata(ctx, okmsId, path, list)`, logged. -/
def callGetSecretsMetadata {σ : Type} (c : OkmsClient σ) (okmsId path : String) (list : Bool)
    (w : World σ) : (Option GetMetadataResponse × Option GoError) × World σ :=
  let r := c.GetSecretsMetadata w.remote okmsId path list
  (r.1, { remote := r.2, log := w.log ++ [⟨Call.GetSecretsMetadata okmsId path list, r.1.2⟩] })

/-- Go `secrets == nil || secrets.Data == nil || secrets.Data.Keys == nil ||
len(*secrets.Data.Keys) == 0`. -/
def noKeys (secrets : Option GetMetadataResponse) : Bool :=
  match secrets with
  | none => true
  | some r =>
    match r.Data with
    | none => true
    | some d =>
      match d.Keys with
      | none => true
      | some keys => keys.length == 0

/-- Go `*secrets.Data.Keys`, read only after `noKeys` answered false. -/
def derefKeys (secrets : Option GetMetadataResponse) : List String :=
  match secrets with
  | some { Data := some { Keys := some keys } } => keys
  | _ => []

/-- The `for _, key := range *secrets.Data.Keys` loop of `recursivelyGetSecretsList`:
`recurse` is the recursive call, `secretsList` the list accumulated so far. -/
def rangeKeys {σ : Type}
    (recurse : String → World σ → Outcome ((List String × Option GoError) × World σ))
    (path : String) :
    List String → List String → World σ → Outcome ((List String × Option GoError) × World σ)
  | [], secretsList, w => .returns ((secretsList, none), w)
  | key :: rest, secretsList, w =>
    if key != "" && key.data.head? != some '/' then
      if lastIsSlash key then
        let key1 := if path != "" then path ++ "/" ++ dropLastByte key else dropLastByte key
        match recurse key1 w with
        | .returns ((toAppend, none), w1) =>
          rangeKeys recurse path rest (secretsList ++ toAppend) w1
        | .returns ((_, some err), w1) => .returns (([], some err), w1)
        | .panics => .panics
        | .outOfFuel => .outOfFuel
      else
        let toAppend := if path == "" then [key] else [path ++ "/" ++ key]
        rangeKeys recurse path rest (secretsList ++ toAppend) w
    else rangeKeys recurse path rest secretsList w

/-- The function `recursivelyGetSecretsList`. -/
def recursivelyGetSecretsList {σ : Type} (c : OkmsClient σ) (okmsId : String) :
    Nat → String → World σ → Outcome ((List String × Option GoError) × World σ)
  | 0, _, _ => .outOfFuel
  | fuel + 1, path, w =>
    if path != "" && path.data.head? == some '/' then .returns (([], none), w)
    else
      match callGetSecretsMetadata c okmsId path true w with
      | ((_, some err), w1) => .returns (([], some err), w1)
      | ((secrets, none), w1) =>
        if noKeys secrets then .returns (([], none), w1)
        else rangeKeys (recursivelyGetSecretsList c okmsId fuel) path (derefKeys secrets) [] w1

/-- The function `getSecretsList`; `path` is the Go `*string`. -/
def getSecretsList {σ : Type} (c : OkmsClient σ) (okmsId : String) (fuel : Nat)
    (path : Option String) (w : World σ) :
    Outcome ((List String × Option GoError) × World σ) :=
  let afterCheck : Option String :=
    match path with
    | none => some ""
    | some p =>
      if p == "" then some ""
      else if p.data.length > 1 && p.data[p.data.length - 1]? == some '/'
          && p.data[p.data.length - 2]? == some '/' then none
      else some p
  match afterCheck with
  | none => .returns (([], none), w)
  | some formatPath =>
    let formatPath :=
      if formatPath != "" && lastIsSlash formatPath then dropLastByte formatPath
      else formatPath
    recursivelyGetSecretsList c okmsId fuel formatPath w

/-! ## Go libraries used by the package (parameters) -/

/-- The functions of `encoding/json`, `gjson` and `regexp` that the package calls.
`jsonMarshal` is `json.Marshal` (its bytes are nil when it fails), `jsonUnmarshal` is
`json.Unmarshal` into an `any`, `gjsonGet json path` is `gjson.Get(json, path)`: `none` when
the result does not exist, its `String()` otherwise; `regexpCompile` is `regexp.Compile`, a
compiled expression being its `MatchString`. -/
structure GoLib where
  jsonMarshal : GoAny → Except GoError Bytes
  jsonUnmarshal : Bytes → Except GoError GoAny
  gjsonGet : String → String → Option String
  regexpCompile : String → Option (String → Bool) × Option GoError

/-- The Go pair `([]byte, error)` returned by `json.Marshal(v)`. -/
def GoLib.Marshal (J : GoLib) (v : GoAny) : Bytes × Option GoError :=
  match J.jsonMarshal v with
  | .ok b => (b, none)
  | .error err => ("", some err)

/-- A `*map[string]any` as an `any`: the nil pointer is the nil value. -/
def ptrMap (data : Option (GoMap GoAny)) : GoAny :=
  match data with
  | none => .nil
  | some m => .map m

/-! ## API types (`apis/externalsecrets/v1`, `k8s.io/api/core/v1`) -/

/-- The constant `esv1.ExternalSecretMetadataPolicyFetch`. -/
def ExternalSecretMetadataPolicyFetch : String := "Fetch"

structure ExternalSecretDataRemoteRef where
  Key : String
  MetadataPolicy : String := ""
  Property : String := ""
  Version : String := ""
  ConversionStrategy : String := ""
  DecodingStrategy : String := ""

structure FindName where
  RegExp : String

structure ExternalSecretFind where
  Path : Option String
  Name : Option FindName
  ConversionStrategy : String := ""
  DecodingStrategy : String := ""

/-- The Go `corev1.Secret`: its `Data` field. -/
structure Secret where
  Data : GoMap Bytes

/-- The interface `esv1.PushSecretData`, by the values of its three getters. -/
structure PushSecretData where
  SecretKey : String
  RemoteKey : String
  Property : String

/-! ## `client_utils.go` -/

/-- The decimal digits of `strconv.Atoi`, most significant first. -/
def parseDigits : List Char → Nat → Option Nat
  | [], acc => some acc
  | ch :: rest, acc =>
    if '0' ≤ ch ∧ ch ≤ '9' then parseDigits rest (acc * 10 + (ch.toNat - '0'.toNat)) else none

/-- Go `strconv.Atoi` on a 64-bit platform: an optional sign and at least one decimal digit,
the value within the range of `int`. -/
def strconvAtoi (s : String) : Except GoError Int :=
  let digits := match s.data with
    | '+' :: rest => rest
    | '-' :: rest => rest
    | all => all
  let negative := s.data.head? == some '-'
  if digits.isEmpty then .error (.NumError s "invalid syntax")
  else
    match parseDigits digits 0 with
    | none => .error (.NumError s "invalid syntax")
    | some n =>
      let v : Int := if negative then -(n : Int) else (n : Int)
      if v < -(2 : Int) ^ 63 ∨ (2 : Int) ^ 63 - 1 < v then .error (.NumError s "value out of range")
      else .ok v

/-- The function `decodeSecretVersion`. -/
def decodeSecretVersion (strVersion : String) : Option Nat × Option GoError :=
  if strVersion != "" then
    match strconvAtoi strVersion with
    | .error err => (none, some err)
    | .ok v =>
      let tmpVersion : Nat := (v % (2 : Int) ^ 32).toNat
      if (tmpVersion : Int) != v then
        (none, some (.text "overflow occurred while decoding secret version"))
      else (some tmpVersion, none)
  else (none, none)

/-- The SDK helper `okms.AsKmsError`: the first `*KmsError` along the `%w` chain, if any
(Go `errors.As`). -/
def okmsAsKmsError : GoError → Option (Nat × String)
  | .KmsError code body => some (code, body)
  | .wrap _ err => okmsAsKmsError err
  | _ => none

/-- The function `handleOkmsError`. -/
def handleOkmsError (err : GoError) : GoError :=
  match okmsAsKmsError err with
  | none => .wrap "failed to parse okms error" err
  | some (code, body) =>
    if code == 17125377 then .NoSecretErr else .KmsError code body

/-- The function `getPropertyValue`. -/
def getPropertyValue (J : GoLib) (data : Option (GoMap GoAny)) (property : String) :
    Bytes × Option GoError :=
  match J.Marshal (ptrMap data) with
  | (_, some err) => ("", some err)
  | (secretData, none) =>
    match J.gjsonGet secretData property with
    | none => ("", some (.text ("secret property \"" ++ property ++ "\" not found")))
    | some text => (text, none)

/-- The call `kmsClient.GetSecretV2(ctx, okmsId, path, version, includeData)`, logged. -/
def callGetSecretV2 {σ : Type} (c : OkmsClient σ) (okmsId path : String)
    (version : Option Nat) (includeData : Option Bool) (w : World σ) :
    (Option GetSecretV2Response × Option GoError) × World σ :=
  let r := c.GetSecretV2 w.remote okmsId path version includeData
  (r.1, { remote := r.2,
          log := w.log ++ [⟨Call.GetSecretV2 okmsId path version includeData, r.1.2⟩] })

/-- The function `getSecretWithOvhSDK`.  It panics when the response has no `Version` or no
`Metadata`: both are dereferenced unconditionally. -/
def getSecretWithOvhSDK {σ : Type} (J : GoLib) (kmsClient : OkmsClient σ) (okmsId : String)
    (ref : ExternalSecretDataRemoteRef) (w : World σ) :
    Outcome ((Bytes × Option Nat × Option GoError) × World σ) :=
  if ref.Key == "" then
    .returns (("", none, some (.text "spec.data.remoteRef.key cannot be empty")), w)
  else if ref.MetadataPolicy == ExternalSecretMetadataPolicyFetch then
    .returns (("", none, some (.text "fetch metadata policy not supported")), w)
  else
    match decodeSecretVersion ref.Version with
    | (_, some err) => .returns (("", none, some err), w)
    | (versionAddr, none) =>
      match callGetSecretV2 kmsClient okmsId ref.Key versionAddr (some true) w with
      | ((_, some err), w1) => .returns (("", none, some (handleOkmsError err)), w1)
      | ((none, none), w1) => .returns (("", none, some .NoSecretErr), w1)
      | ((some secret, none), w1) =>
        match secret.Version with
        | none => .panics
        | some version =>
          let r := if ref.Property == "" then J.Marshal (ptrMap version.Data)
            else getPropertyValue J version.Data ref.Property
          match secret.Metadata with
          | none => .panics
          | some metadata => .returns ((r.1, metadata.CurrentVersion, r.2), w1)

/-! ## `client_get_secret.go` -/

/-- The method `GetSecret`. -/
def GetSecret {σ : Type} (J : GoLib) (cl : ovhClient σ) (ref : ExternalSecretDataRemoteRef)
    (w : World σ) : Outcome ((Bytes × Option GoError) × World σ) :=
  match getSecretWithOvhSDK J cl.okmsClient cl.okmsId ref w with
  | .returns ((secretData, _, err), w1) =>
    match err with
    | some err => .returns (("", some err), w1)
    | none => .returns ((secretData, none), w1)
  | .panics => .panics
  | .outOfFuel => .outOfFuel

/-! ## `client_get_all_secrets.go`: filtering and fetching -/

/-- The `for _, secret := range secrets` loop of `filterSecretsListWithRegexp`, with the
map `secretsDataMap` built so far. -/
def rangeSecrets {σ : Type} (J : GoLib) (cl : ovhClient σ) (regex : Option (String → Bool))
    (ref : ExternalSecretFind) :
    List String → GoMap Bytes → World σ → Outcome ((GoMap Bytes × Option GoError) × World σ)
  | [], secretsDataMap, w =>
    if secretsDataMap.length == 0 then
      .returns (([], some (.text "no secrets matched the regexp")), w)
    else .returns ((secretsDataMap, none), w)
  | secret :: rest, secretsDataMap, w =>
    if ref.Name.isNone || (match regex with
        | some re => re secret
        | none => false) then
      match GetSecret J cl { Key := secret, ConversionStrategy := ref.ConversionStrategy,
                             DecodingStrategy := ref.DecodingStrategy } w with
      | .returns ((secretToInsert, err), w1) =>
        match err with
        | some e =>
          if !errorsIsNoSecretErr e then .returns (([], some e), w1)
          else rangeSecrets J cl regex ref rest secretsDataMap w1
        | none => rangeSecrets J cl regex ref rest (secretsDataMap.set secret secretToInsert) w1
      | .panics => .panics
      | .outOfFuel => .outOfFuel
    else rangeSecrets J cl regex ref rest secretsDataMap w

/-- The function `filterSecretsListWithRegexp`. -/
def filterSecretsListWithRegexp {σ : Type} (J : GoLib) (cl : ovhClient σ)
    (secrets : List String) (regex : Option (String → Bool)) (ref : ExternalSecretFind)
    (w : World σ) : Outcome ((GoMap Bytes × Option GoError) × World σ) :=
  rangeSecrets J cl regex ref secrets [] w

/-- The method `GetAllSecrets`. -/
def GetAllSecrets {σ : Type} (J : GoLib) (cl : ovhClient σ) (fuel : Nat)
    (ref : ExternalSecretFind) (w : World σ) :
    Outcome ((GoMap Bytes × Option GoError) × World σ) :=
  match getSecretsList cl.okmsClient cl.okmsId fuel ref.Path w with
  | .returns ((_, some err), w1) => .returns (([], some err), w1)
  | .returns ((secrets, none), w1) =>
    if secrets.length == 0 then
      .returns (([], some (.text "no secrets found in the secret manager")), w1)
    else
      match ref.Name with
      | some name =>
        match J.regexpCompile name.RegExp with
        | (_, some _) => .returns (([], some (.text "failed to parse regexp")), w1)
        | (none, none) => .returns (([], some (.text "failed to parse regexp")), w1)
        | (some regex, none) => filterSecretsListWithRegexp J cl secrets (some regex) ref w1
      | none => filterSecretsListWithRegexp J cl secrets none ref w1
  | .panics => .panics
  | .outOfFuel => .outOfFuel

/-! ## `client_push_secret.go` -/

/-- The function `compareSecretsData`. -/
def compareSecretsData (J : GoLib) (secretToPush : GoMap GoAny) (remoteSecret : Bytes) :
    Bool × Option GoError :=
  if remoteSecret.length == 0 then (false, none)
  else
    match J.Marshal (.map secretToPush) with
    | (_, some err) => (false, some err)
    | (secretToPushByte, none) => (secretToPushByte == remoteSecret, none)

/-- The `for key, value := range secret.Data` loop of `buildSecretToPush`, with the map
`secretValueToPush` built so far. -/
def rangeData (J : GoLib) : GoMap Bytes → GoMap GoAny → GoMap GoAny × Option GoError
  | [], secretValueToPush => (secretValueToPush, none)
  | (key, value) :: rest, secretValueToPush =>
    match J.jsonUnmarshal value with
    | .error _ => rangeData J rest (secretValueToPush.set key (.string value))
    | .ok decoded =>
      match J.Marshal decoded with
      | (_, some err) => ([], some err)
      | (cleanJSON, none) => rangeData J rest (secretValueToPush.set key (.RawMessage cleanJSON))

/-- The function `buildSecretToPush`. -/
def buildSecretToPush (J : GoLib) (secret : Secret) (data : PushSecretData) :
    GoMap GoAny × Option GoError :=
  let built : GoMap GoAny × Option GoError :=
    if data.SecretKey == "" then rangeData J secret.Data []
    else
      match J.jsonUnmarshal (secret.Data.getBytes data.SecretKey) with
      | .error _ =>
        (GoMap.set [] data.SecretKey (.string (secret.Data.getBytes data.SecretKey)), none)
      | .ok _ =>
        (GoMap.set [] data.SecretKey (.RawMessage (secret.Data.getBytes data.SecretKey)), none)
  match built with
  | (_, some err) => ([], some err)
  | (secretValueToPush, none) =>
    if data.Property == "" then (secretValueToPush, none)
    else (GoMap.set [] data.Property (.map secretValueToPush), none)

/-- The function `pushNewSecret`. -/
def pushNewSecret {σ : Type} (okmsClient : OkmsClient σ) (okmsId : String)
    (secretToPush : GoMap GoAny) (path : String) (cas : Option Nat) (secretExists : Bool)
    (w : World σ) : Option GoError × World σ :=
  if !secretExists then
    let body : PostSecretV2Request := { Path := path, Version := { Data := some secretToPush } }
    let r := okmsClient.PostSecretV2 w.remote okmsId body
    (r.1, { remote := r.2, log := w.log ++ [⟨Call.PostSecretV2 okmsId body, r.1⟩] })
  else
    let body : PutSecretV2Request := { Version := some { Data := some secretToPush } }
    let r := okmsClient.PutSecretV2 w.remote okmsId path cas body
    (r.1, { remote := r.2, log := w.log ++ [⟨Call.PutSecretV2 okmsId path cas body, r.1⟩] })

/-- The method `PushSecret`; `secret` is the Go `*corev1.Secret`. -/
def PushSecret {σ : Type} (J : GoLib) (cl : ovhClient σ) (secret : Option Secret)
    (data : PushSecretData) (w : World σ) : Outcome (Option GoError × World σ) :=
  match secret with
  | none => .returns (some (.text "nil secret"), w)
  | some secret =>
    if secret.Data.length == 0 then .returns (some (.text "cannot push empty secret"), w)
    else
      match getSecretWithOvhSDK J cl.okmsClient cl.okmsId { Key := data.RemoteKey } w with
      | .panics => .panics
      | .outOfFuel => .outOfFuel
      | .returns ((remoteSecret, currentVersion, err), w1) =>
        if err.isSome && !(err.any errorsIsNoSecretErr) then .returns (err, w1)
        else
          let secretExists := !(err.any errorsIsNoSecretErr)
          match buildSecretToPush J secret data with
          | (_, some err) => .returns (some err, w1)
          | (secretToPush, none) =>
            match compareSecretsData J secretToPush remoteSecret with
            | (_, some err) => .returns (some err, w1)
            | (equal, none) =>
              if equal then .returns (none, w1)
              else
                let currentVersion := if !cl.cas then none else currentVersion
                .returns (pushNewSecret cl.okmsClient cl.okmsId secretToPush data.RemoteKey
                  currentVersion secretExists w1)

/-! ## Statement vocabulary for the enumeration -/

/-- A client whose listing call is a function of the path alone: it answers `list path`
whatever the remote state, and leaves that state unchanged. -/
def ListsBy {σ : Type} (c : OkmsClient σ)
    (list : String → Option GetMetadataResponse × Option GoError) : Prop :=
  ∀ s okmsId path flag, c.GetSecretsMetadata s okmsId path flag = (list path, s)

/-- The join of a root and a segment: the segment alone under the empty root. -/
def joinPath (root x : String) : String :=
  if root = "" then x else root ++ "/" ++ x

/-- What one listed entry contributes to the enumeration of `root`, when `sub p` is the
enumeration of the namespace `p`: nothing for an entry that is empty or begins with `/`, the
enumeration of `joinPath root s` for an entry `s ++ "/"`, the path `joinPath root e` otherwise. -/
def contribution (root : String) (sub : String → List String) (e : String) : List String :=
  if e = "" ∨ e.data.head? = some '/' then []
  else if e.data.getLast? = some '/' then sub (joinPath root (String.mk e.data.dropLast))
  else [joinPath root e]

/-- The last two characters of `p` are both `/`. -/
def endsInTwoSlashes (p : String) : Bool :=
  p.data.reverse.take 2 == ['/', '/']

/-- The canonical traversal root of an optional prefix: the empty string for a nil or empty
prefix and for `/`, the prefix without its last character when it ends in `/`, the prefix
itself otherwise. -/
def canonicalRoot : Option String → String
  | none => ""
  | some p =>
    if p = "" ∨ p = "/" then ""
    else if p.data.getLast? = some '/' then String.mk p.data.dropLast
    else p

/-- A well-formed secret path: non-empty, not beginning with `/`, not ending with `/`. -/
def WellFormedPath (p : String) : Prop :=
  p ≠ "" ∧ p.data.head? ≠ some '/' ∧ p.data.getLast? ≠ some '/'

/-- The call is a listing call (`GetSecretsMetadata`). -/
def isListingCall : Call → Bool
  | .GetSecretsMetadata _ _ _ => true
  | _ => false

/-- The call is a write: a create (`PostSecretV2`) or an update (`PutSecretV2`). -/
def isWriteCall : Call → Bool
  | .PostSecretV2 _ _ => true
  | .PutSecretV2 _ _ _ _ => true
  | _ => false

/-- The events logged by an enumeration that returned the paths `res` and the error `oe`:
all are listing calls; when no error is returned none of them failed; when the error `e` is
returned, the last call failed with `e`, no earlier call failed, and no path is returned. -/
def EnumLog (new : List Event) (res : List String) (oe : Option GoError) : Prop :=
  (∀ ev ∈ new, isListingCall ev.call = true) ∧
  match oe with
  | none => ∀ ev ∈ new, ev.err = none
  | some e => res = [] ∧
    ∃ pre last, new = pre ++ [last] ∧ last.err = some e ∧ ∀ ev ∈ pre, ev.err = none

/-- The client whose listing call always fails with `err`. -/
def failingListClient (err : GoError) : OkmsClient Unit where
  GetSecretV2 := fun s _ _ _ _ => ((none, some (GoError.KmsError 17125377 "")), s)
  GetSecretsMetadata := fun s _ _ _ => ((none, some err), s)
  PostSecretV2 := fun s _ _ => (some (GoError.text "read-only"), s)
  PutSecretV2 := fun s _ _ _ _ => (some (GoError.text "read-only"), s)
  DeleteSecretV2 := fun s _ _ => (some (GoError.text "read-only"), s)

/-- Library functions that fail on every input: for runs that never reach them. -/
def noLib : GoLib where
  jsonMarshal := fun _ => .error (.text "unavailable")
  jsonUnmarshal := fun _ => .error (.text "unavailable")
  gjsonGet := fun _ _ => none
  regexpCompile := fun _ => (none, some (.text "unavailable"))

/-- A listing response carrying the given entries. -/
def listed (entries : List String) : Option GetMetadataResponse × Option GoError :=
  (some { Data := some { Keys := some entries } }, none)

/-- The client that answers listing calls by `list` and knows no secret. -/
def listingClient (list : String → Option GetMetadataResponse × Option GoError) :
    OkmsClient Unit where
  GetSecretV2 := fun s _ _ _ _ => ((none, some (GoError.KmsError 17125377 "")), s)
  GetSecretsMetadata := fun s _ path _ => (list path, s)
  PostSecretV2 := fun s _ _ => (some (GoError.text "read-only"), s)
  PutSecretV2 := fun s _ _ _ _ => (some (GoError.text "read-only"), s)
  DeleteSecretV2 := fun s _ _ => (some (GoError.text "read-only"), s)

/-- The namespace of the documentation of `recursivelyGetSecretsList`: the secrets
`path/to/secret1`, `path/secret2` and `path/secrets/secret3`. -/
def docListing (path : String) : Option GetMetadataResponse × Option GoError :=
  if path = "" then listed ["path/"]
  else if path = "path" then listed ["to/", "secret2", "secrets/"]
  else if path = "path/to" then listed ["secret1"]
  else if path = "path/secrets" then listed ["secret3"]
  else listed []

/-- The enumeration of each namespace of `docListing`. -/
def docSub (p : String) : List String :=
  if p = "path" then ["path/to/secret1", "path/secret2", "path/secrets/secret3"]
  else if p = "path/to" then ["path/to/secret1"]
  else if p = "path/secrets" then ["path/secrets/secret3"]
  else []

/-! ## Statement vocabulary for the push -/

/-- The number of writes (creates and updates) in a log. -/
def countWrites (log : List Event) : Nat :=
  (log.filter (fun ev => isWriteCall ev.call)).length

/-- The write that a push issues for the candidate `cand`: a create at the remote key when
the probe reported not-found, otherwise an update at the remote key, carrying the version
`ver` read by the probe when CAS is enabled and no version when it is not. -/
def expectedWrite {σ : Type} (cl : ovhClient σ) (data : PushSecretData) (cand : GoMap GoAny)
    (ver : Option Nat) (notFound : Bool) : Call :=
  if notFound then
    .PostSecretV2 cl.okmsId { Path := data.RemoteKey, Version := { Data := some cand } }
  else
    .PutSecretV2 cl.okmsId data.RemoteKey (if cl.cas then ver else none)
      { Version := some { Data := some cand } }

/-- The error a run returned, when it returned. -/
def Outcome.err {σ : Type} (o : Outcome (Option GoError × World σ)) :
    Option (Option GoError) :=
  match o with
  | .returns (e, _) => some e
  | _ => none

/-- The world in which a run ended (`w` when it did not return). -/
def worldAfter {σ α : Type} (o : Outcome (α × World σ)) (w : World σ) : World σ :=
  match o with
  | .returns (_, w1) => w1
  | _ => w

/-! ## A reference instance of the libraries

`refLib` implements the library parameters on a fragment: JSON without escape sequences in
strings and with integer numbers, single-key `gjson` paths, and regular expressions that
are plain words.  It serves to run the package on concrete inputs. -/

def skipWs : List Char → List Char
  | [] => []
  | c :: cs => if c = ' ' ∨ c = '\n' ∨ c = '\t' ∨ c = '\r' then skipWs cs else c :: cs

/-- The rest of a string literal after its opening quote: its content and what follows. -/
def scanString : List Char → List Char → Option (String × List Char)
  | [], _ => none
  | c :: rest, acc =>
    if c = '"' then some (String.mk acc.reverse, rest)
    else if c = '\\' then none
    else scanString rest (c :: acc)

def scanDigits : List Char → List Char → List Char × List Char
  | [], acc => (acc.reverse, [])
  | c :: rest, acc =>
    if '0' ≤ c ∧ c ≤ '9' then scanDigits rest (c :: acc) else (acc.reverse, c :: rest)

def scanNumber (cs : List Char) : Option (GoAny × List Char) :=
  let (sign, body) := match cs with
    | '-' :: rest => (['-'], rest)
    | all => ([], all)
  let (digits, rest) := scanDigits body []
  if digits.isEmpty then none else some (.float64 (String.mk (sign ++ digits)), rest)

mutual
def parseValue : Nat → List Char → Option (GoAny × List Char)
  | 0, _ => none
  | fuel + 1, cs =>
    match skipWs cs with
    | '"' :: rest =>
      match scanString rest [] with
      | some (s, r) => some (.string s, r)
      | none => none
    | '{' :: rest =>
      match skipWs rest with
      | '}' :: r => some (.map [], r)
      | r => parseMembers fuel r []
    | '[' :: rest =>
      match skipWs rest with
      | ']' :: r => some (.slice [], r)
      | r => parseElements fuel r []
    | 't' :: 'r' :: 'u' :: 'e' :: r => some (.bool true, r)
    | 'f' :: 'a' :: 'l' :: 's' :: 'e' :: r => some (.bool false, r)
    | 'n' :: 'u' :: 'l' :: 'l' :: r => some (.nil, r)
    | r => scanNumber r
def parseMembers : Nat → List Char → GoMap GoAny → Option (GoAny × List Char)
  | 0, _, _ => none
  | fuel + 1, cs, acc =>
    match skipWs cs with
    | '"' :: rest =>
      match scanString rest [] with
      | some (k, r) =>
        match skipWs r with
        | ':' :: r1 =>
          match parseValue fuel r1 with
          | some (v, r2) =>
            match skipWs r2 with
            | ',' :: r3 => parseMembers fuel r3 (acc.set k v)
            | '}' :: r3 => some (.map (acc.set k v), r3)
            | _ => none
          | none => none
        | _ => none
      | none => none
    | _ => none
def parseElements : Nat → List Char → List GoAny → Option (GoAny × List Char)
  | 0, _, _ => none
  | fuel + 1, cs, acc =>
    match parseValue fuel cs with
    | some (v, r) =>
      match skipWs r with
      | ',' :: r1 => parseElements fuel r1 (acc ++ [v])
      | ']' :: r1 => some (.slice (acc ++ [v]), r1)
      | _ => none
    | none => none
end

/-- A whole JSON text, decoded. -/
def parseJson (s : String) : Option GoAny :=
  match parseValue (s.data.length + 1) s.data with
  | some (v, rest) => if (skipWs rest).isEmpty then some v else none
  | none => none

def escapeChar (c : Char) : List Char :=
  if c = '"' then ['\\', '"']
  else if c = '\\' then ['\\', '\\']
  else if c = '<' then ['\\', 'u', '0', '0', '3', 'c']
  else if c = '>' then ['\\', 'u', '0', '0', '3', 'e']
  else if c = '&' then ['\\', 'u', '0', '0', '2', '6']
  else [c]

def quoteString (s : String) : String :=
  "\"" ++ String.mk (s.data.flatMap escapeChar) ++ "\""

/-- The text without the white space that stands outside string literals. -/
def compactJson : List Char → Bool → List Char
  | [], _ => []
  | c :: cs, true => c :: compactJson cs (c != '"')
  | c :: cs, false =>
    if c = ' ' ∨ c = '\n' ∨ c = '\t' ∨ c = '\r' then compactJson cs false
    else c :: compactJson cs (c == '"')

/-- Go `a < b` on strings: the order of the bytes, which on UTF-8 text is the order of the
code points. -/
def ltChars : List Char → List Char → Bool
  | [], [] => false
  | [], _ :: _ => true
  | _ :: _, [] => false
  | a :: as, b :: bs =>
    if a.toNat < b.toNat then true
    else if b.toNat < a.toNat then false
    else ltChars as bs

def insertByKey (e : String × String) : List (String × String) → List (String × String)
  | [] => [e]
  | x :: xs => if ltChars e.1.data x.1.data then e :: x :: xs else x :: insertByKey e xs

def sortByKey : List (String × String) → List (String × String)
  | [] => []
  | e :: es => insertByKey e (sortByKey es)

mutual
def marshalAny : GoAny → Option String
  | .nil => some "null"
  | .bool b => some (if b then "true" else "false")
  | .float64 lit => some lit
  | .string s => some (quoteString s)
  | .RawMessage b =>
    if (parseJson b).isSome then some (String.mk (compactJson b.data false)) else none
  | .slice xs =>
    match marshalElements xs with
    | some texts => some ("[" ++ ",".intercalate texts ++ "]")
    | none => none
  | .map m =>
    match marshalMembers m with
    | some members =>
      some ("\x7b" ++ ",".intercalate
        ((sortByKey members).map (fun e => quoteString e.1 ++ ":" ++ e.2)) ++ "\x7d")
    | none => none
def marshalElements : List GoAny → Option (List String)
  | [] => some []
  | x :: xs =>
    match marshalAny x, marshalElements xs with
    | some t, some ts => some (t :: ts)
    | _, _ => none
def marshalMembers : List (String × GoAny) → Option (List (String × String))
  | [] => some []
  | (k, v) :: rest =>
    match marshalAny v, marshalMembers rest with
    | some t, some ts => some ((k, t) :: ts)
    | _, _ => none
end

def hasInfix (p : List Char) : List Char → Bool
  | [] => p.isEmpty
  | c :: cs => p.isPrefixOf (c :: cs) || hasInfix p cs

/-- The reference libraries. -/
def refLib : GoLib where
  jsonMarshal := fun v =>
    match marshalAny v with
    | some text => .ok text
    | none => .error (.text "json: error calling MarshalJSON")
  jsonUnmarshal := fun b =>
    match parseJson b with
    | some v => .ok v
    | none => .error (.text "invalid character")
  gjsonGet := fun json path =>
    match parseJson json with
    | some (.map m) =>
      match m.find? (fun e => e.1 == path) with
      | some (_, .string s) => some s
      | some (_, v) => marshalAny v
      | none => none
    | _ => none
  regexpCompile := fun pattern =>
    if pattern.data.all (fun c => c.isAlphanum || c == '/' || c == '-' || c == '_') then
      (some (fun s => hasInfix pattern.data s.data), none)
    else (none, some (.text "error parsing regexp"))

/-! ## `fake/fake_okms_client.go` -/

/-- A response of the fake client: full metadata (without a current version) and a version
carrying `data`. -/
def fakeResponse (data : GoMap GoAny) : GetSecretV2Response :=
  { Metadata := some { CurrentVersion := none }, Version := some { Data := some data } }

/-- Go `&types.GetSecretV2Response{}`. -/
def emptyResponse : GetSecretV2Response :=
  { Metadata := none, Version := none }

/-- The result of `okms.NewKmsErrorFromBytes` on `{"error_code":<code>}`. -/
def fakeKmsError (code : Nat) : GoError :=
  .KmsError code ("\x7b\"error_code\":" ++ toString code ++ "\x7d")

def fakeData : GoMap GoAny := [("key", .string "value")]

def fakeNestedData : GoMap GoAny :=
  [("projects", .map [("project1", .string "Name"), ("project2", .string "Name")]),
   ("test", .string "value")]

/-- The method `FakeOkmsClient.GetSecretV2`. -/
def fakeGetSecretV2 (TestCase path : String) : Option GetSecretV2Response × Option GoError :=
  if TestCase = "Valid Secret" then (some (fakeResponse fakeData), none)
  else if TestCase = "MetaDataPolicy: Fetch" then (some (fakeResponse fakeData), none)
  else if TestCase = "Non-existent Secret" then (none, some (fakeKmsError 17125377))
  else if TestCase = "Secret without data" then (some (fakeResponse []), none)
  else if TestCase = "Valid property that gets Nested Json" then
    (some (fakeResponse fakeNestedData), none)
  else if TestCase = "Valid property that gets non_Nested Json" then
    (some (fakeResponse fakeNestedData), none)
  else if TestCase = "Invalid property" then (some (fakeResponse fakeData), none)
  else if TestCase = "Empty property" then (some (fakeResponse fakeData), none)
  else if TestCase = "Secret Version" then (some (fakeResponse fakeData), none)
  else if TestCase = "Invalid Secret Version" then (none, some (fakeKmsError 17125378))
  else if TestCase = "Error case" then (some emptyResponse, some (.text "SecretExists error"))
  else if path = "" then (some emptyResponse, some (.text "unknown case"))
  else if path = "pattern1/path1" then
    (some (fakeResponse
      [("projects", .map [("project1", .string "Name"), ("project2", .string "Name")])]), none)
  else if path = "pattern1/path2" then (some (fakeResponse [("key", .string "value")]), none)
  else if path = "pattern1/path3" then
    (some (fakeResponse
      [("root", .map [("sub1", .map [("value", .string "string")]), ("sub2", .string "Name")]),
       ("test", .string "value"), ("test1", .string "value1")]), none)
  else if path = "pattern2/test/test-secret" then
    (some (fakeResponse [("test4", .string "value4")]), none)
  else if path = "pattern2/test/test.secret" then
    (some (fakeResponse [("test5", .string "value5")]), none)
  else if path = "pattern2/secret" then
    (some (fakeResponse [("test6", .string "value6")]), none)
  else if path = "1secret" then (some (fakeResponse [("test7", .string "value7")]), none)
  else if path = "pattern2/test/test;secret" then
    (some (fakeResponse [("test8", .string "value8")]), none)
  else if path = "non-existent" then (some emptyResponse, some (fakeKmsError 17125377))
  else (some emptyResponse, some (.text "unknown path"))

def fakePaths : List String :=
  ["pattern1/path1", "pattern1/path2", "pattern1/path3", "pattern2/test/test-secret",
   "pattern2/test/test.secret", "pattern2/secret", "1secret", "pattern2/test/test;secret"]

/-- What one element of `paths` adds to the keys in `FakeOkmsClient.GetSecretsMetadata`. -/
def fakeSegment (path path_elem : String) : List String :=
  if path.data.isPrefixOf path_elem.data then
    if path.data.length == path_elem.data.length then [path_elem]
    else if path.data.length < path_elem.data.length
        && path_elem.data[path.data.length]? == some '/' then
      let rest := path_elem.data.drop (path.data.length + 1)
      if rest.contains '/' then [String.mk (rest.takeWhile (fun c => c != '/'))]
      else [String.mk rest]
    else []
  else []

/-- The method `FakeOkmsClient.GetSecretsMetadata`. -/
def fakeGetSecretsMetadata (path : String) : Option GetMetadataResponse × Option GoError :=
  if path = "nil resp" then (none, none)
  else if path = "nil data struct" then (some { Data := none }, none)
  else if path = "nil secrets list" then (some { Data := some { Keys := none } }, none)
  else if path = "empty secrets list" then (some { Data := some { Keys := some [] } }, none)
  else if path = "error response" then (none, some (.text "error response"))
  else if path = "" then (some { Data := some { Keys := some fakePaths } }, none)
  else (some { Data := some { Keys := some (fakePaths.flatMap (fakeSegment path)) } }, none)

/-- The methods `PostSecretV2` and `PutSecretV2` of the fake: they answer with an error whose
text is the JSON of the data they were given. -/
def fakeWrite (J : GoLib) (data : Option (GoMap GoAny)) : Option GoError :=
  match J.Marshal (ptrMap data) with
  | (_, some err) => some err
  | (secretDataByte, none) => some (.text secretDataByte)

/-- The struct `FakeOkmsClient`, with its field `TestCase`.  (Its `PutSecretV2` dereferences
`body.Version`; the package always passes one, and an absent one is read here as absent
data.) -/
def FakeOkmsClient (J : GoLib) (TestCase : String) : OkmsClient Unit where
  GetSecretV2 := fun s _ path _ _ => (fakeGetSecretV2 TestCase path, s)
  GetSecretsMetadata := fun s _ path _ => (fakeGetSecretsMetadata path, s)
  PostSecretV2 := fun s _ body => (fakeWrite J body.Version.Data, s)
  PutSecretV2 := fun s _ _ _ body => (fakeWrite J (body.Version.bind (fun v => v.Data)), s)
  DeleteSecretV2 := fun s _ _ => (none, s)

/-! ## An in-memory store -/

/-- The state of the in-memory store: the data and the version stored at each path. -/
abbrev MemState := String → Option (Option (GoMap GoAny) × Nat)

/-- A store that keeps the last value written at each path, with a version counter, and
answers the not-found error (code 17125377) where nothing was written. -/
def memStore : OkmsClient MemState where
  GetSecretV2 := fun s _ path _ _ =>
    match s path with
    | none => ((none, some (.KmsError 17125377 "")), s)
    | some (data, version) =>
      ((some { Metadata := some { CurrentVersion := some version },
               Version := some { Data := data } }, none), s)
  GetSecretsMetadata := fun s _ _ _ => ((none, some (.text "unsupported")), s)
  PostSecretV2 := fun s _ body =>
    match s body.Path with
    | some _ => (some (.text "secret already exists"), s)
    | none => (none, Function.update s body.Path (some (body.Version.Data, 1)))
  PutSecretV2 := fun s _ path cas body =>
    match s path, body.Version with
    | some (_, version), some short =>
      if cas.isSome && cas != some version then (some (.text "cas mismatch"), s)
      else (none, Function.update s path (some (short.Data, version + 1)))
    | _, _ => (some (.text "secret not found"), s)
  DeleteSecretV2 := fun s _ path => (none, Function.update s path none)

/-- The name of the test case "equal data" of `TestPushSecret`. -/
def equalDataCase : String :=
  "Empty Secret Key / Empty Property / Existing Remote Key (Equal Data)"

/-- The name of the test case "non-equal data" of `TestPushSecret`. -/
def nonEqualDataCase : String :=
  "Empty Secret Key / Empty Property / Existing Remote Key (Non-Equal Data)"

/-- The empty in-memory store, with an empty log. -/
def memEmpty : World MemState :=
  { remote := fun _ => none, log := [] }

/-- The client of the in-memory store, with CAS enabled or not. -/
def memClient (cas : Bool) : ovhClient MemState :=
  { okmsId := "id", cas := cas, okmsClient := memStore }

/-- The local secret `test4 = "value4"` of the tests. -/
def secretValue4 : Secret :=
  { Data := [("test4", "\"value4\"")] }

/-- The local secret `new-test4 = "new-value4"` of the tests. -/
def secretNewValue4 : Secret :=
  { Data := [("new-test4", "\"new-value4\"")] }

/-- The push descriptor of the tests: whole secret, no property. -/
def pushWhole (remoteKey : String) : PushSecretData :=
  { SecretKey := "", RemoteKey := remoteKey, Property := "" }

/-- The in-memory store after `secretValue4` was pushed to `pattern2/test/test-secret` in
the empty store, CAS being enabled. -/
def memAfterCreate : World MemState :=
  worldAfter (PushSecret refLib (memClient true) (some secretValue4)
    (pushWhole "pattern2/test/test-secret") memEmpty) memEmpty

/-- The in-memory store after `secretNewValue4` was then pushed to the same path. -/
def memAfterUpdate : World MemState :=
  worldAfter (PushSecret refLib (memClient true) (some secretNewValue4)
    (pushWhole "pattern2/test/test-secret") memAfterCreate) memAfterCreate

/-! ## `client_get_secret_map.go` -/

/-- Go `json.Unmarshal(b, &m)` for `m` a nil `map[string]any`: the JSON text must be an
object, or `null`, which leaves the map nil. -/
def unmarshalMap (J : GoLib) (b : Bytes) : Except GoError (GoMap GoAny) :=
  match J.jsonUnmarshal b with
  | .error err => .error err
  | .ok (.map m) => .ok m
  | .ok .nil => .ok []
  | .ok _ => .error (.text "json: cannot unmarshal into Go value of type map[string]interface {}")

/-- The `for key := range rawSecretDataMap` loop of `GetSecretMap`, with the map
`secretDataMap` built so far; `getByteValueFromMap` is `esutils.GetByteValueFromMap`. -/
def rangeRaw (getByteValueFromMap : GoMap GoAny → String → Bytes × Option GoError)
    (rawSecretDataMap : GoMap GoAny) : GoMap GoAny → GoMap Bytes → GoMap Bytes × Option GoError
  | [], secretDataMap => (secretDataMap, none)
  | (key, _) :: rest, secretDataMap =>
    match getByteValueFromMap rawSecretDataMap key with
    | (_, some err) => ([], some err)
    | (value, none) =>
      rangeRaw getByteValueFromMap rawSecretDataMap rest (secretDataMap.set key value)

/-- The method `GetSecretMap`; `getByteValueFromMap` is `esutils.GetByteValueFromMap`, a
function of this repository outside the package. -/
def GetSecretMap {σ : Type} (J : GoLib)
    (getByteValueFromMap : GoMap GoAny → String → Bytes × Option GoError)
    (cl : ovhClient σ) (ref : ExternalSecretDataRemoteRef) (w : World σ) :
    Outcome ((GoMap Bytes × Option GoError) × World σ) :=
  match getSecretWithOvhSDK J cl.okmsClient cl.okmsId ref w with
  | .returns ((secretDataBytes, _, err), w1) =>
    match err with
    | some err => .returns (([], some err), w1)
    | none =>
      if secretDataBytes.length == 0 then .returns (([], none), w1)
      else
        match unmarshalMap J secretDataBytes with
        | .error err => .returns (([], some err), w1)
        | .ok rawSecretDataMap =>
          .returns (rangeRaw getByteValueFromMap rawSecretDataMap rawSecretDataMap [], w1)
  | .panics => .panics
  | .outOfFuel => .outOfFuel

/-! ## Statement vocabulary for the traversal and the filter -/

/-- The namespace `q` is a child of the namespace `p`: the listing of `p` succeeds and has an
entry with a trailing `/` (not empty, not beginning with `/`) that names `q`. -/
def Child (list : String → Option GetMetadataResponse × Option GoError) (p q : String) :
    Prop :=
  (list p).2 = none ∧
    ∃ key ∈ derefKeys (list p).1, key ≠ "" ∧ key.data.head? ≠ some '/' ∧
      key.data.getLast? = some '/' ∧ q = joinPath p (String.mk key.data.dropLast)

/-- The remote namespace is a finite tree under `root`: no infinite chain of namespaces
starts at `root`, each one a child of the one before. -/
def FiniteTree (list : String → Option GetMetadataResponse × Option GoError)
    (root : String) : Prop :=
  ¬ ∃ chain : Nat → String, chain 0 = root ∧ ∀ n, Child list (chain n) (chain (n + 1))

/-- Go `v, ok := m[key]`. -/
def GoMap.lookup {α : Type} (m : GoMap α) (key : String) : Option α :=
  match m.find? (fun e => e.1 == key) with
  | some e => some e.2
  | none => none

/-- The pattern compiles: `regexp.Compile` returns an expression and no error. -/
def Compiles (J : GoLib) (pattern : String) : Prop :=
  ∃ re, J.regexpCompile pattern = (some re, none)

/-- The leaf is included by the find request: always when no name pattern is given,
otherwise when the compiled pattern matches it. -/
def included (ref : ExternalSecretFind) (regex : Option (String → Bool)) (leaf : String) :
    Bool :=
  ref.Name.isNone || (match regex with
    | some re => re leaf
    | none => false)

/-- The find request has no name pattern, or its pattern compiles to `regex`. -/
def PatternIs (J : GoLib) (ref : ExternalSecretFind) (regex : Option (String → Bool)) : Prop :=
  (ref.Name = none ∧ regex = none) ∨
    ∃ name re, ref.Name = some name ∧ J.regexpCompile name.RegExp = (some re, none) ∧
      regex = some re

/-- The reference that `filterSecretsListWithRegexp` builds to fetch a leaf. -/
def fetchRef (ref : ExternalSecretFind) (leaf : String) : ExternalSecretDataRemoteRef :=
  { Key := leaf, ConversionStrategy := ref.ConversionStrategy,
    DecodingStrategy := ref.DecodingStrategy }

/-- Fetching a leaf of `leaves` that the request includes returns `fetch leaf`, in whatever
world it is fetched. -/
def FetchesBy {σ : Type} (J : GoLib) (cl : ovhClient σ) (ref : ExternalSecretFind)
    (regex : Option (String → Bool)) (leaves : List String)
    (fetch : String → Bytes × Option GoError) : Prop :=
  ∀ leaf ∈ leaves, included ref regex leaf = true →
    ∀ w : World σ, ∃ w1, GetSecret J cl (fetchRef ref leaf) w = .returns (fetch leaf, w1)

/-- What a run returned, without the world. -/
def Outcome.value {σ α : Type} (o : Outcome (α × World σ)) : Option α :=
  match o with
  | .returns (a, _) => some a
  | _ => none

/-! ## Runs against the fake client -/

/-- The client of the tests: the fake store under the test case `TestCase`. -/
def fakeClient (TestCase : String) : ovhClient Unit :=
  { okmsId := "id", cas := false, okmsClient := FakeOkmsClient refLib TestCase }

/-- What `GetSecret` returns for the key `leaf` against the fake client. -/
def fakeFetch (TestCase leaf : String) : Bytes × Option GoError :=
  match (GetSecret refLib (fakeClient TestCase) { Key := leaf } ⟨(), []⟩).value with
  | some x => x
  | none => ("", none)

/-- The compiled form of the pattern `pattern1` in the reference libraries. -/
def pattern1 : String → Bool :=
  fun s => hasInfix "pattern1".data s.data

/-- The find request for the whole namespace with the name pattern `pattern1`. -/
def findPattern1 : ExternalSecretFind :=
  { Path := none, Name := some { RegExp := "pattern1" } }

/-- The find request for the whole namespace without a name pattern. -/
def findAll : ExternalSecretFind :=
  { Path := none, Name := none }

/-- The find request for the whole namespace with the name pattern `[`, which does not
compile. -/
def findBadPattern : ExternalSecretFind :=
  { Path := none, Name := some { RegExp := "[" } }

/-- A client whose read succeeds with a nil response (`return nil, nil`) and that refuses
every write. -/
def nilReadClient : OkmsClient Unit where
  GetSecretV2 := fun s _ _ _ _ => ((none, none), s)
  GetSecretsMetadata := fun s _ _ _ => ((none, none), s)
  PostSecretV2 := fun s _ _ => (some (GoError.text "read-only"), s)
  PutSecretV2 := fun s _ _ _ _ => (some (GoError.text "read-only"), s)
  DeleteSecretV2 := fun s _ _ => (some (GoError.text "read-only"), s)

/-- The world after the single call `GetSecretV2` of a read of `ref` at the version `v` that
returned the error `e` and left the remote state `s1`. -/
def afterRead {σ : Type} (cl : ovhClient σ) (ref : ExternalSecretDataRemoteRef)
    (v : Option Nat) (e : Option GoError) (s1 : σ) (w : World σ) : World σ :=
  { remote := s1, log := w.log ++ [⟨Call.GetSecretV2 cl.okmsId ref.Key v (some true), e⟩] }

/-! ## Reference definition of the object to push -/

/-- The parse-or-literal rule of the specification: the JSON value the bytes parse to, or
their literal text as a JSON string when the bytes are not valid JSON. -/
def parseOrLiteral (J : GoLib) (value : Bytes) : GoAny :=
  match J.jsonUnmarshal value with
  | .ok decoded => decoded
  | .error _ => .string value

/-- The reference definition of the object to push, in the words of the specification: with
an empty `secretKey` the base object has the keys of the local data, each mapped by the
parse-or-literal rule; with the `secretKey` k it has the single key k built by the same rule;
with a non-empty property p the result is the one-key object that maps p to the base object,
and otherwise it is the base object. -/
def referenceSecretToPush (J : GoLib) (secret : Secret) (data : PushSecretData) : GoMap GoAny :=
  let base : GoMap GoAny :=
    if data.SecretKey = "" then secret.Data.map (fun e => (e.1, parseOrLiteral J e.2))
    else [(data.SecretKey, parseOrLiteral J (secret.Data.getBytes data.SecretKey))]
  if data.Property = "" then base else [(data.Property, .map base)]

mutual
/-- The JSON value a Go value stands for: a `json.RawMessage` stands for the value its bytes
parse to (none when they do not parse), every other value for itself, member by member. -/
def denote (J : GoLib) : GoAny → Option GoAny
  | .nil => some .nil
  | .bool b => some (.bool b)
  | .float64 lit => some (.float64 lit)
  | .string s => some (.string s)
  | .RawMessage b =>
    match J.jsonUnmarshal b with
    | .ok v => some v
    | .error _ => none
  | .slice xs =>
    match denoteElements J xs with
    | some ys => some (.slice ys)
    | none => none
  | .map m =>
    match denoteMembers J m with
    | some n => some (.map n)
    | none => none
def denoteElements (J : GoLib) : List GoAny → Option (List GoAny)
  | [] => some []
  | x :: xs =>
    match denote J x, denoteElements J xs with
    | some y, some ys => some (y :: ys)
    | _, _ => none
def denoteMembers (J : GoLib) : List (String × GoAny) → Option (List (String × GoAny))
  | [] => some []
  | (k, v) :: rest =>
    match denote J v, denoteMembers J rest with
    | some y, some ys => some ((k, y) :: ys)
    | _, _ => none
end

/-- The local secret of the test cases "non-existent remote key" of `TestPushSecret`. -/
def secretNested : Secret :=
  { Data := [("root", "\x7b\"sub1\":\x7b\"value\":\"string\"\x7d,\"sub2\":\"Name\"\x7d"),
             ("test", "\"value\""), ("test1", "\"value1\"")] }

/-- The push descriptor of the test case `Empty Secret Key / Property / Non-Existent Remote
Key`. -/
def pushUnderProperty : PushSecretData :=
  { SecretKey := "", RemoteKey := "non-existent", Property := "property" }

/-- A local secret whose value under `k` is valid JSON with its keys out of order. -/
def secretUnsorted : Secret :=
  { Data := [("k", "\x7b\"b\":1,\"a\":2\x7d")] }

/-! ## `provider.go`: static validation of the store -/

/-- The type `esmeta.SecretKeySelector` (the fields the tests set). -/
structure SecretKeySelector where
  Name : String
  Namespace : Option String
  Key : String

structure OvhClientMTLS where
  ClientCertificate : Option SecretKeySelector
  ClientKey : Option SecretKeySelector

structure OvhClientToken where
  ClientTokenSecret : Option SecretKeySelector

structure OvhAuth where
  ClientMTLS : Option OvhClientMTLS
  ClientToken : Option OvhClientToken

structure OvhProvider where
  Server : String
  OkmsID : String
  CasRequired : Option Bool
  Auth : OvhAuth

/-- The type `esv1.SecretStoreProvider`: its field `Ovh`. -/
structure SecretStoreProvider where
  Ovh : Option OvhProvider

/-- The type `esv1.SecretStoreSpec`: its field `Provider`. -/
structure SecretStoreSpec where
  Provider : Option SecretStoreProvider

/-- A non-nil `esv1.GenericStore`, by the value of its getter `GetSpec`. -/
structure GenericStore where
  GetSpec : Option SecretStoreSpec

/-- The method `ValidateStore`; `store` is `none` for a nil interface and for an interface
holding a nil pointer.  The warnings it returns are always nil. -/
def ValidateStore (store : Option GenericStore) : List String × Option GoError :=
  match store with
  | none => ([], some (.text "store is nil"))
  | some store =>
    match store.GetSpec with
    | none => ([], some (.text "store spec is nil"))
    | some spec =>
      match spec.Provider with
      | none => ([], some (.text "store provider is nil"))
      | some provider =>
        match provider.Ovh with
        | none => ([], some (.text "ovh store provider is nil"))
        | some ovh =>
          let auth := ovh.Auth
          if auth.ClientMTLS.isNone && auth.ClientToken.isNone then
            ([], some (.text "missing authentication method"))
          else if auth.ClientMTLS.isSome && auth.ClientToken.isSome then
            ([], some (.text "only one authentication method allowed (mtls | token)"))
          else if auth.ClientMTLS.isSome &&
              (match auth.ClientMTLS with
                | some mtls => mtls.ClientCertificate.isNone || mtls.ClientKey.isNone
                | none => true) then
            ([], some (.text "missing tls certificate or key"))
          else ([], none)

/-- A store whose OVH provider section carries the authentication `auth`. -/
def ovhStore (auth : OvhAuth) : Option GenericStore :=
  let ovh : OvhProvider :=
    { Server := "string", OkmsID := "11111111-1111-1111-1111-111111111111",
      CasRequired := none, Auth := auth }
  some { GetSpec := some { Provider := some { Ovh := some ovh } } }

/-- The secret reference of the tests. -/
def testSelector : SecretKeySelector :=
  { Name := "string", Namespace := some "namespace", Key := "string" }

/-- A client whose read always succeeds with the response `resp`, and that refuses every
write. -/
def respondingClient (resp : GetSecretV2Response) : OkmsClient Unit where
  GetSecretV2 := fun s _ _ _ _ => ((some resp, none), s)
  GetSecretsMetadata := fun s _ _ _ => ((none, none), s)
  PostSecretV2 := fun s _ _ => (some (GoError.text "read-only"), s)
  PutSecretV2 := fun s _ _ _ _ => (some (GoError.text "read-only"), s)
  DeleteSecretV2 := fun s _ _ => (some (GoError.text "read-only"), s)

/-- The object `buildSecretToPush` builds for a `secretKey` that the local data lacks: the
empty string under that key, wrapped under the property when one is set. -/
def absentKeyObject (data : PushSecretData) : GoMap GoAny :=
  if data.Property = "" then [(data.SecretKey, .string "")]
  else [(data.Property, .map [(data.SecretKey, .string "")])]

/-! ## A store that keeps JSON -/

/-- The state of the JSON store: the JSON text of the data and the version at each path. -/
abbrev JsonState := String → Option (Bytes × Nat)

/-- The response of the JSON store for the text `text` kept at version `version`: the data
is what the text decodes to, as the SDK decodes a response body into a `*map[string]any`. -/
def jsonRead (J : GoLib) (text : Bytes) (version : Nat) :
    Option GetSecretV2Response × Option GoError :=
  match J.jsonUnmarshal text with
  | .ok (.map m) =>
    (some { Metadata := some { CurrentVersion := some version },
            Version := some { Data := some m } }, none)
  | .ok .nil =>
    (some { Metadata := some { CurrentVersion := some version },
            Version := some { Data := none } }, none)
  | _ => (none, some (.text "invalid response body"))

/-- A remote store whose read returns the value last written at a path, as a store behind
the SDK does: a write sends the JSON serialization of its data (the request body), the
store keeps that text with a version counter, and a read decodes the text kept.  It
answers the not-found error (code 17125377) where nothing was written. -/
def jsonStore (J : GoLib) : OkmsClient JsonState where
  GetSecretV2 := fun s _ path _ _ =>
    match s path with
    | none => ((none, some (.KmsError 17125377 "")), s)
    | some (text, version) => (jsonRead J text version, s)
  GetSecretsMetadata := fun s _ _ _ => ((none, some (.text "unsupported")), s)
  PostSecretV2 := fun s _ body =>
    match s body.Path with
    | some _ => (some (.text "secret already exists"), s)
    | none =>
      match J.Marshal (ptrMap body.Version.Data) with
      | (_, some err) => (some err, s)
      | (text, none) => (none, Function.update s body.Path (some (text, 1)))
  PutSecretV2 := fun s _ path cas body =>
    match s path, body.Version with
    | some (_, version), some short =>
      if cas.isSome && cas != some version then (some (.text "cas mismatch"), s)
      else
        match J.Marshal (ptrMap short.Data) with
        | (_, some err) => (some err, s)
        | (text, none) => (none, Function.update s path (some (text, version + 1)))
    | _, _ => (some (.text "secret not found"), s)
  DeleteSecretV2 := fun s _ path => (none, Function.update s path none)

/-- The client of the JSON store, without CAS. -/
def jsonClient : ovhClient JsonState :=
  { okmsId := "id", cas := false, okmsClient := jsonStore refLib }

/-- The empty JSON store, with an empty log. -/
def jsonEmpty : World JsonState :=
  { remote := fun _ => none, log := [] }

/-- The push descriptor for the single key `k` at the remote key `remote`. -/
def pushKeyK : PushSecretData :=
  { SecretKey := "k", RemoteKey := "remote", Property := "" }

/-- The world after `n` consecutive pushes of `secretUnsorted` under `data` to the empty
JSON store. -/
def jsonAfter (data : PushSecretData) : Nat → World JsonState
  | 0 => jsonEmpty
  | n + 1 =>
    worldAfter (PushSecret refLib jsonClient (some secretUnsorted) data (jsonAfter data n))
      (jsonAfter data n)

/-! ## Theorems: enumeration -/

theorem rangeKeys_mono {σ : Type}
    {f g : String → World σ → Outcome ((List String × Option GoError) × World σ)}
    (h : ∀ p w x, f p w = .returns x → g p w = .returns x) (path : String) :
    ∀ keys acc w x, rangeKeys f path keys acc w = .returns x →
      rangeKeys g path keys acc w = .returns x := by
  intro keys
  induction keys with
  | nil => intro acc w x hx; simpa [rangeKeys] using hx
  | cons key rest ih =>
    intro acc w x hx
    by_cases h1 : (key != "" && key.data.head? != some '/') = true
    · by_cases h2 : lastIsSlash key = true
      · simp only [rangeKeys, h1, h2, if_true] at hx ⊢
        split at hx
        · rename_i r toAppend w1 hf
          rw [h _ _ _ hf]
          exact ih _ _ _ hx
        · rename_i r a err w1 hf
          rw [h _ _ _ hf]
          exact hx
        · cases hx
        · cases hx
      · simp only [rangeKeys, h1, h2, if_true] at hx ⊢
        exact ih _ _ _ hx
    · simp only [rangeKeys, h1] at hx ⊢
      exact ih _ _ _ hx

theorem recursivelyGetSecretsList_succ {σ : Type} (c : OkmsClient σ) (okmsId : String) :
    ∀ fuel path w x, recursivelyGetSecretsList c okmsId fuel path w = .returns x →
      recursivelyGetSecretsList c okmsId (fuel + 1) path w = .returns x := by
  intro fuel
  induction fuel with
  | zero => intro path w x hx; simp [recursivelyGetSecretsList] at hx
  | succ n ih =>
    intro path w x hx
    rw [recursivelyGetSecretsList] at hx ⊢
    by_cases hp : (path != "" && path.data.head? == some '/') = true
    · simpa [hp] using hx
    · simp only [hp] at hx ⊢
      rcases hc : callGetSecretsMetadata c okmsId path true w with ⟨⟨secrets, e⟩, w1⟩
      rw [hc] at hx
      cases e with
      | some err => exact hx
      | none =>
        simp only at hx ⊢
        by_cases hk : noKeys secrets = true
        · simpa [hk] using hx
        · simp only [hk] at hx ⊢
          exact rangeKeys_mono ih path _ _ _ _ hx

theorem recursivelyGetSecretsList_mono {σ : Type} (c : OkmsClient σ) (okmsId : String)
    {fuel k : Nat} (hk : fuel ≤ k) {path : String} {w : World σ}
    {x : (List String × Option GoError) × World σ}
    (hx : recursivelyGetSecretsList c okmsId fuel path w = .returns x) :
    recursivelyGetSecretsList c okmsId k path w = .returns x := by
  induction hk with
  | refl => exact hx
  | step _ ih => exact recursivelyGetSecretsList_succ c okmsId _ _ _ _ ih

theorem rangeKeys_indep {σ : Type}
    {f : String → World σ → Outcome ((List String × Option GoError) × World σ)}
    (h : ∀ p w v w1, f p w = .returns (v, w1) → ∀ w2, ∃ w3, f p w2 = .returns (v, w3))
    (path : String) :
    ∀ keys acc w v w1, rangeKeys f path keys acc w = .returns (v, w1) →
      ∀ w2, ∃ w3, rangeKeys f path keys acc w2 = .returns (v, w3) := by
  intro keys
  induction keys with
  | nil =>
    intro acc w v w1 hx w2
    simp only [rangeKeys, Outcome.returns.injEq, Prod.mk.injEq] at hx ⊢
    exact ⟨w2, hx.1, rfl⟩
  | cons key rest ih =>
    intro acc w v w1 hx w2
    by_cases h1 : (key != "" && key.data.head? != some '/') = true
    · by_cases h2 : lastIsSlash key = true
      · simp only [rangeKeys, h1, h2, if_true] at hx ⊢
        split at hx
        · rename_i r toAppend w4 hf
          obtain ⟨w5, hw5⟩ := h _ _ _ _ hf w2
          rw [hw5]
          exact ih _ _ _ _ hx _
        · rename_i r a err w4 hf
          obtain ⟨w5, hw5⟩ := h _ _ _ _ hf w2
          rw [hw5]
          simp only [Outcome.returns.injEq, Prod.mk.injEq] at hx ⊢
          exact ⟨w5, hx.1, rfl⟩
        · cases hx
        · cases hx
      · simp only [rangeKeys, h1, h2, if_true] at hx ⊢
        exact ih _ _ _ _ hx _
    · simp only [rangeKeys, h1] at hx ⊢
      exact ih _ _ _ _ hx _

theorem recursivelyGetSecretsList_indep {σ : Type} (c : OkmsClient σ) (okmsId : String)
    (list : String → Option GetMetadataResponse × Option GoError) (hlist : ListsBy c list) :
    ∀ fuel path w v w1, recursivelyGetSecretsList c okmsId fuel path w = .returns (v, w1) →
      ∀ w2, ∃ w3, recursivelyGetSecretsList c okmsId fuel path w2 = .returns (v, w3) := by
  intro fuel
  induction fuel with
  | zero => intro path w v w1 hx; simp [recursivelyGetSecretsList] at hx
  | succ n ih =>
    intro path w v w1 hx w2
    rw [recursivelyGetSecretsList] at hx ⊢
    by_cases hp : (path != "" && path.data.head? == some '/') = true
    · simp only [hp, if_true, Outcome.returns.injEq, Prod.mk.injEq] at hx ⊢
      exact ⟨w2, hx.1, rfl⟩
    · simp only [hp, callGetSecretsMetadata, hlist _ _ _ _, Bool.false_eq_true, if_false]
        at hx ⊢
      rcases hl : list path with ⟨secrets, e⟩
      rw [hl] at hx
      cases e with
      | some err =>
        simp only [Outcome.returns.injEq, Prod.mk.injEq] at hx ⊢
        first | exact hx.1 | exact ⟨_, hx.1, rfl⟩
      | none =>
        simp only at hx ⊢
        by_cases hk : noKeys secrets = true
        · simp only [hk, if_true, Outcome.returns.injEq, Prod.mk.injEq] at hx ⊢
          first | exact hx.1 | exact ⟨_, hx.1, rfl⟩
        · simp only [hk, Bool.false_eq_true, if_false] at hx ⊢
          exact rangeKeys_indep ih path _ _ _ _ _ hx _

theorem lastIsSlash_iff (s : String) : lastIsSlash s = true ↔ s.data.getLast? = some '/' := by
  simp [lastIsSlash, List.getLast?_eq_getElem?]

theorem dropLastByte_eq (s : String) : dropLastByte s = String.mk s.data.dropLast := by
  simp [dropLastByte, List.dropLast_eq_take]

theorem eq_append_slash {e : String} (h : e.data.getLast? = some '/') :
    e = String.mk e.data.dropLast ++ "/" := by
  apply String.ext
  have := List.dropLast_append_getLast? '/' (by simpa using h)
  simpa using this.symm

/-- The loop over the listed entries, for a client that lists by a function: with enough
fuel it returns the accumulated list extended by the contribution of every entry. -/
theorem rangeKeys_concat {σ : Type} (c : OkmsClient σ) (okmsId : String)
    (list : String → Option GetMetadataResponse × Option GoError) (hlist : ListsBy c list)
    (root : String) (sub : String → List String) :
    ∀ rest : List String,
      (∀ s, s ++ "/" ∈ rest → (s ++ "/").data.head? ≠ some '/' →
        ∃ w fuel w1, recursivelyGetSecretsList c okmsId fuel (joinPath root s) w
          = .returns ((sub (joinPath root s), none), w1)) →
      ∀ acc w, ∃ fuel w1, rangeKeys (recursivelyGetSecretsList c okmsId fuel) root rest acc w
        = .returns ((acc ++ rest.flatMap (contribution root sub), none), w1) := by
  intro rest
  induction rest with
  | nil => intro _ acc w; exact ⟨0, w, by simp [rangeKeys]⟩
  | cons key rest ih =>
    intro hsub acc w
    have hrest := ih (fun s hs => hsub s (List.mem_cons_of_mem _ hs))
    by_cases h1 : (key != "" && key.data.head? != some '/') = true
    · have h1a : ¬ (key = "" ∨ key.data.head? = some '/') := by
        simpa [not_or] using h1
      by_cases h2 : lastIsSlash key = true
      · have h2a := (lastIsSlash_iff key).1 h2
        have hkey := eq_append_slash h2a
        obtain ⟨w0, f1, w0a, hrec⟩ := hsub (String.mk key.data.dropLast)
          (by rw [← hkey]; exact List.mem_cons_self _ _)
          (by rw [← hkey]; exact fun h => h1a (Or.inr h))
        obtain ⟨w2, hrec2⟩ := recursivelyGetSecretsList_indep c okmsId list hlist _ _ _ _ _ hrec w
        obtain ⟨f2, w3, hloop⟩ := hrest (acc ++ sub (joinPath root (String.mk key.data.dropLast))) w2
        refine ⟨max f1 f2, w3, ?_⟩
        have hrec3 := recursivelyGetSecretsList_mono c okmsId (le_max_left f1 f2) hrec2
        have hloop3 := rangeKeys_mono
          (fun p w x hx => recursivelyGetSecretsList_mono c okmsId (le_max_right f1 f2) hx)
          root _ _ _ _ hloop
        have hpath : (if (root != "") = true then root ++ "/" ++ dropLastByte key
            else dropLastByte key) = joinPath root (String.mk key.data.dropLast) := by
          rw [dropLastByte_eq]; by_cases hr : root = "" <;> simp [joinPath, hr]
        simp only [rangeKeys, h1, h2, if_true, hpath, hrec3]
        simpa [contribution, h1a, h2a, List.append_assoc] using hloop3
      · have h2a : ¬ key.data.getLast? = some '/' := fun h => h2 ((lastIsSlash_iff key).2 h)
        obtain ⟨f2, w3, hloop⟩ := hrest (acc ++ [joinPath root key]) w
        refine ⟨f2, w3, ?_⟩
        have hleaf : (if (root == "") = true then [key] else [root ++ "/" ++ key])
            = [joinPath root key] := by
          by_cases hr : root = "" <;> simp [joinPath, hr]
        simp only [rangeKeys, h1, h2, if_true, hleaf, Bool.false_eq_true, if_false]
        simpa [contribution, h1a, h2a, List.append_assoc] using hloop
    · have h1a : key = "" ∨ key.data.head? = some '/' := by
        by_contra hc
        exact h1 (by simpa [not_or] using hc)
      obtain ⟨f2, w3, hloop⟩ := hrest acc w
      refine ⟨f2, w3, ?_⟩
      simp only [rangeKeys, h1, Bool.false_eq_true, if_false]
      simpa [contribution, h1a] using hloop

theorem derefKeys_of_noKeys {secrets : Option GetMetadataResponse}
    (h : noKeys secrets = true) : derefKeys secrets = [] := by
  rcases secrets with _ | ⟨_ | ⟨_ | keys⟩⟩ <;> simp_all [noKeys, derefKeys]

/-- C1: for a client that lists by a function `list` and a root that does not begin with `/`,
when the listing of the root succeeds with entries `e1..en` and the enumeration of every
namespace entry `s ++ "/"` returns `sub (joinPath root s)`, then (with enough fuel)
`recursivelyGetSecretsList` returns without error the concatenation, in listing order, of
the contributions of the entries: nothing for an entry that is empty or begins with `/`, the
enumeration of `joinPath root s` for an entry `s ++ "/"`, and the single path
`joinPath root e` for any other entry; and it returns nothing else, whatever the fuel. -/
theorem recursivelyGetSecretsList_eq_concat {σ : Type} (c : OkmsClient σ) (okmsId : String)
    (list : String → Option GetMetadataResponse × Option GoError) (hlist : ListsBy c list)
    (root : String) (hroot : root.data.head? ≠ some '/')
    (hok : (list root).2 = none)
    (sub : String → List String)
    (hsub : ∀ s, s ++ "/" ∈ derefKeys (list root).1 → (s ++ "/").data.head? ≠ some '/' →
      ∃ w fuel w1, recursivelyGetSecretsList c okmsId fuel (joinPath root s) w
        = .returns ((sub (joinPath root s), none), w1))
    (w : World σ) :
    (∃ fuel w1, recursivelyGetSecretsList c okmsId fuel root w
      = .returns (((derefKeys (list root).1).flatMap (contribution root sub), none), w1)) ∧
    (∀ fuel res w1, recursivelyGetSecretsList c okmsId fuel root w = .returns (res, w1) →
      res = ((derefKeys (list root).1).flatMap (contribution root sub), none)) := by
  have hex : ∃ fuel w1, recursivelyGetSecretsList c okmsId fuel root w
      = .returns (((derefKeys (list root).1).flatMap (contribution root sub), none), w1) := by
    obtain ⟨f, w1, hloop⟩ := rangeKeys_concat c okmsId list hlist root sub _ hsub []
      { remote := w.remote,
        log := w.log ++ [⟨Call.GetSecretsMetadata okmsId root true, (list root).2⟩] }
    have hp : ¬ (root != "" && root.data.head? == some '/') = true := by
      simp [hroot]
    rcases hl : list root with ⟨secrets, e⟩
    rw [hl] at hok hloop
    simp only at hok hloop
    subst hok
    by_cases hk : noKeys secrets = true
    · refine ⟨1,
        { remote := w.remote,
          log := w.log ++ [⟨Call.GetSecretsMetadata okmsId root true, none⟩] },
        ?_⟩
      rw [recursivelyGetSecretsList]
      simp only [hp, callGetSecretsMetadata, hlist _ _ _ _, hl, hk, Bool.false_eq_true,
        if_false, if_true, derefKeys_of_noKeys hk, List.flatMap_nil]
    · refine ⟨f + 1, w1, ?_⟩
      rw [recursivelyGetSecretsList]
      simp only [hp, callGetSecretsMetadata, hlist _ _ _ _, hl, hk, Bool.false_eq_true,
        if_false]
      simpa using hloop
  refine ⟨hex, ?_⟩
  intro fuel res w1 hres
  obtain ⟨f0, w0, h0⟩ := hex
  have ha := recursivelyGetSecretsList_mono c okmsId (le_max_left fuel f0) hres
  have hb := recursivelyGetSecretsList_mono c okmsId (le_max_right fuel f0) h0
  rw [ha] at hb
  simp only [Outcome.returns.injEq, Prod.mk.injEq] at hb
  exact hb.1

theorem append_slash_eq_path {s : String} (h : s ++ "/" ∈ ["path/"]) : s = "path" := by
  have h1 : s ++ "/" = "path" ++ "/" := by simpa using h
  apply String.ext
  have h2 := congrArg String.data h1
  simp only [String.data_append] at h2
  exact List.append_cancel_right h2

/-- C1, witness: over the namespace holding `path/to/secret1`, `path/secret2` and
`path/secrets/secret3`, the enumeration from the empty root returns exactly these three
paths, in this order. -/
theorem recursivelyGetSecretsList_eq_concat_witness :
    (∃ fuel w1, recursivelyGetSecretsList (listingClient docListing) "id" fuel "" ⟨(), []⟩
      = .returns ((["path/to/secret1", "path/secret2", "path/secrets/secret3"], none), w1)) ∧
    (∀ fuel res w1, recursivelyGetSecretsList (listingClient docListing) "id" fuel "" ⟨(), []⟩
        = .returns (res, w1) →
      res = (["path/to/secret1", "path/secret2", "path/secrets/secret3"], none)) :=
  recursivelyGetSecretsList_eq_concat (listingClient docListing) "id" docListing
    (fun _ _ _ _ => rfl) "" (by decide) rfl docSub
    (fun s hs _ => by
      have hs1 : s = "path" := append_slash_eq_path hs
      subst hs1
      exact ⟨⟨(), []⟩, 2, _, rfl⟩)
    ⟨(), []⟩

theorem data_append_two_slashes (q : String) : (q ++ "//").data = q.data ++ ['/', '/'] := by
  simp [String.data_append]

theorem getElem?_append_two (l : List Char) (a b : Char) :
    (l ++ [a, b])[(l ++ [a, b]).length - 1]? = some b ∧
    (l ++ [a, b])[(l ++ [a, b]).length - 2]? = some a := by
  constructor
  · rw [← List.getLast?_eq_getElem?]; simp
  · have h : (l ++ [a, b]).length - 2 = l.length := by simp
    rw [h, List.getElem?_append_right (le_refl _)]; simp

/-- C7: for every prefix whose last two characters are both `/` (a prefix `q ++ "//"`, of
length at least 2), `getSecretsList` returns the empty list and no error, whatever the fuel,
and leaves the world as it found it: no listing call (no call at all) is made. -/
theorem getSecretsList_double_slash {σ : Type} (c : OkmsClient σ) (okmsId : String)
    (fuel : Nat) (q : String) (w : World σ) :
    getSecretsList c okmsId fuel (some (q ++ "//")) w = .returns (([], none), w) := by
  have hne : ¬ (q ++ "//") = "" := by
    intro h
    have := congrArg String.data h
    simp [String.data_append] at this
  have hidx := getElem?_append_two q.data '/' '/'
  simp only [getSecretsList, data_append_two_slashes, hidx.1, hidx.2]
  simp [hne]

theorem two_slash_test (l : List Char) :
    (decide (l.length > 1) && l[l.length - 1]? == some '/' && l[l.length - 2]? == some '/')
      = (l.reverse.take 2 == ['/', '/']) := by
  rcases List.eq_nil_or_concat l with rfl | ⟨l1, a, rfl⟩
  · simp
  · rcases List.eq_nil_or_concat l1 with rfl | ⟨l2, b, rfl⟩
    · simp
    · have h := getElem?_append_two l2 b a
      have hl : (l2.concat b).concat a = l2 ++ [b, a] := by simp
      rw [hl, h.1, h.2]
      simp [Bool.and_comm]

/-- For a prefix that does not end in two `/` characters, `getSecretsList` enumerates from
the canonical root. -/
theorem getSecretsList_canonical {σ : Type} (c : OkmsClient σ) (okmsId : String)
    (fuel : Nat) (w : World σ) (path : Option String)
    (hpath : ∀ p, path = some p → endsInTwoSlashes p = false) :
    getSecretsList c okmsId fuel path w
      = recursivelyGetSecretsList c okmsId fuel (canonicalRoot path) w := by
  cases path with
  | none => simp [getSecretsList, canonicalRoot, lastIsSlash]
  | some p =>
    have h2 := hpath p rfl
    by_cases hp : p = ""
    · subst hp; simp [getSecretsList, canonicalRoot, lastIsSlash]
    · have hcond : (decide (p.data.length > 1) && p.data[p.data.length - 1]? == some '/'
          && p.data[p.data.length - 2]? == some '/') = false := by
        rw [two_slash_test]; exact h2
      have hbeq : (p == "") = false := by simpa using hp
      simp only [getSecretsList, hbeq, hcond, Bool.false_eq_true, if_false]
      by_cases hl : p.data.getLast? = some '/'
      · have hl1 : lastIsSlash p = true := (lastIsSlash_iff p).2 hl
        by_cases hs : p = "/"
        · subst hs; simp [canonicalRoot, lastIsSlash, dropLastByte]
        · simp [canonicalRoot, hp, hs, hl, hl1, dropLastByte_eq]
      · have hl1 : lastIsSlash p = false := by
          cases h : lastIsSlash p
          · rfl
          · exact absurd ((lastIsSlash_iff p).1 h) hl
        have hs : p ≠ "/" := by
          intro h; subst h; exact hl (by decide)
        simp [canonicalRoot, hp, hs, hl, hl1]

/-- C8: for every optional prefix that does not end in two `/` characters, `getSecretsList`
is `recursivelyGetSecretsList` at the canonical root (empty for a nil or empty prefix and
for `/`, the prefix without its last character when it ends in one `/`, the prefix itself
otherwise); in particular `p ++ "/"` and `p` enumerate alike for every non-empty `p` that
does not end in `/`. -/
theorem getSecretsList_eq_canonicalRoot {σ : Type} (c : OkmsClient σ) (okmsId : String)
    (fuel : Nat) (w : World σ) :
    (∀ path : Option String, (∀ p, path = some p → endsInTwoSlashes p = false) →
      getSecretsList c okmsId fuel path w
        = recursivelyGetSecretsList c okmsId fuel (canonicalRoot path) w) ∧
    (∀ p : String, p ≠ "" → p.data.getLast? ≠ some '/' →
      getSecretsList c okmsId fuel (some (p ++ "/")) w
        = getSecretsList c okmsId fuel (some p) w) := by
  have main : ∀ path : Option String, (∀ p, path = some p → endsInTwoSlashes p = false) →
      getSecretsList c okmsId fuel path w
        = recursivelyGetSecretsList c okmsId fuel (canonicalRoot path) w :=
    fun path hpath => getSecretsList_canonical c okmsId fuel w path hpath
  refine ⟨main, ?_⟩
  intro p hp hl
  have hdata : (p ++ "/").data = p.data ++ ['/'] := by simp [String.data_append]
  have h1 : endsInTwoSlashes (p ++ "/") = false := by
    rcases List.eq_nil_or_concat p.data with h | ⟨l, a, h⟩
    · exact absurd (String.ext h) hp
    · have ha : a ≠ '/' := by
        intro ha; apply hl; rw [h]; simp [ha]
      simp [endsInTwoSlashes, hdata, h, ha]
  have h2 : endsInTwoSlashes p = false := by
    rcases List.eq_nil_or_concat p.data with h | ⟨l, a, h⟩
    · exact absurd (String.ext h) hp
    · have ha : a ≠ '/' := by
        intro ha; apply hl; rw [h]; simp [ha]
      simp [endsInTwoSlashes, h, ha]
  rw [main (some (p ++ "/")) (by intro q hq; cases hq; exact h1),
    main (some p) (by intro q hq; cases hq; exact h2)]
  have hne : ¬ (p ++ "/" = "") := by
    intro h; have := congrArg String.data h; simp [hdata] at this
  have hne2 : ¬ (p ++ "/" = "/") := by
    intro h; have := congrArg String.data h
    rw [hdata] at this
    have h3 : p.data = [] := by simpa using this
    exact hp (String.ext h3)
  have hp2 : ¬ (p = "/") := by
    intro h; subst h; exact hl (by decide)
  have hlast : (p ++ "/").data.getLast? = some '/' := by simp [hdata]
  have hdrop : String.mk (p ++ "/").data.dropLast = p := by
    apply String.ext; simp [hdata]
  simp only [canonicalRoot, hne, hne2, hp, hp2, hl, hlast, hdrop, or_self, if_false, if_true]

/-- C8, witness: the prefix `path/` is enumerated from the root `path`, like the prefix
`path`. -/
theorem getSecretsList_eq_canonicalRoot_witness :
    getSecretsList (listingClient docListing) "id" 3 (some "path/") ⟨(), []⟩
      = recursivelyGetSecretsList (listingClient docListing) "id" 3 "path" ⟨(), []⟩ ∧
    getSecretsList (listingClient docListing) "id" 3 (some ("path" ++ "/")) ⟨(), []⟩
      = getSecretsList (listingClient docListing) "id" 3 (some "path") ⟨(), []⟩ :=
  ⟨(getSecretsList_eq_canonicalRoot (listingClient docListing) "id" 3 ⟨(), []⟩).1
      (some "path/") (by intro p hp; cases hp; decide),
   (getSecretsList_eq_canonicalRoot (listingClient docListing) "id" 3 ⟨(), []⟩).2
      "path" (by decide) (by decide)⟩

theorem wellFormed_leaf {path key : String} (hpath : path.data.head? ≠ some '/')
    (h1 : (key != "" && key.data.head? != some '/') = true) (h2 : ¬ lastIsSlash key = true) :
    ∀ x ∈ (if (path == "") = true then [key] else [path ++ "/" ++ key]), WellFormedPath x := by
  have hk : key ≠ "" ∧ key.data.head? ≠ some '/' := by simpa using h1
  have hl : key.data.getLast? ≠ some '/' := fun h => h2 ((lastIsSlash_iff key).2 h)
  have hkd : key.data ≠ [] := fun h => hk.1 (String.ext h)
  by_cases hp : path = ""
  · subst hp
    intro x hx
    have hx1 : x = key := by simpa using hx
    subst hx1
    exact ⟨hk.1, hk.2, hl⟩
  · have hpd : path.data ≠ [] := fun h => hp (String.ext h)
    intro x hx
    have hx1 : x = path ++ "/" ++ key := by simpa [hp] using hx
    subst hx1
    have hdata : (path ++ "/" ++ key).data = path.data ++ ('/' :: key.data) := by
      simp [String.data_append]
    refine ⟨?_, ?_, ?_⟩
    · intro h
      have := congrArg String.data h
      rw [hdata] at this
      simp at this
    · rw [hdata]
      cases hd : path.data with
      | nil => exact absurd hd hpd
      | cons a l => rw [hd] at hpath; simpa using hpath
    · rw [hdata, List.getLast?_append_of_ne_nil _ (by simp)]
      cases hkd2 : key.data with
      | nil => exact absurd hkd2 hkd
      | cons a l => rw [hkd2] at hl; rw [List.getLast?_cons_cons]; exact hl

theorem rangeKeys_wellFormed {σ : Type}
    {f : String → World σ → Outcome ((List String × Option GoError) × World σ)}
    (hf : ∀ p w res w1, f p w = .returns (res, w1) → ∀ x ∈ res.1, WellFormedPath x)
    (path : String) (hpath : path.data.head? ≠ some '/') :
    ∀ keys acc w res w1, (∀ x ∈ acc, WellFormedPath x) →
      rangeKeys f path keys acc w = .returns (res, w1) → ∀ x ∈ res.1, WellFormedPath x := by
  intro keys
  induction keys with
  | nil =>
    intro acc w res w1 hacc hx
    simp only [rangeKeys, Outcome.returns.injEq, Prod.mk.injEq] at hx
    rw [← hx.1]; exact hacc
  | cons key rest ih =>
    intro acc w res w1 hacc hx
    by_cases h1 : (key != "" && key.data.head? != some '/') = true
    · by_cases h2 : lastIsSlash key = true
      · simp only [rangeKeys, h1, h2, if_true] at hx
        split at hx
        · rename_i r toAppend w4 hr
          refine ih _ _ _ _ ?_ hx
          intro x hxm
          rcases List.mem_append.1 hxm with h | h
          · exact hacc x h
          · exact hf _ _ _ _ hr x h
        · rename_i r a err w4 hr
          simp only [Outcome.returns.injEq, Prod.mk.injEq] at hx
          rw [← hx.1]; simp
        · cases hx
        · cases hx
      · simp only [rangeKeys, h1, h2, if_true, Bool.false_eq_true, if_false] at hx
        refine ih _ _ _ _ ?_ hx
        intro x hxm
        rcases List.mem_append.1 hxm with h | h
        · exact hacc x h
        · exact wellFormed_leaf hpath h1 h2 x h
    · simp only [rangeKeys, h1, Bool.false_eq_true, if_false] at hx
      exact ih _ _ _ _ hacc hx

/-- C9: for every client and every root, every path that `recursivelyGetSecretsList`
returns is a well-formed secret path (non-empty, not beginning with `/`, not ending with
`/`); and for a root that begins with `/` it returns the empty list, without error and
without any call, as soon as it has fuel to start. -/
theorem recursivelyGetSecretsList_wellFormed {σ : Type} (c : OkmsClient σ)
    (okmsId : String) :
    (∀ fuel root w res w1, recursivelyGetSecretsList c okmsId fuel root w = .returns (res, w1) →
      ∀ p ∈ res.1, WellFormedPath p) ∧
    (∀ fuel root w, root.data.head? = some '/' →
      recursivelyGetSecretsList c okmsId (fuel + 1) root w = .returns (([], none), w)) := by
  constructor
  · intro fuel
    induction fuel with
    | zero => intro root w res w1 hx; simp [recursivelyGetSecretsList] at hx
    | succ n ih =>
      intro root w res w1 hx
      rw [recursivelyGetSecretsList] at hx
      by_cases hp : (root != "" && root.data.head? == some '/') = true
      · simp only [hp, if_true, Outcome.returns.injEq, Prod.mk.injEq] at hx
        rw [← hx.1]; simp
      · simp only [hp, Bool.false_eq_true, if_false] at hx
        have hroot : root.data.head? ≠ some '/' := by
          intro h
          apply hp
          have hne : root ≠ "" := by
            intro h0; subst h0; simp at h
          simp [hne, h]
        rcases hc : callGetSecretsMetadata c okmsId root true w with ⟨⟨secrets, e⟩, w2⟩
        rw [hc] at hx
        cases e with
        | some err =>
          simp only [Outcome.returns.injEq, Prod.mk.injEq] at hx
          rw [← hx.1]; simp
        | none =>
          simp only at hx
          by_cases hk : noKeys secrets = true
          · simp only [hk, if_true, Outcome.returns.injEq, Prod.mk.injEq] at hx
            rw [← hx.1]; simp
          · simp only [hk, Bool.false_eq_true, if_false] at hx
            exact rangeKeys_wellFormed ih root hroot _ _ _ _ _ (by simp) hx
  · intro fuel root w h
    have hne : root ≠ "" := by
      intro h0; subst h0; simp at h
    rw [recursivelyGetSecretsList]
    simp [hne, h]

/-- C9, witness: the three paths enumerated over the documented namespace are
well-formed, and the root `/path` is answered with the empty list and no call. -/
theorem recursivelyGetSecretsList_wellFormed_witness :
    (∀ p ∈ ["path/to/secret1", "path/secret2", "path/secrets/secret3"], WellFormedPath p) ∧
    recursivelyGetSecretsList (listingClient docListing) "id" 1 "/path" ⟨(), []⟩
      = .returns (([], none), ⟨(), []⟩) :=
  ⟨(recursivelyGetSecretsList_wellFormed (listingClient docListing) "id").1 3 "" ⟨(), []⟩
      (["path/to/secret1", "path/secret2", "path/secrets/secret3"], none) _ rfl,
   (recursivelyGetSecretsList_wellFormed (listingClient docListing) "id").2 0 "/path" ⟨(), []⟩
      (by decide)⟩

theorem EnumLog.nil (res : List String) : EnumLog [] res none := by
  simp [EnumLog]

theorem EnumLog.append {new1 new2 : List Event} {res1 res2 : List String}
    {oe : Option GoError} (h1 : EnumLog new1 res1 none) (h2 : EnumLog new2 res2 oe) :
    EnumLog (new1 ++ new2) res2 oe := by
  obtain ⟨h1a, h1b⟩ := h1
  obtain ⟨h2a, h2b⟩ := h2
  refine ⟨?_, ?_⟩
  · intro ev hev
    rcases List.mem_append.1 hev with h | h
    · exact h1a ev h
    · exact h2a ev h
  · cases oe with
    | none =>
      intro ev hev
      rcases List.mem_append.1 hev with h | h
      · exact h1b ev h
      · exact h2b ev h
    | some e =>
      obtain ⟨hres, pre, last, hnew, hlast, hpre⟩ := h2b
      refine ⟨hres, new1 ++ pre, last, by rw [hnew, List.append_assoc], hlast, ?_⟩
      intro ev hev
      rcases List.mem_append.1 hev with h | h
      · exact h1b ev h
      · exact hpre ev h

theorem rangeKeys_log {σ : Type}
    {f : String → World σ → Outcome ((List String × Option GoError) × World σ)}
    (hf : ∀ p w res oe w1, f p w = .returns ((res, oe), w1) →
      ∃ new, w1.log = w.log ++ new ∧ EnumLog new res oe)
    (path : String) :
    ∀ keys acc w res oe w1, rangeKeys f path keys acc w = .returns ((res, oe), w1) →
      ∃ new, w1.log = w.log ++ new ∧ EnumLog new res oe := by
  intro keys
  induction keys with
  | nil =>
    intro acc w res oe w1 hx
    simp only [rangeKeys, Outcome.returns.injEq, Prod.mk.injEq] at hx
    obtain ⟨⟨_, hoe⟩, hw⟩ := hx
    subst hoe; subst hw
    exact ⟨[], by simp, EnumLog.nil _⟩
  | cons key rest ih =>
    intro acc w res oe w1 hx
    by_cases h1 : (key != "" && key.data.head? != some '/') = true
    · by_cases h2 : lastIsSlash key = true
      · simp only [rangeKeys, h1, h2, if_true] at hx
        split at hx
        · rename_i r toAppend w4 hr
          obtain ⟨new1, hlog1, hen1⟩ := hf _ _ _ _ _ hr
          obtain ⟨new2, hlog2, hen2⟩ := ih _ _ _ _ _ hx
          exact ⟨new1 ++ new2, by rw [hlog2, hlog1, List.append_assoc],
            EnumLog.append hen1 hen2⟩
        · rename_i r a err w4 hr
          obtain ⟨new1, hlog1, hen1⟩ := hf _ _ _ _ _ hr
          simp only [Outcome.returns.injEq, Prod.mk.injEq] at hx
          obtain ⟨⟨hres, hoe⟩, hw⟩ := hx
          subst hres; subst hoe; subst hw
          exact ⟨new1, hlog1, hen1.1, rfl, hen1.2.2⟩
        · cases hx
        · cases hx
      · simp only [rangeKeys, h1, h2, if_true, Bool.false_eq_true, if_false] at hx
        exact ih _ _ _ _ _ hx
    · simp only [rangeKeys, h1, Bool.false_eq_true, if_false] at hx
      exact ih _ _ _ _ _ hx

theorem recursivelyGetSecretsList_log {σ : Type} (c : OkmsClient σ) (okmsId : String) :
    ∀ fuel root w res oe w1,
      recursivelyGetSecretsList c okmsId fuel root w = .returns ((res, oe), w1) →
      ∃ new, w1.log = w.log ++ new ∧ EnumLog new res oe := by
  intro fuel
  induction fuel with
  | zero => intro root w res oe w1 hx; simp [recursivelyGetSecretsList] at hx
  | succ n ih =>
    intro root w res oe w1 hx
    rw [recursivelyGetSecretsList] at hx
    by_cases hp : (root != "" && root.data.head? == some '/') = true
    · simp only [hp, if_true, Outcome.returns.injEq, Prod.mk.injEq] at hx
      obtain ⟨⟨_, hoe⟩, hw⟩ := hx
      subst hoe; subst hw
      exact ⟨[], by simp, EnumLog.nil _⟩
    · simp only [hp, Bool.false_eq_true, if_false] at hx
      rcases hc : c.GetSecretsMetadata w.remote okmsId root true with ⟨⟨secrets, e⟩, s2⟩
      simp only [callGetSecretsMetadata, hc] at hx
      cases e with
      | some err =>
        simp only [Outcome.returns.injEq, Prod.mk.injEq] at hx
        obtain ⟨⟨hres, hoe⟩, hw⟩ := hx
        subst hres; subst hoe; subst hw
        refine ⟨[⟨Call.GetSecretsMetadata okmsId root true, some err⟩], rfl, ?_, rfl,
          [], _, rfl, rfl, by simp⟩
        simp [isListingCall]
      | none =>
        simp only at hx
        have hone : EnumLog [⟨Call.GetSecretsMetadata okmsId root true, none⟩]
            ([] : List String) none := by
          simp [EnumLog, isListingCall]
        by_cases hk : noKeys secrets = true
        · simp only [hk, if_true, Outcome.returns.injEq, Prod.mk.injEq] at hx
          obtain ⟨⟨hres, hoe⟩, hw⟩ := hx
          subst hres; subst hoe; subst hw
          exact ⟨_, rfl, hone⟩
        · simp only [hk, Bool.false_eq_true, if_false] at hx
          obtain ⟨new2, hlog2, hen2⟩ := rangeKeys_log ih root _ _ _ _ _ _ hx
          exact ⟨_ :: new2, by rw [hlog2]; simp, EnumLog.append hone hen2⟩

theorem getSecretsList_log {σ : Type} (c : OkmsClient σ) (okmsId : String) (fuel : Nat)
    (path : Option String) (w : World σ) (res : List String) (oe : Option GoError)
    (w1 : World σ) (hx : getSecretsList c okmsId fuel path w = .returns ((res, oe), w1)) :
    ∃ new, w1.log = w.log ++ new ∧ EnumLog new res oe := by
  simp only [getSecretsList] at hx
  split at hx
  · simp only [Outcome.returns.injEq, Prod.mk.injEq] at hx
    obtain ⟨⟨_, hoe⟩, hw⟩ := hx
    subst hoe; subst hw
    exact ⟨[], by simp, EnumLog.nil _⟩
  · exact recursivelyGetSecretsList_log c okmsId _ _ _ _ _ _ hx

/-- The probe read logs at most one call, a `GetSecretV2` at the key of the reference. -/
theorem getSecretWithOvhSDK_log {σ : Type} (J : GoLib) (c : OkmsClient σ) (okmsId : String)
    (ref : ExternalSecretDataRemoteRef) (w : World σ)
    (x : Bytes × Option Nat × Option GoError) (w1 : World σ)
    (hx : getSecretWithOvhSDK J c okmsId ref w = .returns (x, w1)) :
    w1 = w ∨ ∃ v e, w1.log = w.log ++ [⟨Call.GetSecretV2 okmsId ref.Key v (some true), e⟩] := by
  simp only [getSecretWithOvhSDK] at hx
  split at hx
  · simp only [Outcome.returns.injEq, Prod.mk.injEq] at hx; exact Or.inl hx.2.symm
  · split at hx
    · simp only [Outcome.returns.injEq, Prod.mk.injEq] at hx; exact Or.inl hx.2.symm
    · split at hx
      · simp only [Outcome.returns.injEq, Prod.mk.injEq] at hx; exact Or.inl hx.2.symm
      · rename_i versionAddr hd
        right
        refine ⟨versionAddr, (c.GetSecretV2 w.remote okmsId ref.Key versionAddr (some true)).1.2,
          ?_⟩
        have hlog : (callGetSecretV2 c okmsId ref.Key versionAddr (some true) w).2.log
            = w.log ++ [⟨Call.GetSecretV2 okmsId ref.Key versionAddr (some true),
                (c.GetSecretV2 w.remote okmsId ref.Key versionAddr (some true)).1.2⟩] := rfl
        split at hx
        · rename_i hc
          simp only [Outcome.returns.injEq, Prod.mk.injEq] at hx
          rw [← hx.2, ← hlog, hc]
        · rename_i hc
          simp only [Outcome.returns.injEq, Prod.mk.injEq] at hx
          rw [← hx.2, ← hlog, hc]
        · rename_i hc
          split at hx
          · cases hx
          · split at hx
            · cases hx
            · simp only [Outcome.returns.injEq, Prod.mk.injEq] at hx
              rw [← hx.2, ← hlog, hc]

theorem GetSecret_log {σ : Type} (J : GoLib) (cl : ovhClient σ)
    (ref : ExternalSecretDataRemoteRef) (w : World σ) (x : Bytes × Option GoError)
    (w1 : World σ) (hx : GetSecret J cl ref w = .returns (x, w1)) :
    w1 = w ∨ ∃ v e,
      w1.log = w.log ++ [⟨Call.GetSecretV2 cl.okmsId ref.Key v (some true), e⟩] := by
  simp only [GetSecret] at hx
  split at hx
  · rename_i secretData ver err w2 hg
    have hlog := getSecretWithOvhSDK_log J cl.okmsClient cl.okmsId ref w _ _ hg
    have hw : w1 = w2 := by
      split at hx <;>
        (simp only [Outcome.returns.injEq, Prod.mk.injEq] at hx; exact hx.2.symm)
    rw [hw]; exact hlog
  · cases hx
  · cases hx

theorem rangeSecrets_log {σ : Type} (J : GoLib) (cl : ovhClient σ)
    (regex : Option (String → Bool)) (ref : ExternalSecretFind) :
    ∀ secrets m w x w1, rangeSecrets J cl regex ref secrets m w = .returns (x, w1) →
      ∃ new, w1.log = w.log ++ new ∧ ∀ ev ∈ new, isListingCall ev.call = false := by
  intro secrets
  induction secrets with
  | nil =>
    intro m w x w1 hx
    simp only [rangeSecrets] at hx
    have hw : w1 = w := by
      split at hx <;>
        (simp only [Outcome.returns.injEq, Prod.mk.injEq] at hx; exact hx.2.symm)
    exact ⟨[], by simp [hw], by simp⟩
  | cons secret rest ih =>
    intro m w x w1 hx
    simp only [rangeSecrets] at hx
    split at hx
    · split at hx
      · rename_i secretToInsert err w2 hg
        have hlog := GetSecret_log J cl _ w _ _ hg
        have hstep : ∃ new, w2.log = w.log ++ new ∧
            ∀ ev ∈ new, isListingCall ev.call = false := by
          rcases hlog with h | ⟨v, e, h⟩
          · exact ⟨[], by simp [h], by simp⟩
          · exact ⟨_, h, by simp [isListingCall]⟩
        obtain ⟨new1, hl1, hn1⟩ := hstep
        have hrest : ∃ new, w1.log = w2.log ++ new ∧
            ∀ ev ∈ new, isListingCall ev.call = false := by
          split at hx
          · split at hx
            · simp only [Outcome.returns.injEq, Prod.mk.injEq] at hx
              exact ⟨[], by simp [← hx.2], by simp⟩
            · exact ih _ _ _ _ hx
          · exact ih _ _ _ _ hx
        obtain ⟨new2, hl2, hn2⟩ := hrest
        refine ⟨new1 ++ new2, by rw [hl2, hl1, List.append_assoc], ?_⟩
        intro ev hev
        rcases List.mem_append.1 hev with h | h
        · exact hn1 ev h
        · exact hn2 ev h
      · cases hx
      · cases hx
    · exact ih _ _ _ _ hx

theorem EnumLog.failure {new : List Event} {res : List String} {oe : Option GoError}
    (h : EnumLog new res oe) :
    ∀ ev ∈ new, ∀ e, ev.err = some e → oe = some e ∧ res = [] := by
  intro ev hev e he
  cases oe with
  | none =>
    have := h.2 ev hev
    rw [he] at this; cases this
  | some e1 =>
    obtain ⟨hres, pre, last, hnew, hlast, hpre⟩ := h.2
    rw [hnew] at hev
    rcases List.mem_append.1 hev with hm | hm
    · have := hpre ev hm
      rw [he] at this; cases this
    · have hl : ev = last := by simpa using hm
      subst hl
      rw [he] at hlast
      exact ⟨hlast.symm, hres⟩

/-- C10: (1) whenever `recursivelyGetSecretsList` returns, it has logged listing calls
only, and if any of them (for the root or for a namespace reached during the traversal)
failed with `e`, it returns `e` together with no paths; (2) whenever `GetAllSecrets`
returns and a listing call it made failed with `e`, it returns `e` with an empty map and
has made listing calls only: no secret was fetched; (3) a failure of the listing of the
root is returned as soon as there is fuel to start, after that single call, and (4)
`GetAllSecrets` then returns the same error with an empty map in the same world. -/
theorem listing_failure_aborts {σ : Type} (J : GoLib) (cl : ovhClient σ) (fuel : Nat)
    (w : World σ) :
    (∀ root res oe w1,
      recursivelyGetSecretsList cl.okmsClient cl.okmsId fuel root w = .returns ((res, oe), w1) →
      ∃ new, w1.log = w.log ++ new ∧ (∀ ev ∈ new, isListingCall ev.call = true) ∧
        ∀ ev ∈ new, ∀ e, ev.err = some e → oe = some e ∧ res = []) ∧
    (∀ ref m oe w1, GetAllSecrets J cl fuel ref w = .returns ((m, oe), w1) →
      ∃ new, w1.log = w.log ++ new ∧
        ∀ ev ∈ new, isListingCall ev.call = true → ∀ e, ev.err = some e →
          oe = some e ∧ m = [] ∧ ∀ ev1 ∈ new, isListingCall ev1.call = true) ∧
    (∀ root e, root.data.head? ≠ some '/' →
      (cl.okmsClient.GetSecretsMetadata w.remote cl.okmsId root true).1.2 = some e →
      recursivelyGetSecretsList cl.okmsClient cl.okmsId (fuel + 1) root w
        = .returns (([], some e),
            (callGetSecretsMetadata cl.okmsClient cl.okmsId root true w).2)) ∧
    (∀ ref e, (∀ p, ref.Path = some p → endsInTwoSlashes p = false) →
      (canonicalRoot ref.Path).data.head? ≠ some '/' →
      (cl.okmsClient.GetSecretsMetadata w.remote cl.okmsId (canonicalRoot ref.Path) true).1.2
        = some e →
      GetAllSecrets J cl (fuel + 1) ref w
        = .returns (([], some e),
            (callGetSecretsMetadata cl.okmsClient cl.okmsId (canonicalRoot ref.Path) true
              w).2)) := by
  have hroot : ∀ root e, root.data.head? ≠ some '/' →
      (cl.okmsClient.GetSecretsMetadata w.remote cl.okmsId root true).1.2 = some e →
      recursivelyGetSecretsList cl.okmsClient cl.okmsId (fuel + 1) root w
        = .returns (([], some e),
            (callGetSecretsMetadata cl.okmsClient cl.okmsId root true w).2) := by
    intro root e hroot he
    have hp : ¬ (root != "" && root.data.head? == some '/') = true := by
      simp [hroot]
    rw [recursivelyGetSecretsList]
    rcases hc : cl.okmsClient.GetSecretsMetadata w.remote cl.okmsId root true
      with ⟨⟨secrets, e1⟩, s2⟩
    rw [hc] at he
    simp only at he
    subst he
    simp only [hp, callGetSecretsMetadata, hc, Bool.false_eq_true, if_false]
  refine ⟨?_, ?_, hroot, ?_⟩
  · intro root res oe w1 hx
    obtain ⟨new, hlog, hen⟩ := recursivelyGetSecretsList_log _ _ _ _ _ _ _ _ hx
    exact ⟨new, hlog, hen.1, hen.failure⟩
  · intro ref m oe w1 hx
    simp only [GetAllSecrets] at hx
    split at hx
    · rename_i res err w2 hg
      obtain ⟨new, hlog, hen⟩ := getSecretsList_log _ _ _ _ _ _ _ _ hg
      simp only [Outcome.returns.injEq, Prod.mk.injEq] at hx
      obtain ⟨⟨hm, hoe⟩, hw⟩ := hx
      subst hm; subst hoe; subst hw
      refine ⟨new, hlog, ?_⟩
      intro ev hev _ e he
      exact ⟨(hen.failure ev hev e he).1, rfl, hen.1⟩
    · rename_i secrets w2 hg
      obtain ⟨new, hlog, hen⟩ := getSecretsList_log _ _ _ _ _ _ _ _ hg
      have hnone : ∀ ev ∈ new, ev.err = none := hen.2
      have hrest : ∃ new2, w1.log = w2.log ++ new2 ∧
          ∀ ev ∈ new2, isListingCall ev.call = false := by
        split at hx
        · simp only [Outcome.returns.injEq, Prod.mk.injEq] at hx
          exact ⟨[], by simp [← hx.2], by simp⟩
        · split at hx
          · split at hx
            · simp only [Outcome.returns.injEq, Prod.mk.injEq] at hx
              exact ⟨[], by simp [← hx.2], by simp⟩
            · simp only [Outcome.returns.injEq, Prod.mk.injEq] at hx
              exact ⟨[], by simp [← hx.2], by simp⟩
            · exact rangeSecrets_log J cl _ ref _ _ _ _ _ hx
          · exact rangeSecrets_log J cl _ ref _ _ _ _ _ hx
      obtain ⟨new2, hlog2, hn2⟩ := hrest
      refine ⟨new ++ new2, by rw [hlog2, hlog, List.append_assoc], ?_⟩
      intro ev hev hl e he
      exfalso
      rcases List.mem_append.1 hev with h | h
      · have := hnone ev h
        rw [he] at this; cases this
      · have := hn2 ev h
        rw [hl] at this; cases this
    · cases hx
    · cases hx
  · intro ref e hpath hhead he
    simp only [GetAllSecrets, getSecretsList_canonical _ _ _ _ _ hpath,
      hroot _ _ hhead he]

/-- C10, witness: against a store whose listing fails with `boom`, the enumeration of the
root `path` returns `boom` and no path after one listing call, and `GetAllSecrets` returns
`boom` with an empty map, having made that listing call only. -/
theorem listing_failure_aborts_witness :
    recursivelyGetSecretsList (failingListClient (.text "boom")) "id" 1 "path" ⟨(), []⟩
      = .returns (([], some (.text "boom")),
          ⟨(), [⟨Call.GetSecretsMetadata "id" "path" true, some (.text "boom")⟩]⟩) ∧
    (∃ new : List Event,
      [Event.mk (Call.GetSecretsMetadata "id" "path" true) (some (GoError.text "boom"))]
        = [] ++ new ∧
      ∀ ev ∈ new, isListingCall ev.call = true → ∀ e, ev.err = some e →
        some (GoError.text "boom") = some e ∧ ([] : GoMap Bytes) = [] ∧
          ∀ ev1 ∈ new, isListingCall ev1.call = true) ∧
    GetAllSecrets noLib ⟨"id", false, failingListClient (.text "boom")⟩ 1
        ⟨some "path/", none, "", ""⟩ ⟨(), []⟩
      = .returns (([], some (.text "boom")),
          ⟨(), [⟨Call.GetSecretsMetadata "id" "path" true, some (.text "boom")⟩]⟩) :=
  ⟨(listing_failure_aborts noLib ⟨"id", false, failingListClient (.text "boom")⟩ 0
      ⟨(), []⟩).2.2.1 "path" (.text "boom") (by decide) rfl,
   (listing_failure_aborts noLib ⟨"id", false, failingListClient (.text "boom")⟩ 1
      ⟨(), []⟩).2.1 ⟨some "path", none, "", ""⟩ [] (some (.text "boom"))
      ⟨(), [⟨Call.GetSecretsMetadata "id" "path" true, some (.text "boom")⟩]⟩ rfl,
   (listing_failure_aborts noLib ⟨"id", false, failingListClient (.text "boom")⟩ 0
      ⟨(), []⟩).2.2.2 ⟨some "path/", none, "", ""⟩ (.text "boom")
      (by intro p hp; cases hp; decide) (by decide) rfl⟩

/-! ## Theorems: push -/

theorem Marshal_fst_ne {J : GoLib} {v : GoAny} (h : (J.Marshal v).1 ≠ "") :
    (J.Marshal v).2 = none := by
  unfold GoLib.Marshal at h ⊢
  cases hm : J.jsonMarshal v with
  | ok b => rfl
  | error e => rw [hm] at h; exact absurd rfl h

theorem Marshal_of_ok {J : GoLib} {v : GoAny} {b : Bytes} (h : J.jsonMarshal v = .ok b) :
    J.Marshal v = (b, none) := by
  simp [GoLib.Marshal, h]

/-- The probe read of `PushSecret`, when the key is not empty: one `GetSecretV2` call for the
latest version, then the response is serialized. -/
theorem probe_eq {σ : Type} (J : GoLib) (c : OkmsClient σ) (okmsId key : String)
    (hkey : key ≠ "") (w : World σ) :
    getSecretWithOvhSDK J c okmsId { Key := key } w =
      match callGetSecretV2 c okmsId key none (some true) w with
      | ((_, some err), w1) => .returns (("", none, some (handleOkmsError err)), w1)
      | ((none, none), w1) => .returns (("", none, some .NoSecretErr), w1)
      | ((some secret, none), w1) =>
        match secret.Version with
        | none => .panics
        | some version =>
          match secret.Metadata with
          | none => .panics
          | some metadata =>
            .returns (((J.Marshal (ptrMap version.Data)).1, metadata.CurrentVersion,
              (J.Marshal (ptrMap version.Data)).2), w1) := by
  have h1 : (key == "") = false := by simpa using hkey
  have h2 : (("" : String) == ExternalSecretMetadataPolicyFetch) = false := by decide
  have h3 : decodeSecretVersion "" = (none, none) := by decide
  simp only [getSecretWithOvhSDK, h1, h2, h3, Bool.false_eq_true, if_false, beq_self_eq_true,
    if_true]

theorem probe_key_ne {σ : Type} (J : GoLib) (c : OkmsClient σ) (okmsId key : String)
    (w : World σ) (remote : Bytes) (ver : Option Nat) (err : Option GoError) (w1 : World σ)
    (hx : getSecretWithOvhSDK J c okmsId { Key := key } w = .returns ((remote, ver, err), w1))
    (herr : (err.isSome && !(err.any errorsIsNoSecretErr)) = false) : key ≠ "" := by
  intro hk
  subst hk
  simp only [getSecretWithOvhSDK, beq_self_eq_true, if_true, Outcome.returns.injEq,
    Prod.mk.injEq] at hx
  obtain ⟨⟨_, _, he⟩, _⟩ := hx
  subst he
  simp [errorsIsNoSecretErr] at herr

/-- The probe read logs exactly one call when the key is not empty; the call did not fail
when the probe returns no error. -/
theorem probe_log {σ : Type} (J : GoLib) (c : OkmsClient σ) (okmsId key : String)
    (hkey : key ≠ "") (w : World σ) (remote : Bytes) (ver : Option Nat)
    (err : Option GoError) (w1 : World σ)
    (hx : getSecretWithOvhSDK J c okmsId { Key := key } w = .returns ((remote, ver, err), w1)) :
    ∃ e, w1.log = w.log ++ [⟨Call.GetSecretV2 okmsId key none (some true), e⟩] ∧
      (err = none → e = none) ∧ (remote ≠ "" → err = none) := by
  rw [probe_eq J c okmsId key hkey] at hx
  rcases hc : c.GetSecretV2 w.remote okmsId key none (some true) with ⟨⟨resp, e⟩, s1⟩
  simp only [callGetSecretV2, hc] at hx
  refine ⟨e, ?_⟩
  cases e with
  | some e1 =>
    simp only [Outcome.returns.injEq, Prod.mk.injEq] at hx
    obtain ⟨⟨hr, _, he⟩, hw⟩ := hx
    subst hr; subst he; subst hw
    exact ⟨rfl, by simp, by simp⟩
  | none =>
    cases resp with
    | none =>
      simp only [Outcome.returns.injEq, Prod.mk.injEq] at hx
      obtain ⟨⟨hr, _, he⟩, hw⟩ := hx
      subst hr; subst he; subst hw
      exact ⟨rfl, by simp, by simp⟩
    | some secret =>
      simp only at hx
      split at hx
      · cases hx
      · split at hx
        · cases hx
        · simp only [Outcome.returns.injEq, Prod.mk.injEq] at hx
          obtain ⟨⟨hr, _, he⟩, hw⟩ := hx
          subst hr; subst he; subst hw
          exact ⟨rfl, fun _ => rfl, Marshal_fst_ne⟩

/-- C4: for every push of a non-empty secret whose probe read returns non-empty bytes equal
to the JSON serialization of the built candidate, `PushSecret` returns nil (success) in the
world the probe left: the only call logged is the probe's `GetSecretV2`, so neither a create
nor an update is issued. -/
theorem PushSecret_equal_noop {σ : Type} (J : GoLib) (cl : ovhClient σ) (secret : Secret)
    (data : PushSecretData) (w : World σ) (remote : Bytes) (ver : Option Nat)
    (err : Option GoError) (w1 : World σ) (cand : GoMap GoAny)
    (hdata : secret.Data.length ≠ 0)
    (hprobe : getSecretWithOvhSDK J cl.okmsClient cl.okmsId { Key := data.RemoteKey } w
      = .returns ((remote, ver, err), w1))
    (hne : remote ≠ "")
    (hbuild : buildSecretToPush J secret data = (cand, none))
    (hser : J.jsonMarshal (.map cand) = .ok remote) :
    PushSecret J cl (some secret) data w = .returns (none, w1) ∧
    w1.log = w.log ++ [⟨Call.GetSecretV2 cl.okmsId data.RemoteKey none (some true), none⟩] ∧
    countWrites w1.log = countWrites w.log := by
  have hkey : data.RemoteKey ≠ "" := by
    intro hk
    rw [hk] at hprobe
    simp only [getSecretWithOvhSDK, beq_self_eq_true, if_true, Outcome.returns.injEq,
      Prod.mk.injEq] at hprobe
    exact hne hprobe.1.1.symm
  obtain ⟨e, hlog, he, hr⟩ := probe_log J _ _ _ hkey w _ _ _ _ hprobe
  have herr : err = none := hr hne
  subst herr
  have he1 : e = none := he rfl
  subst he1
  have hlen : (remote.length == 0) = false := by
    have : remote.length ≠ 0 := by
      intro h
      exact hne (String.ext (List.eq_nil_of_length_eq_zero h))
    simpa using this
  have hd : (secret.Data.length == 0) = false := by simpa using hdata
  refine ⟨?_, hlog, ?_⟩
  · simp [PushSecret, hd, hprobe, hbuild, compareSecretsData, hlen, Marshal_of_ok hser]
  · simp [countWrites, hlog, isWriteCall]

/-- C4, witness: the test case "equal data": the descriptor with remote key
`pattern2/test/test-secret`, no secret key and no property, local data `test4 = "value4"`,
against the fake store, whose value there serializes to `{"test4":"value4"}`. -/
theorem PushSecret_equal_noop_witness :
    PushSecret refLib ⟨"id", false, FakeOkmsClient refLib equalDataCase⟩
        (some ⟨[("test4", "\"value4\"")]⟩) ⟨"", "pattern2/test/test-secret", ""⟩ ⟨(), []⟩
      = .returns (none,
          ⟨(), [⟨Call.GetSecretV2 "id" "pattern2/test/test-secret" none (some true), none⟩]⟩) ∧
    ([⟨Call.GetSecretV2 "id" "pattern2/test/test-secret" none (some true), none⟩] : List Event)
      = [] ++ [⟨Call.GetSecretV2 "id" "pattern2/test/test-secret" none (some true), none⟩] ∧
    countWrites [⟨Call.GetSecretV2 "id" "pattern2/test/test-secret" none (some true), none⟩]
      = countWrites [] :=
  PushSecret_equal_noop refLib ⟨"id", false, FakeOkmsClient refLib equalDataCase⟩
    ⟨[("test4", "\"value4\"")]⟩ ⟨"", "pattern2/test/test-secret", ""⟩ ⟨(), []⟩
    "\x7b\"test4\":\"value4\"\x7d" none none
    ⟨(), [⟨Call.GetSecretV2 "id" "pattern2/test/test-secret" none (some true), none⟩]⟩
    [("test4", .RawMessage "\"value4\"")]
    (by decide) rfl (by decide) rfl rfl

theorem pushNewSecret_log {σ : Type} (cl : ovhClient σ) (data : PushSecretData)
    (cand : GoMap GoAny) (ver : Option Nat) (notFound : Bool) (w1 : World σ) :
    (pushNewSecret cl.okmsClient cl.okmsId cand data.RemoteKey
        (if !cl.cas then none else ver) (!notFound) w1).2.log
      = w1.log ++ [⟨expectedWrite cl data cand ver notFound,
          (pushNewSecret cl.okmsClient cl.okmsId cand data.RemoteKey
            (if !cl.cas then none else ver) (!notFound) w1).1⟩] := by
  cases notFound <;> cases hc : cl.cas <;> simp [pushNewSecret, expectedWrite, hc]

/-- The ways in which `PushSecret` returns: before the probe, in the world it started from;
after the probe without a write, in the world the probe left; or after the probe succeeded
or reported not-found, the candidate was built and found different, with the result of
`pushNewSecret`. -/
theorem PushSecret_inv {σ : Type} (J : GoLib) (cl : ovhClient σ) (osecret : Option Secret)
    (data : PushSecretData) (w : World σ) (e : Option GoError) (w2 : World σ)
    (h : PushSecret J cl osecret data w = .returns (e, w2)) :
    w2 = w ∨
    ∃ secret remote ver perr w1, osecret = some secret ∧ secret.Data.length ≠ 0 ∧
      getSecretWithOvhSDK J cl.okmsClient cl.okmsId { Key := data.RemoteKey } w
        = .returns ((remote, ver, perr), w1) ∧
      (w2 = w1 ∨
        ((perr.isSome && !(perr.any errorsIsNoSecretErr)) = false ∧
          ∃ cand, buildSecretToPush J secret data = (cand, none) ∧
            compareSecretsData J cand remote = (false, none) ∧
            pushNewSecret cl.okmsClient cl.okmsId cand data.RemoteKey
              (if !cl.cas then none else ver) (!(perr.any errorsIsNoSecretErr)) w1
              = (e, w2))) := by
  cases osecret with
  | none =>
    simp only [PushSecret, Outcome.returns.injEq, Prod.mk.injEq] at h
    exact Or.inl h.2.symm
  | some secret =>
    simp only [PushSecret] at h
    split at h
    · simp only [Outcome.returns.injEq, Prod.mk.injEq] at h
      exact Or.inl h.2.symm
    · rename_i hd
      have hd1 : secret.Data.length ≠ 0 := by simpa using hd
      split at h
      · cases h
      · cases h
      · rename_i remote ver perr w1 hprobe
        refine Or.inr ⟨secret, remote, ver, perr, w1, rfl, hd1, hprobe, ?_⟩
        split at h
        · simp only [Outcome.returns.injEq, Prod.mk.injEq] at h
          exact Or.inl h.2.symm
        · rename_i hperr
          have hperr1 : (perr.isSome && !(perr.any errorsIsNoSecretErr)) = false := by
            simpa using hperr
          split at h
          · simp only [Outcome.returns.injEq, Prod.mk.injEq] at h
            exact Or.inl h.2.symm
          · rename_i cand hbuild
            split at h
            · simp only [Outcome.returns.injEq, Prod.mk.injEq] at h
              exact Or.inl h.2.symm
            · rename_i equal hcmp
              cases equal with
              | true =>
                simp only [if_true, Outcome.returns.injEq, Prod.mk.injEq] at h
                exact Or.inl h.2.symm
              | false =>
                simp only [Bool.false_eq_true, if_false, Outcome.returns.injEq] at h
                exact Or.inr ⟨hperr1, cand, hbuild, hcmp, h⟩

theorem compareSecretsData_differs {J : GoLib} {cand : GoMap GoAny} {remote : Bytes}
    (hdiff : remote = "" ∨ ∃ b, J.jsonMarshal (.map cand) = .ok b ∧ b ≠ remote) :
    compareSecretsData J cand remote = (false, none) := by
  rcases hdiff with h | ⟨b, hb, hne⟩
  · subst h; simp [compareSecretsData]
  · simp only [compareSecretsData, Marshal_of_ok hb]
    split
    · rfl
    · simp [hne]

/-- C5: when the probe succeeded or reported not-found, the candidate was built, and its
JSON serialization differs from the bytes the probe read (or those bytes are empty),
`PushSecret` returns what its single write returned: after the probe's `GetSecretV2` it
logs exactly one call, a create (`PostSecretV2`) at the remote key when the probe reported
not-found and an update (`PutSecretV2`) at the remote key otherwise, with the built
candidate as payload. -/
theorem PushSecret_differs_writes {σ : Type} (J : GoLib) (cl : ovhClient σ) (secret : Secret)
    (data : PushSecretData) (w : World σ) (remote : Bytes) (ver : Option Nat)
    (err : Option GoError) (w1 : World σ) (cand : GoMap GoAny)
    (hdata : secret.Data.length ≠ 0)
    (hprobe : getSecretWithOvhSDK J cl.okmsClient cl.okmsId { Key := data.RemoteKey } w
      = .returns ((remote, ver, err), w1))
    (hok : err = none ∨ err.any errorsIsNoSecretErr = true)
    (hbuild : buildSecretToPush J secret data = (cand, none))
    (hdiff : remote = "" ∨ ∃ b, J.jsonMarshal (.map cand) = .ok b ∧ b ≠ remote) :
    ∃ e w2 pe, PushSecret J cl (some secret) data w = .returns (e, w2) ∧
      w2.log = w.log ++
        [⟨Call.GetSecretV2 cl.okmsId data.RemoteKey none (some true), pe⟩,
         ⟨expectedWrite cl data cand ver (err.any errorsIsNoSecretErr), e⟩] ∧
      countWrites w2.log = countWrites w.log + 1 := by
  have hok1 : (err.isSome && !(err.any errorsIsNoSecretErr)) = false := by
    rcases hok with h | h
    · subst h; rfl
    · simp [h]
  have hkey := probe_key_ne J _ _ _ w _ _ _ _ hprobe hok1
  obtain ⟨pe, hlog, _, _⟩ := probe_log J _ _ _ hkey w _ _ _ _ hprobe
  have hd : (secret.Data.length == 0) = false := by simpa using hdata
  have hcmp := compareSecretsData_differs hdiff
  have hpush := pushNewSecret_log cl data cand ver (err.any errorsIsNoSecretErr) w1
  refine ⟨(pushNewSecret cl.okmsClient cl.okmsId cand data.RemoteKey
      (if !cl.cas then none else ver) (!(err.any errorsIsNoSecretErr)) w1).1,
    (pushNewSecret cl.okmsClient cl.okmsId cand data.RemoteKey
      (if !cl.cas then none else ver) (!(err.any errorsIsNoSecretErr)) w1).2, pe, ?_, ?_, ?_⟩
  · simp only [PushSecret, hd, hprobe, hok1, hbuild, hcmp, Bool.false_eq_true, if_false]
  · rw [hpush, hlog, List.append_assoc]; rfl
  · rw [hpush, hlog]
    cases hnf : err.any errorsIsNoSecretErr <;>
      simp [countWrites, isWriteCall, expectedWrite, List.filter_append]

/-- C5, witness: the test case "non-equal data": local data `new-test4 = "new-value4"`
against the existing `pattern2/test/test-secret` issues an update, and against the remote
key `non-existent` a create; the payload serializes to `{"new-test4":"new-value4"}` (the
fake store answers a write with the JSON text of its payload). -/
theorem PushSecret_differs_writes_witness :
    (∃ e w2 pe,
      PushSecret refLib ⟨"id", false, FakeOkmsClient refLib nonEqualDataCase⟩
          (some ⟨[("new-test4", "\"new-value4\"")]⟩) ⟨"", "pattern2/test/test-secret", ""⟩
          ⟨(), []⟩
        = .returns (e, w2) ∧
      w2.log = [] ++
        [⟨Call.GetSecretV2 "id" "pattern2/test/test-secret" none (some true), pe⟩,
         ⟨Call.PutSecretV2 "id" "pattern2/test/test-secret" none
            { Version := some { Data := some [("new-test4", .RawMessage "\"new-value4\"")] } },
          e⟩] ∧
      countWrites w2.log = countWrites [] + 1) ∧
    (∃ e w2 pe,
      PushSecret refLib ⟨"id", false, FakeOkmsClient refLib nonEqualDataCase⟩
          (some ⟨[("new-test4", "\"new-value4\"")]⟩) ⟨"", "non-existent", ""⟩ ⟨(), []⟩
        = .returns (e, w2) ∧
      w2.log = [] ++
        [⟨Call.GetSecretV2 "id" "non-existent" none (some true), pe⟩,
         ⟨Call.PostSecretV2 "id"
            { Path := "non-existent",
              Version := { Data := some [("new-test4", .RawMessage "\"new-value4\"")] } },
          e⟩] ∧
      countWrites w2.log = countWrites [] + 1) ∧
    (PushSecret refLib ⟨"id", false, FakeOkmsClient refLib nonEqualDataCase⟩
          (some ⟨[("new-test4", "\"new-value4\"")]⟩) ⟨"", "pattern2/test/test-secret", ""⟩
          (⟨(), []⟩ : World Unit)).err
      = some (some (GoError.text "\x7b\"new-test4\":\"new-value4\"\x7d")) :=
  ⟨PushSecret_differs_writes refLib ⟨"id", false, FakeOkmsClient refLib nonEqualDataCase⟩
      ⟨[("new-test4", "\"new-value4\"")]⟩ ⟨"", "pattern2/test/test-secret", ""⟩ ⟨(), []⟩
      "\x7b\"test4\":\"value4\"\x7d" none none
      ⟨(), [⟨Call.GetSecretV2 "id" "pattern2/test/test-secret" none (some true), none⟩]⟩
      [("new-test4", .RawMessage "\"new-value4\"")]
      (by decide) rfl (Or.inl rfl) rfl
      (Or.inr ⟨"\x7b\"new-test4\":\"new-value4\"\x7d", rfl, by decide⟩),
   PushSecret_differs_writes refLib ⟨"id", false, FakeOkmsClient refLib nonEqualDataCase⟩
      ⟨[("new-test4", "\"new-value4\"")]⟩ ⟨"", "non-existent", ""⟩ ⟨(), []⟩
      "" none (some .NoSecretErr)
      ⟨(), [⟨Call.GetSecretV2 "id" "non-existent" none (some true),
              some (fakeKmsError 17125377)⟩]⟩
      [("new-test4", .RawMessage "\"new-value4\"")]
      (by decide) rfl (Or.inr rfl) rfl (Or.inl rfl),
   rfl⟩

/-- C6: whenever `PushSecret` returns, every update (`PutSecretV2`) among the calls it
logged carries as CAS precondition the version that the probe read returned if CAS is
enabled for the store, and no version if it is disabled; every create (`PostSecretV2`)
carries the remote key and candidate data only (the create call of the interface has no
version parameter). -/
theorem PushSecret_update_cas {σ : Type} (J : GoLib) (cl : ovhClient σ)
    (osecret : Option Secret) (data : PushSecretData) (w : World σ) (e : Option GoError)
    (w2 : World σ) (h : PushSecret J cl osecret data w = .returns (e, w2)) :
    ∃ new, w2.log = w.log ++ new ∧
      (∀ ev ∈ new, ∀ okmsId path cas body, ev.call = Call.PutSecretV2 okmsId path cas body →
        ∃ remote ver perr w1,
          getSecretWithOvhSDK J cl.okmsClient cl.okmsId { Key := data.RemoteKey } w
            = .returns ((remote, ver, perr), w1) ∧
          cas = if cl.cas then ver else none) ∧
      (∀ ev ∈ new, ∀ okmsId body, ev.call = Call.PostSecretV2 okmsId body →
        ∃ cand, body = { Path := data.RemoteKey, Version := { Data := some cand } }) := by
  rcases PushSecret_inv J cl osecret data w e w2 h with hw |
    ⟨secret, remote, ver, perr, w1, _, _, hprobe, hrest⟩
  · exact ⟨[], by simp [hw], by simp, by simp⟩
  · have hp := getSecretWithOvhSDK_log J _ _ _ w _ _ hprobe
    have hpre : ∃ pre, w1.log = w.log ++ pre ∧ ∀ ev ∈ pre, isWriteCall ev.call = false := by
      rcases hp with h1 | ⟨v, pe, h1⟩
      · exact ⟨[], by simp [h1], by simp⟩
      · exact ⟨_, h1, by simp [isWriteCall]⟩
    obtain ⟨pre, hpre1, hpre2⟩ := hpre
    rcases hrest with hw | ⟨_, cand, _, _, hpush⟩
    · refine ⟨pre, by rw [hw, hpre1], ?_, ?_⟩
      · intro ev hev okmsId path cas body hc
        have := hpre2 ev hev
        rw [hc] at this; simp [isWriteCall] at this
      · intro ev hev okmsId body hc
        have := hpre2 ev hev
        rw [hc] at this; simp [isWriteCall] at this
    · have hlog := pushNewSecret_log cl data cand ver (perr.any errorsIsNoSecretErr) w1
      rw [hpush] at hlog
      simp only at hlog
      refine ⟨pre ++ [⟨expectedWrite cl data cand ver (perr.any errorsIsNoSecretErr), e⟩],
        by rw [hlog, hpre1, List.append_assoc], ?_, ?_⟩
      · intro ev hev okmsId path cas body hc
        rcases List.mem_append.1 hev with hm | hm
        · have := hpre2 ev hm
          rw [hc] at this; simp [isWriteCall] at this
        · have hev1 : ev = ⟨expectedWrite cl data cand ver (perr.any errorsIsNoSecretErr), e⟩ := by
            simpa using hm
          subst hev1
          refine ⟨remote, ver, perr, w1, hprobe, ?_⟩
          cases hnf : perr.any errorsIsNoSecretErr
          · simp only [expectedWrite, hnf, Bool.false_eq_true, if_false,
              Call.PutSecretV2.injEq] at hc
            exact hc.2.2.1.symm
          · simp [expectedWrite, hnf] at hc
      · intro ev hev okmsId body hc
        rcases List.mem_append.1 hev with hm | hm
        · have := hpre2 ev hm
          rw [hc] at this; simp [isWriteCall] at this
        · have hev1 : ev = ⟨expectedWrite cl data cand ver (perr.any errorsIsNoSecretErr), e⟩ := by
            simpa using hm
          subst hev1
          refine ⟨cand, ?_⟩
          cases hnf : perr.any errorsIsNoSecretErr
          · simp [expectedWrite, hnf] at hc
          · simp only [expectedWrite, hnf, if_true, Call.PostSecretV2.injEq] at hc
            exact hc.2.symm

/-- C6, witness: with CAS enabled, the second push to the in-memory store updates the
secret created by the first one and carries the version 1 that its probe read. -/
theorem PushSecret_update_cas_witness :
    (∃ new, memAfterUpdate.log = memAfterCreate.log ++ new ∧
      (∀ ev ∈ new, ∀ okmsId path cas body, ev.call = Call.PutSecretV2 okmsId path cas body →
        ∃ remote ver perr w1,
          getSecretWithOvhSDK refLib (memClient true).okmsClient (memClient true).okmsId
              { Key := (pushWhole "pattern2/test/test-secret").RemoteKey } memAfterCreate
            = .returns ((remote, ver, perr), w1) ∧
          cas = if (memClient true).cas then ver else none) ∧
      (∀ ev ∈ new, ∀ okmsId body, ev.call = Call.PostSecretV2 okmsId body →
        ∃ cand, body = { Path := (pushWhole "pattern2/test/test-secret").RemoteKey,
                         Version := { Data := some cand } })) ∧
    memAfterUpdate.log =
      [⟨Call.GetSecretV2 "id" "pattern2/test/test-secret" none (some true),
          some (.KmsError 17125377 "")⟩,
       ⟨Call.PostSecretV2 "id"
          { Path := "pattern2/test/test-secret",
            Version := { Data := some [("test4", .RawMessage "\"value4\"")] } }, none⟩,
       ⟨Call.GetSecretV2 "id" "pattern2/test/test-secret" none (some true), none⟩,
       ⟨Call.PutSecretV2 "id" "pattern2/test/test-secret" (some 1)
          { Version := some { Data := some [("new-test4", .RawMessage "\"new-value4\"")] } },
          none⟩] :=
  ⟨PushSecret_update_cas refLib (memClient true) (some secretNewValue4)
      (pushWhole "pattern2/test/test-secret") memAfterCreate none memAfterUpdate rfl,
   rfl⟩

theorem countWrites_append (l1 l2 : List Event) :
    countWrites (l1 ++ l2) = countWrites l1 + countWrites l2 := by
  simp [countWrites, List.filter_append]

/-! ## Theorems: termination of the traversal -/

theorem acc_of_finiteTree {list : String → Option GetMetadataResponse × Option GoError}
    {root : String} (hfin : FiniteTree list root) :
    Acc (fun q p => Child list p q) root := by
  by_contra hx
  have hstep : ∀ x : { a // ¬ Acc (fun q p => Child list p q) a },
      ∃ y : { a // ¬ Acc (fun q p => Child list p q) a }, Child list x.1 y.1 := by
    rintro ⟨x, hx1⟩
    have hno : ¬ ∀ y, Child list x y → Acc (fun q p => Child list p q) y :=
      fun hall => hx1 (Acc.intro x hall)
    push_neg at hno
    obtain ⟨y, hy1, hy2⟩ := hno
    exact ⟨⟨y, hy2⟩, hy1⟩
  choose next hnext using hstep
  apply hfin
  refine ⟨fun n => (next^[n] ⟨root, hx⟩).1, rfl, fun n => ?_⟩
  simp only [Function.iterate_succ']
  exact hnext _

theorem childPath_eq (path key : String) :
    (if (path != "") = true then path ++ "/" ++ dropLastByte key else dropLastByte key)
      = joinPath path (String.mk key.data.dropLast) := by
  rw [dropLastByte_eq]; by_cases hr : path = "" <;> simp [joinPath, hr]

/-- The loop returns, with enough fuel, as soon as every namespace entry it follows has an
enumeration that returns. -/
theorem rangeKeys_returns {σ : Type} (c : OkmsClient σ) (okmsId path : String) :
    ∀ keys : List String,
      (∀ key ∈ keys, key ≠ "" → key.data.head? ≠ some '/' → key.data.getLast? = some '/' →
        ∀ w, ∃ fuel x, recursivelyGetSecretsList c okmsId fuel
          (joinPath path (String.mk key.data.dropLast)) w = .returns x) →
      ∀ acc w, ∃ fuel x,
        rangeKeys (recursivelyGetSecretsList c okmsId fuel) path keys acc w = .returns x := by
  intro keys
  induction keys with
  | nil => intro _ acc w; exact ⟨0, ((acc, none), w), by simp [rangeKeys]⟩
  | cons key rest ih =>
    intro hkeys acc w
    have hrest := ih (fun k hk => hkeys k (List.mem_cons_of_mem _ hk))
    by_cases h1 : (key != "" && key.data.head? != some '/') = true
    · have h1a : key ≠ "" ∧ key.data.head? ≠ some '/' := by simpa using h1
      by_cases h2 : lastIsSlash key = true
      · have h2a := (lastIsSlash_iff key).1 h2
        obtain ⟨f1, ⟨⟨toAppend, oe⟩, w1⟩, hrec⟩ :=
          hkeys key (List.mem_cons_self _ _) h1a.1 h1a.2 h2a w
        cases oe with
        | some err =>
          refine ⟨f1, (([], some err), w1), ?_⟩
          simp only [rangeKeys, h1, h2, if_true, childPath_eq, hrec]
        | none =>
          obtain ⟨f2, x, hloop⟩ := hrest (acc ++ toAppend) w1
          refine ⟨max f1 f2, x, ?_⟩
          have hrec3 := recursivelyGetSecretsList_mono c okmsId (le_max_left f1 f2) hrec
          have hloop3 := rangeKeys_mono
            (fun p w x hx => recursivelyGetSecretsList_mono c okmsId (le_max_right f1 f2) hx)
            path _ _ _ _ hloop
          simp only [rangeKeys, h1, h2, if_true, childPath_eq, hrec3]
          exact hloop3
      · obtain ⟨f2, x, hloop⟩ := hrest
          (acc ++ if (path == "") = true then [key] else [path ++ "/" ++ key]) w
        refine ⟨f2, x, ?_⟩
        simp only [rangeKeys, h1, h2, if_true, Bool.false_eq_true, if_false]
        exact hloop
    · obtain ⟨f2, x, hloop⟩ := hrest acc w
      refine ⟨f2, x, ?_⟩
      simp only [rangeKeys, h1, Bool.false_eq_true, if_false]
      exact hloop

theorem recursivelyGetSecretsList_returns {σ : Type} (c : OkmsClient σ) (okmsId : String)
    (list : String → Option GetMetadataResponse × Option GoError) (hlist : ListsBy c list)
    (root : String) (hacc : Acc (fun q p => Child list p q) root) :
    ∀ w, ∃ fuel x, recursivelyGetSecretsList c okmsId fuel root w = .returns x := by
  induction hacc with
  | intro p _ ih =>
    intro w
    by_cases hp : (p != "" && p.data.head? == some '/') = true
    · exact ⟨1, (([], none), w), by rw [recursivelyGetSecretsList]; simp only [hp, if_true]⟩
    · rcases hl : list p with ⟨secrets, e⟩
      cases e with
      | some err =>
        refine ⟨1, (([], some err),
          { remote := w.remote,
            log := w.log ++ [⟨Call.GetSecretsMetadata okmsId p true, some err⟩] }), ?_⟩
        rw [recursivelyGetSecretsList]
        simp only [hp, callGetSecretsMetadata, hlist _ _ _ _, hl, Bool.false_eq_true, if_false]
      | none =>
        by_cases hk : noKeys secrets = true
        · refine ⟨1, (([], none),
            { remote := w.remote,
              log := w.log ++ [⟨Call.GetSecretsMetadata okmsId p true, none⟩] }), ?_⟩
          rw [recursivelyGetSecretsList]
          simp only [hp, callGetSecretsMetadata, hlist _ _ _ _, hl, hk, Bool.false_eq_true,
            if_false, if_true]
        · have hkeys : ∀ key ∈ derefKeys secrets, key ≠ "" → key.data.head? ≠ some '/' →
              key.data.getLast? = some '/' →
              ∀ w, ∃ fuel x, recursivelyGetSecretsList c okmsId fuel
                (joinPath p (String.mk key.data.dropLast)) w = .returns x := by
            intro key hkey hne hhead hlast
            apply ih
            refine ⟨by rw [hl], key, by rw [hl]; exact hkey, hne, hhead, hlast, rfl⟩
          obtain ⟨f, x, hloop⟩ := rangeKeys_returns c okmsId p _ hkeys []
            { remote := w.remote,
              log := w.log ++ [⟨Call.GetSecretsMetadata okmsId p true, none⟩] }
          refine ⟨f + 1, x, ?_⟩
          rw [recursivelyGetSecretsList]
          simp only [hp, callGetSecretsMetadata, hlist _ _ _ _, hl, hk, Bool.false_eq_true,
            if_false]
          exact hloop

theorem rangeKeys_reach {σ : Type} (okmsId : String)
    (list : String → Option GetMetadataResponse × Option GoError)
    {f : String → World σ → Outcome ((List String × Option GoError) × World σ)}
    (hf : ∀ q w x w1, f q w = .returns (x, w1) →
      ∃ new, w1.log = w.log ++ new ∧
        ∀ ev ∈ new, ∃ q1, ev.call = Call.GetSecretsMetadata okmsId q1 true ∧
          Relation.ReflTransGen (Child list) q q1)
    (path : String) :
    ∀ keys : List String,
      (∀ key ∈ keys, key ≠ "" → key.data.head? ≠ some '/' → key.data.getLast? = some '/' →
        Child list path (joinPath path (String.mk key.data.dropLast))) →
      ∀ acc w x w1, rangeKeys f path keys acc w = .returns (x, w1) →
        ∃ new, w1.log = w.log ++ new ∧
          ∀ ev ∈ new, ∃ q1, ev.call = Call.GetSecretsMetadata okmsId q1 true ∧
            Relation.ReflTransGen (Child list) path q1 := by
  intro keys
  induction keys with
  | nil =>
    intro _ acc w x w1 hx
    simp only [rangeKeys, Outcome.returns.injEq, Prod.mk.injEq] at hx
    exact ⟨[], by simp [← hx.2], by simp⟩
  | cons key rest ih =>
    intro hkeys acc w x w1 hx
    have hrest := ih (fun k hk => hkeys k (List.mem_cons_of_mem _ hk))
    by_cases h1 : (key != "" && key.data.head? != some '/') = true
    · have h1a : key ≠ "" ∧ key.data.head? ≠ some '/' := by simpa using h1
      by_cases h2 : lastIsSlash key = true
      · have h2a := (lastIsSlash_iff key).1 h2
        have hchild := hkeys key (List.mem_cons_self _ _) h1a.1 h1a.2 h2a
        simp only [rangeKeys, h1, h2, if_true, childPath_eq] at hx
        split at hx
        · rename_i r toAppend w4 hr
          obtain ⟨new1, hlog1, hn1⟩ := hf _ _ _ _ hr
          obtain ⟨new2, hlog2, hn2⟩ := hrest _ _ _ _ hx
          refine ⟨new1 ++ new2, by rw [hlog2, hlog1, List.append_assoc], ?_⟩
          intro ev hev
          rcases List.mem_append.1 hev with h | h
          · obtain ⟨q1, hc, hq⟩ := hn1 ev h
            exact ⟨q1, hc, Relation.ReflTransGen.head hchild hq⟩
          · exact hn2 ev h
        · rename_i r a err w4 hr
          obtain ⟨new1, hlog1, hn1⟩ := hf _ _ _ _ hr
          simp only [Outcome.returns.injEq, Prod.mk.injEq] at hx
          refine ⟨new1, by rw [← hx.2, hlog1], ?_⟩
          intro ev hev
          obtain ⟨q1, hc, hq⟩ := hn1 ev hev
          exact ⟨q1, hc, Relation.ReflTransGen.head hchild hq⟩
        · cases hx
        · cases hx
      · simp only [rangeKeys, h1, h2, if_true, Bool.false_eq_true, if_false] at hx
        exact hrest _ _ _ _ hx
    · simp only [rangeKeys, h1, Bool.false_eq_true, if_false] at hx
      exact hrest _ _ _ _ hx

theorem recursivelyGetSecretsList_reach {σ : Type} (c : OkmsClient σ) (okmsId : String)
    (list : String → Option GetMetadataResponse × Option GoError) (hlist : ListsBy c list) :
    ∀ fuel root w x w1, recursivelyGetSecretsList c okmsId fuel root w = .returns (x, w1) →
      ∃ new, w1.log = w.log ++ new ∧
        ∀ ev ∈ new, ∃ q1, ev.call = Call.GetSecretsMetadata okmsId q1 true ∧
          Relation.ReflTransGen (Child list) root q1 := by
  intro fuel
  induction fuel with
  | zero => intro root w x w1 hx; simp [recursivelyGetSecretsList] at hx
  | succ n ih =>
    intro root w x w1 hx
    rw [recursivelyGetSecretsList] at hx
    by_cases hp : (root != "" && root.data.head? == some '/') = true
    · simp only [hp, if_true, Outcome.returns.injEq, Prod.mk.injEq] at hx
      exact ⟨[], by simp [← hx.2], by simp⟩
    · simp only [hp, callGetSecretsMetadata, hlist _ _ _ _, Bool.false_eq_true, if_false]
        at hx
      rcases hl : list root with ⟨secrets, e⟩
      rw [hl] at hx
      have hself : ∀ e1 : Option GoError,
          ∀ ev ∈ [Event.mk (Call.GetSecretsMetadata okmsId root true) e1],
            ∃ q1, ev.call = Call.GetSecretsMetadata okmsId q1 true ∧
              Relation.ReflTransGen (Child list) root q1 := by
        intro e1 ev hev
        have : ev = ⟨Call.GetSecretsMetadata okmsId root true, e1⟩ := by simpa using hev
        subst this
        exact ⟨root, rfl, Relation.ReflTransGen.refl⟩
      cases e with
      | some err =>
        simp only [Outcome.returns.injEq, Prod.mk.injEq] at hx
        exact ⟨_, by rw [← hx.2], hself _⟩
      | none =>
        simp only at hx
        by_cases hk : noKeys secrets = true
        · simp only [hk, if_true, Outcome.returns.injEq, Prod.mk.injEq] at hx
          exact ⟨_, by rw [← hx.2], hself _⟩
        · simp only [hk, Bool.false_eq_true, if_false] at hx
          have hkeys : ∀ key ∈ derefKeys secrets, key ≠ "" → key.data.head? ≠ some '/' →
              key.data.getLast? = some '/' →
              Child list root (joinPath root (String.mk key.data.dropLast)) := by
            intro key hkey hne hhead hlast
            exact ⟨by rw [hl], key, by rw [hl]; exact hkey, hne, hhead, hlast, rfl⟩
          obtain ⟨new2, hlog2, hn2⟩ :=
            rangeKeys_reach okmsId list ih root _ hkeys _ _ _ _ hx
          refine ⟨Event.mk (Call.GetSecretsMetadata okmsId root true) none :: new2,
            by rw [hlog2]; simp, ?_⟩
          intro ev hev
          rcases List.mem_cons.1 hev with h | h
          · exact hself none ev (by simp [h])
          · exact hn2 ev h

theorem docListing_child {p q : String} (h : Child docListing p q) :
    (p = "" ∧ q = "path") ∨ (p = "path" ∧ (q = "path/to" ∨ q = "path/secrets")) := by
  obtain ⟨_, key, hkey, _, _, hlast, hq⟩ := h
  unfold docListing at hkey
  split_ifs at hkey with h1 h2 h3 h4
  · have hk : key = "path/" := by simpa [listed, derefKeys] using hkey
    subst hk; subst h1
    exact Or.inl ⟨rfl, by rw [hq]; decide⟩
  · have hk : key = "to/" ∨ key = "secret2" ∨ key = "secrets/" := by
      simpa [listed, derefKeys] using hkey
    subst h2
    rcases hk with hk | hk | hk
    · subst hk; exact Or.inr ⟨rfl, Or.inl (by rw [hq]; decide)⟩
    · subst hk; exact absurd hlast (by decide)
    · subst hk; exact Or.inr ⟨rfl, Or.inr (by rw [hq]; decide)⟩
  · have hk : key = "secret1" := by simpa [listed, derefKeys] using hkey
    subst hk; exact absurd hlast (by decide)
  · have hk : key = "secret3" := by simpa [listed, derefKeys] using hkey
    subst hk; exact absurd hlast (by decide)
  · simp [listed, derefKeys] at hkey

theorem docListing_finiteTree : FiniteTree docListing "" := by
  rintro ⟨chain, h0, hstep⟩
  have h1 := hstep 0
  rw [h0] at h1
  rcases docListing_child h1 with ⟨_, hc1⟩ | ⟨hp, _⟩
  · have h2 := hstep 1
    simp only [Nat.zero_add, Nat.reduceAdd] at hc1 h2
    rw [hc1] at h2
    rcases docListing_child h2 with ⟨hp, _⟩ | ⟨_, hc2⟩
    · exact absurd hp (by decide)
    · have h3 := hstep 2
      simp only [Nat.reduceAdd] at h3
      rcases hc2 with hc2 | hc2 <;> rw [hc2] at h3 <;>
        rcases docListing_child h3 with ⟨hp, _⟩ | ⟨hp, _⟩ <;>
        exact absurd hp (by decide)
  · exact absurd hp (by decide)

/-- C11: for a client that lists by a function `list`: (1) when the remote namespace is a
finite tree under the root (no infinite chain of namespaces, each a child of the one
before), `recursivelyGetSecretsList` returns with enough fuel, in every world; (2) whenever
it returns, every call it logged is a listing call for the root or for a namespace reached
from the root through entries that a listing returned with a trailing `/`; (3) for every
client, a namespace whose listing is absent (nil response, nil data, nil keys) or empty
yields the empty result without error after that single listing call. -/
theorem recursivelyGetSecretsList_terminates {σ : Type} (c : OkmsClient σ) (okmsId : String)
    (list : String → Option GetMetadataResponse × Option GoError) (hlist : ListsBy c list) :
    (∀ root, FiniteTree list root →
      ∀ w, ∃ fuel x, recursivelyGetSecretsList c okmsId fuel root w = .returns x) ∧
    (∀ fuel root w x w1, recursivelyGetSecretsList c okmsId fuel root w = .returns (x, w1) →
      ∃ new, w1.log = w.log ++ new ∧
        ∀ ev ∈ new, ∃ q, ev.call = Call.GetSecretsMetadata okmsId q true ∧
          Relation.ReflTransGen (Child list) root q) ∧
    (∀ (c1 : OkmsClient σ) fuel root w secrets, root.data.head? ≠ some '/' →
      (c1.GetSecretsMetadata w.remote okmsId root true).1 = (secrets, none) →
      (secrets = none ∨ secrets = some { Data := none } ∨
        secrets = some { Data := some { Keys := none } } ∨
        secrets = some { Data := some { Keys := some [] } }) →
      recursivelyGetSecretsList c1 okmsId (fuel + 1) root w
        = .returns (([], none), (callGetSecretsMetadata c1 okmsId root true w).2)) := by
  refine ⟨?_, ?_, ?_⟩
  · intro root hfin
    exact recursivelyGetSecretsList_returns c okmsId list hlist root (acc_of_finiteTree hfin)
  · exact recursivelyGetSecretsList_reach c okmsId list hlist
  · intro c1 fuel root w secrets hroot hresp habsent
    have hp : ¬ (root != "" && root.data.head? == some '/') = true := by
      simp [hroot]
    have hk : noKeys secrets = true := by
      rcases habsent with h | h | h | h <;> subst h <;> rfl
    rw [recursivelyGetSecretsList]
    rcases hc : c1.GetSecretsMetadata w.remote okmsId root true with ⟨⟨secrets1, e1⟩, s2⟩
    rw [hc] at hresp
    simp only [Prod.mk.injEq] at hresp
    obtain ⟨hs, he⟩ := hresp
    subst hs; subst he
    simp only [hp, callGetSecretsMetadata, hc, hk, Bool.false_eq_true, if_false, if_true]

/-- C11, witness: the documented namespace is a finite tree under the empty root, so its
enumeration returns; and the namespace `path/to/secret1`, whose listing is empty, yields
the empty result after one listing call. -/
theorem recursivelyGetSecretsList_terminates_witness :
    (∀ w, ∃ fuel x,
      recursivelyGetSecretsList (listingClient docListing) "id" fuel "" w = .returns x) ∧
    recursivelyGetSecretsList (listingClient docListing) "id" 1 "path/to/secret1" ⟨(), []⟩
      = .returns (([], none),
          ⟨(), [⟨Call.GetSecretsMetadata "id" "path/to/secret1" true, none⟩]⟩) :=
  ⟨(recursivelyGetSecretsList_terminates (listingClient docListing) "id" docListing
      (fun _ _ _ _ => rfl)).1 "" docListing_finiteTree,
   (recursivelyGetSecretsList_terminates (listingClient docListing) "id" docListing
      (fun _ _ _ _ => rfl)).2.2 (listingClient docListing) 0 "path/to/secret1" ⟨(), []⟩
      (some { Data := some { Keys := some [] } }) (by decide) rfl
      (Or.inr (Or.inr (Or.inr rfl)))⟩

/-! ## Theorems: filtering and fetching -/

theorem GoMap.lookup_nil {α : Type} (k : String) : GoMap.lookup ([] : GoMap α) k = none := rfl

theorem GoMap.lookup_cons {α : Type} (e : String × α) (m : GoMap α) (k : String) :
    GoMap.lookup (e :: m) k = if e.1 = k then some e.2 else GoMap.lookup m k := by
  by_cases h : e.1 = k <;> simp [GoMap.lookup, List.find?_cons, h]

theorem GoMap.lookup_replace {α : Type} (m : GoMap α) (key : String) (v : α) (k : String) :
    GoMap.lookup (List.map (fun e => if (e.1 == key) = true then (key, v) else e) m) k
      = if k = key then (if m.any (fun e => e.1 == key) = true then some v else none)
        else GoMap.lookup m k := by
  induction m with
  | nil => by_cases h : k = key <;> simp [GoMap.lookup_nil, h]
  | cons e m ih =>
    rw [List.map_cons, GoMap.lookup_cons, ih, GoMap.lookup_cons]
    by_cases h1 : e.1 = key
    · by_cases h2 : k = key
      · subst h2; simp [h1]
      · have h3 : ¬ key = k := fun h => h2 h.symm
        have h4 : ¬ e.1 = k := fun h => h2 (h.symm.trans h1)
        simp [h1, h2, h3, h4]
    · have h1b : (e.1 == key) = false := by simpa using h1
      by_cases h2 : k = key
      · subst h2
        simp only [h1, if_false, if_true, List.any_cons, h1b, Bool.false_or,
          Bool.false_eq_true]
      · simp [h1, h2]

theorem GoMap.lookup_append_single {α : Type} (m : GoMap α) (key : String) (v : α)
    (k : String) (hany : m.any (fun e => e.1 == key) = false) :
    GoMap.lookup (m ++ [(key, v)]) k = if k = key then some v else GoMap.lookup m k := by
  induction m with
  | nil =>
    rw [List.nil_append, GoMap.lookup_cons, GoMap.lookup_nil]
    by_cases h : k = key
    · subst h; simp
    · have h3 : ¬ key = k := fun h1 => h h1.symm
      simp [h, h3]
  | cons e m ih =>
    have he : ¬ e.1 = key := by
      intro h; simp [h] at hany
    have hm : m.any (fun e => e.1 == key) = false := by
      simp only [List.any_cons, Bool.or_eq_false_iff] at hany; exact hany.2
    rw [List.cons_append, GoMap.lookup_cons, ih hm, GoMap.lookup_cons]
    by_cases h2 : k = key
    · subst h2; simp [he]
    · simp [h2]

theorem GoMap.lookup_set {α : Type} (m : GoMap α) (key : String) (v : α) (k : String) :
    GoMap.lookup (m.set key v) k = if k = key then some v else GoMap.lookup m k := by
  unfold GoMap.set
  by_cases hany : m.any (fun e => e.1 == key) = true
  · rw [if_pos hany, GoMap.lookup_replace]
    by_cases h : k = key <;> simp [h, hany]
  · have hany1 : m.any (fun e => e.1 == key) = false := by
      cases h : m.any (fun e => e.1 == key)
      · rfl
      · exact absurd h hany
    rw [if_neg hany, GoMap.lookup_append_single m key v k hany1]

theorem GoMap.eq_nil_of_lookup {α : Type} (m : GoMap α) (h : ∀ k, GoMap.lookup m k = none) :
    m = [] := by
  cases m with
  | nil => rfl
  | cons e m =>
    have := h e.1
    rw [GoMap.lookup_cons] at this
    simp at this

theorem GoMap.set_ne_nil {α : Type} (m : GoMap α) (key : String) (v : α) :
    m.set key v ≠ [] := by
  intro h
  have := GoMap.lookup_set m key v key
  rw [h, GoMap.lookup_nil] at this
  simp at this

theorem rangeSecrets_skip {σ : Type} (J : GoLib) (cl : ovhClient σ)
    (regex : Option (String → Bool)) (ref : ExternalSecretFind) (leaf : String)
    (rest : List String) (m : GoMap Bytes) (w : World σ)
    (hinc : included ref regex leaf = false) :
    rangeSecrets J cl regex ref (leaf :: rest) m w = rangeSecrets J cl regex ref rest m w := by
  unfold included at hinc
  simp only [rangeSecrets, hinc, Bool.false_eq_true, if_false]

theorem rangeSecrets_fetch {σ : Type} (J : GoLib) (cl : ovhClient σ)
    (regex : Option (String → Bool)) (ref : ExternalSecretFind) (leaf : String)
    (rest : List String) (m : GoMap Bytes) (w w1 : World σ) (b : Bytes)
    (err : Option GoError) (hinc : included ref regex leaf = true)
    (hget : GetSecret J cl (fetchRef ref leaf) w = .returns ((b, err), w1)) :
    rangeSecrets J cl regex ref (leaf :: rest) m w =
      match err with
      | some e =>
        if !errorsIsNoSecretErr e then .returns (([], some e), w1)
        else rangeSecrets J cl regex ref rest m w1
      | none => rangeSecrets J cl regex ref rest (m.set leaf b) w1 := by
  unfold included at hinc
  unfold fetchRef at hget
  cases err <;> simp only [rangeSecrets, hinc, if_true, hget]

theorem FetchesBy.tail {σ : Type} {J : GoLib} {cl : ovhClient σ} {ref : ExternalSecretFind}
    {regex : Option (String → Bool)} {leaf : String} {rest : List String}
    {fetch : String → Bytes × Option GoError}
    (h : FetchesBy J cl ref regex (leaf :: rest) fetch) : FetchesBy J cl ref regex rest fetch :=
  fun k hk => h k (List.mem_cons_of_mem _ hk)

/-- The end of the loop of `filterSecretsListWithRegexp` on the map `m`. -/
theorem rangeSecrets_nil {σ : Type} (J : GoLib) (cl : ovhClient σ)
    (regex : Option (String → Bool)) (ref : ExternalSecretFind) (m : GoMap Bytes)
    (w : World σ) :
    rangeSecrets J cl regex ref [] m w =
      if m.length == 0 then .returns (([], some (.text "no secrets matched the regexp")), w)
      else .returns ((m, none), w) := by
  simp only [rangeSecrets]

/-- When no included leaf fails with an error other than not-found, the loop ends with the
map that holds, beside what it held, the bytes fetched for every included leaf whose fetch
succeeded. -/
theorem rangeSecrets_ok {σ : Type} (J : GoLib) (cl : ovhClient σ)
    (regex : Option (String → Bool)) (ref : ExternalSecretFind)
    (fetch : String → Bytes × Option GoError) :
    ∀ rest : List String, FetchesBy J cl ref regex rest fetch →
      (∀ k ∈ rest, included ref regex k = true → ∀ e, (fetch k).2 = some e →
        errorsIsNoSecretErr e = true) →
      ∀ m w, ∃ m2 w2,
        rangeSecrets J cl regex ref rest m w = rangeSecrets J cl regex ref [] m2 w2 ∧
        ∀ k b, GoMap.lookup m2 k = some b ↔
          ((k ∈ rest ∧ included ref regex k = true ∧ fetch k = (b, none)) ∨
           (¬ (k ∈ rest ∧ included ref regex k = true ∧ (fetch k).2 = none) ∧
             GoMap.lookup m k = some b)) := by
  intro rest
  induction rest with
  | nil =>
    intro _ _ m w
    exact ⟨m, w, rfl, by simp⟩
  | cons leaf rest ih =>
    intro hF hok m w
    have hok1 : ∀ k ∈ rest, included ref regex k = true → ∀ e, (fetch k).2 = some e →
        errorsIsNoSecretErr e = true := fun k hk => hok k (List.mem_cons_of_mem _ hk)
    by_cases hinc : included ref regex leaf = true
    · obtain ⟨w1, hget⟩ := hF leaf (List.mem_cons_self _ _) hinc w
      rcases hfl : fetch leaf with ⟨b0, err⟩
      rw [hfl] at hget
      rw [rangeSecrets_fetch J cl regex ref leaf rest m w w1 b0 err hinc hget]
      cases err with
      | some e =>
        have hns := hok leaf (List.mem_cons_self _ _) hinc e (by rw [hfl])
        simp only [hns, Bool.not_true, Bool.false_eq_true, if_false]
        obtain ⟨m2, w2, hrun, hlook⟩ := ih hF.tail hok1 m w1
        refine ⟨m2, w2, hrun, ?_⟩
        intro k b
        rw [hlook k b]
        by_cases hk : k = leaf
        · subst hk; simp [hfl]
        · simp [hk]
      | none =>
        simp only
        obtain ⟨m2, w2, hrun, hlook⟩ := ih hF.tail hok1 (m.set leaf b0) w1
        refine ⟨m2, w2, hrun, ?_⟩
        intro k b
        rw [hlook k b, GoMap.lookup_set]
        by_cases hk : k = leaf
        · subst hk
          by_cases hb : b0 = b
          · subst hb
            simp only [hfl, hinc, and_self, and_true, true_and, if_true]
            exact ⟨fun _ => Or.inl (List.mem_cons_self _ _), fun _ => Classical.em _⟩
          · have hb1 : ¬ b = b0 := fun h => hb h.symm
            simp [hfl, hinc, hb, hb1]
        · simp [hk]
    · have hinc1 : included ref regex leaf = false := by
        cases h : included ref regex leaf
        · rfl
        · exact absurd h hinc
      rw [rangeSecrets_skip J cl regex ref leaf rest m w hinc1]
      obtain ⟨m2, w2, hrun, hlook⟩ := ih hF.tail hok1 m w
      refine ⟨m2, w2, hrun, ?_⟩
      intro k b
      rw [hlook k b]
      by_cases hk : k = leaf
      · subst hk; simp [hinc1]
      · simp [hk]

/-- The loop returns the first error other than not-found that the fetch of an included
leaf reports, with an empty map. -/
theorem rangeSecrets_error {σ : Type} (J : GoLib) (cl : ovhClient σ)
    (regex : Option (String → Bool)) (ref : ExternalSecretFind)
    (fetch : String → Bytes × Option GoError) (leaf : String) (post : List String)
    (e : GoError) (hinc : included ref regex leaf = true) (he : (fetch leaf).2 = some e)
    (hne : errorsIsNoSecretErr e = false) :
    ∀ pre : List String, FetchesBy J cl ref regex (pre ++ leaf :: post) fetch →
      (∀ k ∈ pre, included ref regex k = true → ∀ e1, (fetch k).2 = some e1 →
        errorsIsNoSecretErr e1 = true) →
      ∀ m w, ∃ w2,
        rangeSecrets J cl regex ref (pre ++ leaf :: post) m w = .returns (([], some e), w2) := by
  intro pre
  induction pre with
  | nil =>
    intro hF _ m w
    obtain ⟨w1, hget⟩ := hF leaf (List.mem_cons_self _ _) hinc w
    rcases hfl : fetch leaf with ⟨b0, err⟩
    rw [hfl] at hget he
    simp only at he
    subst he
    refine ⟨w1, ?_⟩
    rw [List.nil_append, rangeSecrets_fetch J cl regex ref leaf post m w w1 b0 _ hinc hget]
    simp only [hne, Bool.not_false, if_true]
  | cons k pre ih =>
    intro hF hok m w
    have hok1 : ∀ k1 ∈ pre, included ref regex k1 = true → ∀ e1, (fetch k1).2 = some e1 →
        errorsIsNoSecretErr e1 = true := fun k1 hk => hok k1 (List.mem_cons_of_mem _ hk)
    rw [List.cons_append] at hF ⊢
    by_cases hinck : included ref regex k = true
    · obtain ⟨w1, hget⟩ := hF k (List.mem_cons_self _ _) hinck w
      rcases hfl : fetch k with ⟨b0, err⟩
      rw [hfl] at hget
      rw [rangeSecrets_fetch J cl regex ref k _ m w w1 b0 err hinck hget]
      cases err with
      | some e1 =>
        have hns := hok k (List.mem_cons_self _ _) hinck e1 (by rw [hfl])
        simp only [hns, Bool.not_true, Bool.false_eq_true, if_false]
        exact ih hF.tail hok1 m w1
      | none => exact ih hF.tail hok1 _ w1
    · have hinc1 : included ref regex k = false := by
        cases h : included ref regex k
        · rfl
        · exact absurd h hinck
      rw [rangeSecrets_skip J cl regex ref k _ m w hinc1]
      exact ih hF.tail hok1 m w

/-- After an enumeration that returned leaves without error, with no pattern or a pattern
that compiles, `GetAllSecrets` is the loop of `filterSecretsListWithRegexp` over the leaves. -/
theorem GetAllSecrets_eq_rangeSecrets {σ : Type} (J : GoLib) (cl : ovhClient σ) (fuel : Nat)
    (ref : ExternalSecretFind) (w w1 : World σ) (leaves : List String)
    (regex : Option (String → Bool))
    (henum : getSecretsList cl.okmsClient cl.okmsId fuel ref.Path w
      = .returns ((leaves, none), w1))
    (hne : leaves ≠ []) (hpat : PatternIs J ref regex) :
    GetAllSecrets J cl fuel ref w = rangeSecrets J cl regex ref leaves [] w1 := by
  have hlen : (leaves.length == 0) = false := by
    cases leaves with
    | nil => exact absurd rfl hne
    | cons a l => rfl
  rcases hpat with ⟨hname, hre⟩ | ⟨name, re, hname, hcomp, hre⟩
  · subst hre
    simp only [GetAllSecrets, henum, hlen, hname, filterSecretsListWithRegexp,
      Bool.false_eq_true, if_false]
  · subst hre
    simp only [GetAllSecrets, henum, hlen, hname, hcomp, filterSecretsListWithRegexp,
      Bool.false_eq_true, if_false]

/-- C12: given an enumeration that returned the non-empty leaf list `leaves` without error,
no pattern or a pattern that compiles, and fetches that return `fetch leaf` for the included
leaves: (1) if the fetch of an included leaf fails with an error other than not-found, and
no included leaf before it in the list does, `GetAllSecrets` returns that error with an
empty map; (2) if no included leaf fails with such an error and one included leaf is
fetched without error, it returns without error the map that holds under `k` the bytes `b`
exactly when `k` is a leaf of the list, is included (every leaf without a name pattern,
otherwise those the pattern matches) and its fetch returned `b` without error. -/
theorem GetAllSecrets_filter {σ : Type} (J : GoLib) (cl : ovhClient σ) (fuel : Nat)
    (ref : ExternalSecretFind) (w w1 : World σ) (leaves : List String)
    (regex : Option (String → Bool)) (fetch : String → Bytes × Option GoError)
    (henum : getSecretsList cl.okmsClient cl.okmsId fuel ref.Path w
      = .returns ((leaves, none), w1))
    (hne : leaves ≠ []) (hpat : PatternIs J ref regex)
    (hfetch : FetchesBy J cl ref regex leaves fetch) :
    (∀ pre leaf post e, leaves = pre ++ leaf :: post → included ref regex leaf = true →
      (fetch leaf).2 = some e → errorsIsNoSecretErr e = false →
      (∀ k ∈ pre, included ref regex k = true → ∀ e1, (fetch k).2 = some e1 →
        errorsIsNoSecretErr e1 = true) →
      ∃ w2, GetAllSecrets J cl fuel ref w = .returns (([], some e), w2)) ∧
    ((∀ k ∈ leaves, included ref regex k = true → ∀ e, (fetch k).2 = some e →
        errorsIsNoSecretErr e = true) →
      (∃ k ∈ leaves, included ref regex k = true ∧ (fetch k).2 = none) →
      ∃ m w2, GetAllSecrets J cl fuel ref w = .returns ((m, none), w2) ∧
        ∀ k b, GoMap.lookup m k = some b ↔
          (k ∈ leaves ∧ included ref regex k = true ∧ fetch k = (b, none))) := by
  rw [GetAllSecrets_eq_rangeSecrets J cl fuel ref w w1 leaves regex henum hne hpat]
  constructor
  · intro pre leaf post e hsplit hinc he hns hpre
    subst hsplit
    exact rangeSecrets_error J cl regex ref fetch leaf post e hinc he hns pre hfetch hpre [] w1
  · intro hok ⟨k0, hk0, hinc0, hf0⟩
    obtain ⟨m2, w2, hrun, hlook⟩ := rangeSecrets_ok J cl regex ref fetch leaves hfetch hok [] w1
    have hlook1 : ∀ k b, GoMap.lookup m2 k = some b ↔
        (k ∈ leaves ∧ included ref regex k = true ∧ fetch k = (b, none)) := by
      intro k b
      rw [hlook k b]
      simp [GoMap.lookup_nil]
    have hm2 : (m2.length == 0) = false := by
      have hsome : GoMap.lookup m2 k0 = some (fetch k0).1 :=
        (hlook1 k0 (fetch k0).1).2 ⟨hk0, hinc0, Prod.ext rfl hf0⟩
      cases m2 with
      | nil => rw [GoMap.lookup_nil] at hsome; cases hsome
      | cons a l => rfl
    refine ⟨m2, w2, ?_, hlook1⟩
    rw [hrun, rangeSecrets_nil]
    simp only [hm2, Bool.false_eq_true, if_false]

theorem fakeFetch_plain (ref : ExternalSecretFind) (regex : Option (String → Bool))
    (hc : ref.ConversionStrategy = "") (hd : ref.DecodingStrategy = "") :
    FetchesBy refLib (fakeClient "GetAllSecrets") ref regex fakePaths
      (fakeFetch "GetAllSecrets") := by
  intro leaf hleaf _ w
  simp only [fakePaths, List.mem_cons, List.mem_singleton, List.not_mem_nil, or_false] at hleaf
  simp only [fetchRef, hc, hd]
  rcases hleaf with h | h | h | h | h | h | h | h <;> subst h <;> exact ⟨_, rfl⟩

theorem fakeFetch_error (ref : ExternalSecretFind) (regex : Option (String → Bool))
    (hc : ref.ConversionStrategy = "") (hd : ref.DecodingStrategy = "") :
    FetchesBy refLib (fakeClient "Error case") ref regex fakePaths
      (fakeFetch "Error case") := by
  intro leaf hleaf _ w
  simp only [fakePaths, List.mem_cons, List.mem_singleton, List.not_mem_nil, or_false] at hleaf
  simp only [fetchRef, hc, hd]
  rcases hleaf with h | h | h | h | h | h | h | h <;> subst h <;> exact ⟨_, rfl⟩

theorem fakeFetch_plain_none : ∀ k ∈ fakePaths, (fakeFetch "GetAllSecrets" k).2 = none := by
  intro k hk
  simp only [fakePaths, List.mem_cons, List.mem_singleton, List.not_mem_nil, or_false] at hk
  rcases hk with h | h | h | h | h | h | h | h <;> subst h <;> rfl

theorem fakeFetch_plain_ok :
    ∀ k ∈ fakePaths, included findPattern1 (some pattern1) k = true →
      ∀ e, (fakeFetch "GetAllSecrets" k).2 = some e → errorsIsNoSecretErr e = true := by
  intro k hk _ e he
  rw [fakeFetch_plain_none k hk] at he
  cases he

/-- C12, witness: against the fake store, whose enumeration yields eight leaves, the find
request with the pattern `pattern1` returns the map of the leaves that contain `pattern1`,
each with the bytes of its fetch; and under the test case `Error case`, where every fetch
fails, the request without a pattern returns the error of the first leaf. -/
theorem GetAllSecrets_filter_witness :
    (∃ m w2, GetAllSecrets refLib (fakeClient "GetAllSecrets") 1 findPattern1 ⟨(), []⟩
        = .returns ((m, none), w2) ∧
      ∀ k b, GoMap.lookup m k = some b ↔
        (k ∈ fakePaths ∧ included findPattern1 (some pattern1) k = true ∧
          fakeFetch "GetAllSecrets" k = (b, none))) ∧
    (∃ w2, GetAllSecrets refLib (fakeClient "Error case") 1 findAll ⟨(), []⟩
        = .returns (([], some (.wrap "failed to parse okms error"
            (.text "SecretExists error"))), w2)) :=
  ⟨(GetAllSecrets_filter refLib (fakeClient "GetAllSecrets") 1 findPattern1 ⟨(), []⟩
      ⟨(), [⟨Call.GetSecretsMetadata "id" "" true, none⟩]⟩ fakePaths (some pattern1)
      (fakeFetch "GetAllSecrets") rfl (by decide)
      (Or.inr ⟨{ RegExp := "pattern1" }, pattern1, rfl, rfl, rfl⟩)
      (fakeFetch_plain findPattern1 (some pattern1) rfl rfl)).2 fakeFetch_plain_ok
      ⟨"pattern1/path1", by decide, by decide, rfl⟩,
   (GetAllSecrets_filter refLib (fakeClient "Error case") 1 findAll ⟨(), []⟩
      ⟨(), [⟨Call.GetSecretsMetadata "id" "" true, none⟩]⟩ fakePaths none
      (fakeFetch "Error case") rfl (by decide) (Or.inl ⟨rfl, rfl⟩)
      (fakeFetch_error findAll none rfl rfl)).1 [] "pattern1/path1"
      ["pattern1/path2", "pattern1/path3", "pattern2/test/test-secret",
       "pattern2/test/test.secret", "pattern2/secret", "1secret",
       "pattern2/test/test;secret"]
      (.wrap "failed to parse okms error" (.text "SecretExists error"))
      rfl rfl rfl rfl (by simp)⟩

theorem rangeSecrets_success_ne_nil {σ : Type} (J : GoLib) (cl : ovhClient σ)
    (regex : Option (String → Bool)) (ref : ExternalSecretFind) :
    ∀ secrets m0 w m w1,
      rangeSecrets J cl regex ref secrets m0 w = .returns ((m, none), w1) → m ≠ [] := by
  intro secrets
  induction secrets with
  | nil =>
    intro m0 w m w1 hx
    rw [rangeSecrets_nil] at hx
    split at hx
    · simp at hx
    · rename_i hlen
      simp only [Outcome.returns.injEq, Prod.mk.injEq, and_true] at hx
      intro hm
      rw [← hx.1] at hm
      rw [hm] at hlen
      simp at hlen
  | cons secret rest ih =>
    intro m0 w m w1 hx
    simp only [rangeSecrets] at hx
    split at hx
    · split at hx
      · split at hx
        · split at hx
          · simp at hx
          · exact ih _ _ _ _ hx
        · exact ih _ _ _ _ hx
      · cases hx
      · cases hx
    · exact ih _ _ _ _ hx

/-- With a name pattern that does not compile, `GetAllSecrets` is decided by the
enumeration alone. -/
theorem GetAllSecrets_bad_pattern_eq {σ : Type} (J : GoLib) (cl : ovhClient σ) (fuel : Nat)
    (ref : ExternalSecretFind) (w : World σ) (name : FindName)
    (hname : ref.Name = some name) (hbad : ¬ Compiles J name.RegExp) :
    GetAllSecrets J cl fuel ref w =
      match getSecretsList cl.okmsClient cl.okmsId fuel ref.Path w with
      | .returns ((_, some err), w1) => .returns (([], some err), w1)
      | .returns ((secrets, none), w1) =>
        if secrets.length == 0 then
          .returns (([], some (.text "no secrets found in the secret manager")), w1)
        else .returns (([], some (.text "failed to parse regexp")), w1)
      | .panics => .panics
      | .outOfFuel => .outOfFuel := by
  rcases hc : J.regexpCompile name.RegExp with ⟨re, err⟩
  have hcases : err.isSome = true ∨ (re = none ∧ err = none) := by
    cases err with
    | some e => exact Or.inl rfl
    | none =>
      cases re with
      | none => exact Or.inr ⟨rfl, rfl⟩
      | some r => exact absurd ⟨r, hc⟩ hbad
  simp only [GetAllSecrets, hname, hc]
  rcases hcases with h | ⟨h1, h2⟩
  · cases err with
    | none => cases h
    | some e => cases re <;> rfl
  · subst h1; subst h2; rfl

/-- C13: (1) `GetAllSecrets` never returns an empty map without an error; (2) when the
enumeration returns no leaves and no error, it returns the error `no secrets found in the
secret manager` in the world the enumeration left (nothing is fetched), whatever the
pattern and the libraries, so also when the pattern does not compile; (3) when the
enumeration returns leaves, the pattern is absent or compiles, and the fetch of every
included leaf reports not-found, it returns the error `no secrets matched the regexp`;
(4) the two errors differ. -/
theorem GetAllSecrets_never_empty {σ : Type} (J : GoLib) (cl : ovhClient σ) (fuel : Nat)
    (ref : ExternalSecretFind) (w : World σ) :
    (∀ m w1, GetAllSecrets J cl fuel ref w = .returns ((m, none), w1) → m ≠ []) ∧
    (∀ w1, getSecretsList cl.okmsClient cl.okmsId fuel ref.Path w = .returns (([], none), w1) →
      GetAllSecrets J cl fuel ref w
        = .returns (([], some (.text "no secrets found in the secret manager")), w1)) ∧
    (∀ leaves w1 regex fetch,
      getSecretsList cl.okmsClient cl.okmsId fuel ref.Path w = .returns ((leaves, none), w1) →
      leaves ≠ [] → PatternIs J ref regex → FetchesBy J cl ref regex leaves fetch →
      (∀ k ∈ leaves, included ref regex k = true →
        ∃ e, (fetch k).2 = some e ∧ errorsIsNoSecretErr e = true) →
      ∃ w2, GetAllSecrets J cl fuel ref w
        = .returns (([], some (.text "no secrets matched the regexp")), w2)) ∧
    GoError.text "no secrets found in the secret manager"
      ≠ GoError.text "no secrets matched the regexp" := by
  refine ⟨?_, ?_, ?_, by decide⟩
  · intro m w1 hx
    simp only [GetAllSecrets] at hx
    split at hx
    · simp at hx
    · split at hx
      · simp at hx
      · split at hx
        · split at hx
          · simp at hx
          · simp at hx
          · exact rangeSecrets_success_ne_nil J cl _ ref _ _ _ _ _ hx
        · exact rangeSecrets_success_ne_nil J cl _ ref _ _ _ _ _ hx
    · cases hx
    · cases hx
  · intro w1 henum
    simp only [GetAllSecrets, henum, List.length_nil, beq_self_eq_true, if_true]
  · intro leaves w1 regex fetch henum hne hpat hfetch hnone
    rw [GetAllSecrets_eq_rangeSecrets J cl fuel ref w w1 leaves regex henum hne hpat]
    have hok : ∀ k ∈ leaves, included ref regex k = true → ∀ e, (fetch k).2 = some e →
        errorsIsNoSecretErr e = true := by
      intro k hk hinc e he
      obtain ⟨e1, he1, hns⟩ := hnone k hk hinc
      rw [he] at he1
      cases he1
      exact hns
    obtain ⟨m2, w2, hrun, hlook⟩ := rangeSecrets_ok J cl regex ref fetch leaves hfetch hok [] w1
    have hnil : m2 = [] := by
      apply GoMap.eq_nil_of_lookup
      intro k
      cases hl : GoMap.lookup m2 k with
      | none => rfl
      | some b =>
        exfalso
        rcases (hlook k b).1 hl with ⟨hk, hinc, hf⟩ | ⟨_, hm⟩
        · obtain ⟨e1, he1, _⟩ := hnone k hk hinc
          rw [hf] at he1
          cases he1
        · rw [GoMap.lookup_nil] at hm; cases hm
    subst hnil
    exact ⟨w2, by rw [hrun, rangeSecrets_nil]; rfl⟩

theorem fakeFetch_missing (ref : ExternalSecretFind) (regex : Option (String → Bool))
    (hc : ref.ConversionStrategy = "") (hd : ref.DecodingStrategy = "") :
    FetchesBy refLib (fakeClient "Non-existent Secret") ref regex fakePaths
      (fakeFetch "Non-existent Secret") := by
  intro leaf hleaf _ w
  simp only [fakePaths, List.mem_cons, List.mem_singleton, List.not_mem_nil, or_false] at hleaf
  simp only [fetchRef, hc, hd]
  rcases hleaf with h | h | h | h | h | h | h | h <;> subst h <;> exact ⟨_, rfl⟩

theorem fakeFetch_missing_notFound :
    ∀ k ∈ fakePaths, included findAll none k = true →
      ∃ e, (fakeFetch "Non-existent Secret" k).2 = some e ∧ errorsIsNoSecretErr e = true := by
  intro k hk _
  simp only [fakePaths, List.mem_cons, List.mem_singleton, List.not_mem_nil, or_false] at hk
  rcases hk with h | h | h | h | h | h | h | h <;> subst h <;>
    exact ⟨GoError.NoSecretErr, rfl, rfl⟩

/-- C13, witness: against the fake store, the prefix `empty secrets list`, whose listing is
empty, is answered with `no secrets found in the secret manager` although the pattern `[`
does not compile; and under the test case `Non-existent Secret`, where every fetch reports
not-found, the request is answered with `no secrets matched the regexp`. -/
theorem GetAllSecrets_never_empty_witness :
    GetAllSecrets refLib (fakeClient "GetAllSecrets") 1
        { Path := some "empty secrets list", Name := some { RegExp := "[" } } ⟨(), []⟩
      = .returns (([], some (.text "no secrets found in the secret manager")),
          ⟨(), [⟨Call.GetSecretsMetadata "id" "empty secrets list" true, none⟩]⟩) ∧
    (∃ w2, GetAllSecrets refLib (fakeClient "Non-existent Secret") 1 findAll ⟨(), []⟩
      = .returns (([], some (.text "no secrets matched the regexp")), w2)) :=
  ⟨(GetAllSecrets_never_empty refLib (fakeClient "GetAllSecrets") 1
      { Path := some "empty secrets list", Name := some { RegExp := "[" } } ⟨(), []⟩).2.1
      ⟨(), [⟨Call.GetSecretsMetadata "id" "empty secrets list" true, none⟩]⟩ rfl,
   (GetAllSecrets_never_empty refLib (fakeClient "Non-existent Secret") 1 findAll
      ⟨(), []⟩).2.2.1 fakePaths ⟨(), [⟨Call.GetSecretsMetadata "id" "" true, none⟩]⟩ none
      (fakeFetch "Non-existent Secret") rfl (by decide) (Or.inl ⟨rfl, rfl⟩)
      (fakeFetch_missing findAll none rfl rfl) fakeFetch_missing_notFound⟩

/-- With a name pattern that does not compile, whatever `GetAllSecrets` returns is an error
with an empty map, in the world in which the enumeration returned. -/
theorem GetAllSecrets_bad_pattern_inv {σ : Type} (J : GoLib) (cl : ovhClient σ) (fuel : Nat)
    (ref : ExternalSecretFind) (w : World σ) (name : FindName)
    (hname : ref.Name = some name) (hbad : ¬ Compiles J name.RegExp)
    (m : GoMap Bytes) (oe : Option GoError) (w2 : World σ)
    (hx : GetAllSecrets J cl fuel ref w = .returns ((m, oe), w2)) :
    m = [] ∧ oe ≠ none ∧
      ∃ res oe1, getSecretsList cl.okmsClient cl.okmsId fuel ref.Path w
        = .returns ((res, oe1), w2) := by
  rw [GetAllSecrets_bad_pattern_eq J cl fuel ref w name hname hbad] at hx
  split at hx
  · rename_i res err w1 henum
    simp only [Outcome.returns.injEq, Prod.mk.injEq] at hx
    obtain ⟨⟨hm, hoe⟩, hw⟩ := hx
    subst hm; subst hoe; subst hw
    exact ⟨rfl, by simp, res, some err, henum⟩
  · rename_i secrets w1 henum
    split at hx <;>
      (simp only [Outcome.returns.injEq, Prod.mk.injEq] at hx
       obtain ⟨⟨hm, hoe⟩, hw⟩ := hx
       subst hm; subst hoe; subst hw
       exact ⟨rfl, by simp, secrets, none, henum⟩)
  · cases hx
  · cases hx

/-- C14: if a name pattern is supplied and does not compile, then for every client and
world: (1) as soon as the enumeration returns, `GetAllSecrets` returns an error and an empty
map in the world the enumeration left; (2) whatever it returns is an error with an empty
map, and every call it logged is a listing call: no secret value is fetched; (3) when the
enumeration returned leaves, the error is `failed to parse regexp`: the leaves are not
included. -/
theorem GetAllSecrets_bad_pattern {σ : Type} (J : GoLib) (cl : ovhClient σ) (fuel : Nat)
    (ref : ExternalSecretFind) (w : World σ) (name : FindName)
    (hname : ref.Name = some name) (hbad : ¬ Compiles J name.RegExp) :
    (∀ x w1, getSecretsList cl.okmsClient cl.okmsId fuel ref.Path w = .returns (x, w1) →
      ∃ e, GetAllSecrets J cl fuel ref w = .returns (([], some e), w1)) ∧
    (∀ m oe w2, GetAllSecrets J cl fuel ref w = .returns ((m, oe), w2) →
      m = [] ∧ oe ≠ none ∧
        ∃ new, w2.log = w.log ++ new ∧ ∀ ev ∈ new, isListingCall ev.call = true) ∧
    (∀ leaves w1,
      getSecretsList cl.okmsClient cl.okmsId fuel ref.Path w = .returns ((leaves, none), w1) →
      leaves ≠ [] →
      GetAllSecrets J cl fuel ref w
        = .returns (([], some (.text "failed to parse regexp")), w1)) := by
  refine ⟨?_, ?_, ?_⟩
  · intro x w1 henum
    rw [GetAllSecrets_bad_pattern_eq J cl fuel ref w name hname hbad, henum]
    obtain ⟨res, oe⟩ := x
    cases oe with
    | some err => exact ⟨err, rfl⟩
    | none =>
      simp only
      split
      · exact ⟨_, rfl⟩
      · exact ⟨_, rfl⟩
  · intro m oe w2 hx
    obtain ⟨hm, hoe, res, oe1, henum⟩ :=
      GetAllSecrets_bad_pattern_inv J cl fuel ref w name hname hbad m oe w2 hx
    obtain ⟨new, hlog, hen⟩ := getSecretsList_log _ _ _ _ _ _ _ _ henum
    exact ⟨hm, hoe, new, hlog, hen.1⟩
  · intro leaves w1 henum hne
    have hlen : (leaves.length == 0) = false := by
      cases leaves with
      | nil => exact absurd rfl hne
      | cons a l => rfl
    rw [GetAllSecrets_bad_pattern_eq J cl fuel ref w name hname hbad, henum]
    simp only [hlen, Bool.false_eq_true, if_false]

theorem refLib_bad_pattern : ¬ Compiles refLib "[" := by
  rintro ⟨re, h⟩
  have h2 : (refLib.regexpCompile "[").2 = none := by rw [h]
  exact absurd h2 (by decide)

/-- C14, witness: against the fake store, whose enumeration yields eight leaves, the find
request with the pattern `[` returns `failed to parse regexp` with an empty map after the
listing call alone. -/
theorem GetAllSecrets_bad_pattern_witness :
    GetAllSecrets refLib (fakeClient "GetAllSecrets") 1 findBadPattern ⟨(), []⟩
      = .returns (([], some (.text "failed to parse regexp")),
          ⟨(), [⟨Call.GetSecretsMetadata "id" "" true, none⟩]⟩) :=
  (GetAllSecrets_bad_pattern refLib (fakeClient "GetAllSecrets") 1 findBadPattern ⟨(), []⟩
    { RegExp := "[" } rfl refLib_bad_pattern).2.2 fakePaths
    ⟨(), [⟨Call.GetSecretsMetadata "id" "" true, none⟩]⟩ rfl (by decide)

/-- C15, counterexample: the pattern `[` does not compile, and `GetAllSecrets` with it
against the fake store returns only after it has made a listing call. -/
theorem GetAllSecrets_lists_before_compiling :
    ¬ Compiles refLib "[" ∧
    ∃ x w1, GetAllSecrets refLib (fakeClient "GetAllSecrets") 1 findBadPattern ⟨(), []⟩
        = .returns (x, w1) ∧
      (⟨Call.GetSecretsMetadata "id" "" true, none⟩ : Event) ∈ w1.log ∧
      w1.log ≠ [] :=
  ⟨refLib_bad_pattern, _, _, rfl, List.mem_singleton.2 rfl, by simp⟩

/-- C15, amended: for every find request whose pattern does not compile, whenever
`GetAllSecrets` returns, it returns in the world in which the enumeration (`getSecretsList`)
returned: the calls it performed are exactly the listing calls of the enumeration, and
none of them is a fetch (`GetSecretV2`). -/
theorem GetAllSecrets_bad_pattern_calls {σ : Type} (J : GoLib) (cl : ovhClient σ) (fuel : Nat)
    (ref : ExternalSecretFind) (w : World σ) (name : FindName)
    (hname : ref.Name = some name) (hbad : ¬ Compiles J name.RegExp)
    (x : GoMap Bytes × Option GoError) (w2 : World σ)
    (hx : GetAllSecrets J cl fuel ref w = .returns (x, w2)) :
    (∃ y, getSecretsList cl.okmsClient cl.okmsId fuel ref.Path w = .returns (y, w2)) ∧
    ∃ new, w2.log = w.log ++ new ∧
      (∀ ev ∈ new, isListingCall ev.call = true) ∧
      ∀ ev ∈ new, ∀ okmsId path version includeData,
        ev.call ≠ Call.GetSecretV2 okmsId path version includeData := by
  obtain ⟨m, oe⟩ := x
  obtain ⟨_, _, res, oe1, henum⟩ :=
    GetAllSecrets_bad_pattern_inv J cl fuel ref w name hname hbad m oe w2 hx
  refine ⟨⟨_, henum⟩, ?_⟩
  obtain ⟨new, hlog, hen⟩ := getSecretsList_log _ _ _ _ _ _ _ _ henum
  refine ⟨new, hlog, hen.1, ?_⟩
  intro ev hev okmsId path version includeData hc
  have := hen.1 ev hev
  rw [hc] at this
  simp [isListingCall] at this

/-- C15, amended, witness: with the pattern `[` against the fake store, the only call is the
listing call of the enumeration. -/
theorem GetAllSecrets_bad_pattern_calls_witness :
    (∃ y, getSecretsList (fakeClient "GetAllSecrets").okmsClient "id" 1 findBadPattern.Path
        ⟨(), []⟩
      = .returns (y, ⟨(), [⟨Call.GetSecretsMetadata "id" "" true, none⟩]⟩)) ∧
    ∃ new, [Event.mk (Call.GetSecretsMetadata "id" "" true) none] = [] ++ new ∧
      (∀ ev ∈ new, isListingCall ev.call = true) ∧
      ∀ ev ∈ new, ∀ okmsId path version includeData,
        ev.call ≠ Call.GetSecretV2 okmsId path version includeData :=
  GetAllSecrets_bad_pattern_calls refLib (fakeClient "GetAllSecrets") 1 findBadPattern
    ⟨(), []⟩ { RegExp := "[" } rfl refLib_bad_pattern
    ([], some (.text "failed to parse regexp"))
    ⟨(), [⟨Call.GetSecretsMetadata "id" "" true, none⟩]⟩ rfl

/-! ## Theorems: the single-secret read -/

/-- C16, counterexample: with the policy `Fetch` and an empty key, `GetSecret` fails with
the empty-key error, not with the unsupported-policy error. -/
theorem GetSecret_fetch_empty_key :
    GetSecret refLib (fakeClient "MetaDataPolicy: Fetch")
        { Key := "", MetadataPolicy := "Fetch" } ⟨(), []⟩
      = .returns (("", some (.text "spec.data.remoteRef.key cannot be empty")), ⟨(), []⟩) ∧
    GoError.text "spec.data.remoteRef.key cannot be empty"
      ≠ GoError.text "fetch metadata policy not supported" :=
  ⟨rfl, by decide⟩

theorem getSecretWithOvhSDK_fetch {σ : Type} (J : GoLib) (c : OkmsClient σ) (okmsId : String)
    (ref : ExternalSecretDataRemoteRef) (w : World σ) (hkey : ref.Key ≠ "")
    (hpol : ref.MetadataPolicy = ExternalSecretMetadataPolicyFetch) :
    getSecretWithOvhSDK J c okmsId ref w
      = .returns (("", none, some (.text "fetch metadata policy not supported")), w) := by
  have h1 : (ref.Key == "") = false := by simpa using hkey
  simp only [getSecretWithOvhSDK, h1, hpol, Bool.false_eq_true, if_false, beq_self_eq_true,
    if_true]

/-- C16, amended: for every remote reference whose metadataPolicy is `Fetch` and whose key
is not empty, the single-secret read fails with the error `fetch metadata policy not
supported`, in `getSecretWithOvhSDK`, `GetSecret` and `GetSecretMap` alike, in the world it
started from: the remote store is not called. -/
theorem GetSecret_fetch_policy {σ : Type} (J : GoLib)
    (getByteValueFromMap : GoMap GoAny → String → Bytes × Option GoError)
    (cl : ovhClient σ) (ref : ExternalSecretDataRemoteRef) (w : World σ)
    (hkey : ref.Key ≠ "") (hpol : ref.MetadataPolicy = ExternalSecretMetadataPolicyFetch) :
    GetSecret J cl ref w
      = .returns (("", some (.text "fetch metadata policy not supported")), w) ∧
    GetSecretMap J getByteValueFromMap cl ref w
      = .returns (([], some (.text "fetch metadata policy not supported")), w) := by
  have h := getSecretWithOvhSDK_fetch J cl.okmsClient cl.okmsId ref w hkey hpol
  exact ⟨by simp only [GetSecret, h], by simp only [GetSecretMap, h]⟩

/-- C16, amended, witness: the test case `MetaDataPolicy: Fetch`, with the key `key`. -/
theorem GetSecret_fetch_policy_witness :
    GetSecret refLib (fakeClient "MetaDataPolicy: Fetch")
        { Key := "key", MetadataPolicy := "Fetch" } ⟨(), []⟩
      = .returns (("", some (.text "fetch metadata policy not supported")), ⟨(), []⟩) ∧
    GetSecretMap refLib (fun _ _ => ("", none)) (fakeClient "MetaDataPolicy: Fetch")
        { Key := "key", MetadataPolicy := "Fetch" } ⟨(), []⟩
      = .returns (([], some (.text "fetch metadata policy not supported")), ⟨(), []⟩) :=
  GetSecret_fetch_policy refLib (fun _ _ => ("", none)) (fakeClient "MetaDataPolicy: Fetch")
    { Key := "key", MetadataPolicy := "Fetch" } ⟨(), []⟩ (by decide) rfl

theorem getSecretWithOvhSDK_empty_key {σ : Type} (J : GoLib) (c : OkmsClient σ)
    (okmsId : String) (ref : ExternalSecretDataRemoteRef) (w : World σ) (hkey : ref.Key = "") :
    getSecretWithOvhSDK J c okmsId ref w
      = .returns (("", none, some (.text "spec.data.remoteRef.key cannot be empty")), w) := by
  simp only [getSecretWithOvhSDK, hkey, beq_self_eq_true, if_true]

/-- C17: for every remote reference with an empty key, the single-secret read
(`getSecretWithOvhSDK`, `GetSecret`, `GetSecretMap`) fails with the error
`spec.data.remoteRef.key cannot be empty` in the world it started from: the remote store is
not called; and `PushSecret` with non-empty local data and an empty remote key fails with
that error in the world it started from: no read and no write is performed. -/
theorem empty_key_rejected {σ : Type} (J : GoLib)
    (getByteValueFromMap : GoMap GoAny → String → Bytes × Option GoError)
    (cl : ovhClient σ) (w : World σ) :
    (∀ ref : ExternalSecretDataRemoteRef, ref.Key = "" →
      getSecretWithOvhSDK J cl.okmsClient cl.okmsId ref w
        = .returns (("", none, some (.text "spec.data.remoteRef.key cannot be empty")), w) ∧
      GetSecret J cl ref w
        = .returns (("", some (.text "spec.data.remoteRef.key cannot be empty")), w) ∧
      GetSecretMap J getByteValueFromMap cl ref w
        = .returns (([], some (.text "spec.data.remoteRef.key cannot be empty")), w)) ∧
    (∀ (secret : Secret) (data : PushSecretData), secret.Data.length ≠ 0 →
      data.RemoteKey = "" →
      PushSecret J cl (some secret) data w
        = .returns (some (.text "spec.data.remoteRef.key cannot be empty"), w)) := by
  constructor
  · intro ref hkey
    have h := getSecretWithOvhSDK_empty_key J cl.okmsClient cl.okmsId ref w hkey
    exact ⟨h, by simp only [GetSecret, h], by simp only [GetSecretMap, h]⟩
  · intro secret data hdata hkey
    have hd : (secret.Data.length == 0) = false := by simpa using hdata
    have h := getSecretWithOvhSDK_empty_key J cl.okmsClient cl.okmsId
      { Key := data.RemoteKey } w hkey
    simp [PushSecret, hd, h, errorsIsNoSecretErr]

/-- C17, witness: the test case `Empty Remote Key` of `TestPushSecret`, and a read with an
empty key. -/
theorem empty_key_rejected_witness :
    GetSecret refLib (fakeClient "Valid Secret") { Key := "" } ⟨(), []⟩
      = .returns (("", some (.text "spec.data.remoteRef.key cannot be empty")), ⟨(), []⟩) ∧
    PushSecret refLib (fakeClient "Empty Remote Key") (some { Data := [("key", "value")] })
        { SecretKey := "", RemoteKey := "", Property := "" } ⟨(), []⟩
      = .returns (some (.text "spec.data.remoteRef.key cannot be empty"), ⟨(), []⟩) :=
  ⟨((empty_key_rejected refLib (fun _ _ => ("", none)) (fakeClient "Valid Secret")
      ⟨(), []⟩).1 { Key := "" } rfl).2.1,
   (empty_key_rejected refLib (fun _ _ => ("", none)) (fakeClient "Empty Remote Key")
      ⟨(), []⟩).2 { Data := [("key", "value")] }
      { SecretKey := "", RemoteKey := "", Property := "" } (by decide) rfl⟩

theorem decodeSecretVersion_ok_iff (s : String) (v : Nat) (hs : s ≠ "") :
    decodeSecretVersion s = (some v, none) ↔
      (strconvAtoi s = .ok (v : Int) ∧ v ≤ 2 ^ 32 - 1) := by
  have hne : (s != "") = true := by simpa using hs
  unfold decodeSecretVersion
  simp only [hne, if_true]
  cases h : strconvAtoi s with
  | error e => simp
  | ok n =>
    simp only
    by_cases hcmp : (((n % (2 : Int) ^ 32).toNat : Int) != n) = true
    · simp only [hcmp, if_true]
      have hcmp1 : ((n % (2 : Int) ^ 32).toNat : Int) ≠ n := by simpa using hcmp
      constructor
      · intro h1; simp at h1
      · rintro ⟨h1, h2⟩
        exfalso
        have h3 : n = (v : Int) := by simpa using h1
        omega
    · have hcmp1 : ((n % (2 : Int) ^ 32).toNat : Int) = n := by simpa using hcmp
      simp only [hcmp, if_false]
      constructor
      · intro h1
        have h2 : (n % (2 : Int) ^ 32).toNat = v := by simpa using h1
        refine ⟨?_, by omega⟩
        have h3 : n = (v : Int) := by omega
        rw [h3]
      · rintro ⟨h1, h2⟩
        have h3 : n = (v : Int) := by simpa using h1
        have h4 : (n % (2 : Int) ^ 32).toNat = v := by omega
        rw [h4]
        simp only [Bool.false_eq_true, if_false]

theorem decodeSecretVersion_error (s : String) (hs : s ≠ "")
    (hno : ¬ ∃ v : Nat, strconvAtoi s = .ok (v : Int) ∧ v ≤ 2 ^ 32 - 1) :
    ∃ e, decodeSecretVersion s = (none, some e) := by
  have hne : (s != "") = true := by simpa using hs
  unfold decodeSecretVersion
  simp only [hne, if_true]
  cases h : strconvAtoi s with
  | error e => exact ⟨e, rfl⟩
  | ok n =>
    simp only
    by_cases hcmp : (((n % (2 : Int) ^ 32).toNat : Int) != n) = true
    · simp only [hcmp, if_true]
      exact ⟨_, rfl⟩
    · exfalso
      have hcmp1 : ((n % (2 : Int) ^ 32).toNat : Int) = n := by simpa using hcmp
      apply hno
      refine ⟨(n % (2 : Int) ^ 32).toNat, ?_, by omega⟩
      rw [h, hcmp1]

theorem getSecretWithOvhSDK_bad_version {σ : Type} (J : GoLib) (c : OkmsClient σ)
    (okmsId : String) (ref : ExternalSecretDataRemoteRef) (w : World σ) (v : Option Nat)
    (e : GoError) (hver : decodeSecretVersion ref.Version = (v, some e)) :
    ∃ e1, getSecretWithOvhSDK J c okmsId ref w = .returns (("", none, some e1), w) ∧
      (ref.Key ≠ "" → ref.MetadataPolicy ≠ ExternalSecretMetadataPolicyFetch → e1 = e) := by
  by_cases hkey : ref.Key = ""
  · exact ⟨_, getSecretWithOvhSDK_empty_key J c okmsId ref w hkey, fun h => absurd hkey h⟩
  · by_cases hpol : ref.MetadataPolicy = ExternalSecretMetadataPolicyFetch
    · exact ⟨_, getSecretWithOvhSDK_fetch J c okmsId ref w hkey hpol,
        fun _ h => absurd hpol h⟩
    · refine ⟨e, ?_, fun _ _ => rfl⟩
      have h1 : (ref.Key == "") = false := by simpa using hkey
      have h2 : (ref.MetadataPolicy == ExternalSecretMetadataPolicyFetch) = false := by
        simpa using hpol
      simp only [getSecretWithOvhSDK, h1, h2, hver, Bool.false_eq_true, if_false]

/-- C18: `decodeSecretVersion` returns no version and no error for the empty string; for a
non-empty string it returns the version `v` without error exactly when `strconv.Atoi`
parses the string to the integer `v` and `v ≤ 2^32 - 1`; when the string does not parse to
an integer between 0 and `2^32 - 1` it returns an error and no version; and when the
version of a reference fails to decode, the single-secret read returns an error (that one,
when the key is not empty and the policy is not `Fetch`) in the world it started from: the
remote store is not called. -/
theorem decodeSecretVersion_spec :
    decodeSecretVersion "" = (none, none) ∧
    (∀ (s : String) (v : Nat), s ≠ "" →
      (decodeSecretVersion s = (some v, none) ↔
        (strconvAtoi s = .ok (v : Int) ∧ v ≤ 2 ^ 32 - 1))) ∧
    (∀ s : String, s ≠ "" →
      (¬ ∃ v : Nat, strconvAtoi s = .ok (v : Int) ∧ v ≤ 2 ^ 32 - 1) →
      ∃ e, decodeSecretVersion s = (none, some e)) ∧
    (∀ (σ : Type) (J : GoLib) (cl : ovhClient σ) (ref : ExternalSecretDataRemoteRef)
      (w : World σ) (v : Option Nat) (e : GoError),
      decodeSecretVersion ref.Version = (v, some e) →
      ∃ e1, GetSecret J cl ref w = .returns (("", some e1), w) ∧
        (ref.Key ≠ "" → ref.MetadataPolicy ≠ ExternalSecretMetadataPolicyFetch → e1 = e)) := by
  refine ⟨by decide, decodeSecretVersion_ok_iff, decodeSecretVersion_error, ?_⟩
  intro σ J cl ref w v e hver
  obtain ⟨e1, h, he⟩ := getSecretWithOvhSDK_bad_version J cl.okmsClient cl.okmsId ref w v e hver
  exact ⟨e1, by simp only [GetSecret, h], he⟩

/-- C18, witness: `4294967295` decodes to the version `2^32 - 1`; `4294967296`, `-1` and
`abc` are errors; and the read of the key `key` at the version `abc` against the test case
`Secret Version` returns an error in the world it started from. -/
theorem decodeSecretVersion_spec_witness :
    decodeSecretVersion "4294967295" = (some 4294967295, none) ∧
    (∃ e, decodeSecretVersion "4294967296" = (none, some e)) ∧
    (∃ e, decodeSecretVersion "-1" = (none, some e)) ∧
    (∃ e, decodeSecretVersion "abc" = (none, some e)) ∧
    (∃ e1, GetSecret refLib (fakeClient "Secret Version") { Key := "key", Version := "abc" }
        ⟨(), []⟩ = .returns (("", some e1), ⟨(), []⟩) ∧
      (("key" : String) ≠ "" → ("" : String) ≠ ExternalSecretMetadataPolicyFetch →
        e1 = .NumError "abc" "invalid syntax")) :=
  ⟨(decodeSecretVersion_spec.2.1 "4294967295" 4294967295 (by decide)).mpr
      ⟨rfl, by decide⟩,
    decodeSecretVersion_spec.2.2.1 "4294967296" (by decide) (by
      rintro ⟨v, h1, h2⟩
      have h3 : strconvAtoi "4294967296" = .ok 4294967296 := rfl
      rw [h3] at h1
      have h4 : (4294967296 : Int) = (v : Int) := by simpa using h1
      omega),
    decodeSecretVersion_spec.2.2.1 "-1" (by decide) (by
      rintro ⟨v, h1, h2⟩
      have h3 : strconvAtoi "-1" = .ok (-1) := rfl
      rw [h3] at h1
      simp at h1),
    decodeSecretVersion_spec.2.2.1 "abc" (by decide) (by
      rintro ⟨v, h1, h2⟩
      have h3 : strconvAtoi "abc" = .error (.NumError "abc" "invalid syntax") := rfl
      rw [h3] at h1
      simp at h1),
    decodeSecretVersion_spec.2.2.2 Unit refLib (fakeClient "Secret Version")
      { Key := "key", Version := "abc" } ⟨(), []⟩ none (.NumError "abc" "invalid syntax") rfl⟩

theorem getSecretWithOvhSDK_read {σ : Type} (J : GoLib) (c : OkmsClient σ) (okmsId : String)
    (ref : ExternalSecretDataRemoteRef) (w : World σ) (v : Option Nat)
    (metadata : SecretV2Metadata) (version : SecretV2Version) (s1 : σ)
    (hkey : ref.Key ≠ "") (hpol : ref.MetadataPolicy ≠ ExternalSecretMetadataPolicyFetch)
    (hver : decodeSecretVersion ref.Version = (v, none))
    (hget : c.GetSecretV2 w.remote okmsId ref.Key v (some true)
      = ((some ⟨some metadata, some version⟩, none), s1)) :
    getSecretWithOvhSDK J c okmsId ref w
      = .returns
          (((if ref.Property == "" then J.Marshal (ptrMap version.Data)
              else getPropertyValue J version.Data ref.Property).1,
            metadata.CurrentVersion,
            (if ref.Property == "" then J.Marshal (ptrMap version.Data)
              else getPropertyValue J version.Data ref.Property).2),
           { remote := s1,
             log := w.log ++ [⟨Call.GetSecretV2 okmsId ref.Key v (some true), none⟩] }) := by
  have h1 : (ref.Key == "") = false := by simpa using hkey
  have h2 : (ref.MetadataPolicy == ExternalSecretMetadataPolicyFetch) = false := by
    simpa using hpol
  simp only [getSecretWithOvhSDK, h1, h2, hver, callGetSecretV2, hget, Bool.false_eq_true,
    if_false]

/-- C19: when the key is not empty, the policy is not `Fetch`, the version decodes, the
remote read succeeds with a response that carries metadata and a version, and the property
is empty, `GetSecret` returns exactly what `json.Marshal` returns for the whole secret value
(`secret.Version.Data`), after the single call `GetSecretV2`. -/
theorem GetSecret_empty_property {σ : Type} (J : GoLib) (cl : ovhClient σ)
    (ref : ExternalSecretDataRemoteRef) (w : World σ) (v : Option Nat)
    (metadata : SecretV2Metadata) (version : SecretV2Version) (s1 : σ)
    (hkey : ref.Key ≠ "") (hpol : ref.MetadataPolicy ≠ ExternalSecretMetadataPolicyFetch)
    (hver : decodeSecretVersion ref.Version = (v, none))
    (hget : cl.okmsClient.GetSecretV2 w.remote cl.okmsId ref.Key v (some true)
      = ((some ⟨some metadata, some version⟩, none), s1))
    (hprop : ref.Property = "") :
    GetSecret J cl ref w
      = .returns (J.Marshal (ptrMap version.Data),
          { remote := s1,
            log := w.log ++ [⟨Call.GetSecretV2 cl.okmsId ref.Key v (some true), none⟩] }) := by
  have h := getSecretWithOvhSDK_read J cl.okmsClient cl.okmsId ref w v metadata version s1
    hkey hpol hver hget
  simp only [GetSecret, h, hprop, beq_self_eq_true, if_true]
  unfold GoLib.Marshal
  cases J.jsonMarshal (ptrMap version.Data) <;> rfl

/-- C19, witness: the test case `Empty property`: the value `key: value` is returned as the
JSON object with the member `"key":"value"`. -/
theorem GetSecret_empty_property_witness :
    GetSecret refLib (fakeClient "Empty property") { Key := "key", Property := "" } ⟨(), []⟩
      = .returns (("\x7b\"key\":\"value\"\x7d", none),
          ⟨(), [⟨Call.GetSecretV2 "id" "key" none (some true), none⟩]⟩) :=
  (GetSecret_empty_property refLib (fakeClient "Empty property")
    { Key := "key", Property := "" } ⟨(), []⟩ none ⟨none⟩ ⟨some fakeData⟩ ()
    (by decide) (by decide) rfl rfl rfl).trans rfl

/-- C20: when the key is not empty, the policy is not `Fetch`, the version decodes, the
remote read succeeds with a response that carries metadata and a version whose data
serializes to `b`, and the non-empty property does not exist in `b` (`gjson.Get` reports
that the result does not exist), the single-secret read fails with the error
`secret property "<property>" not found` and returns no data: `GetSecret` returns empty
bytes and `GetSecretMap` an empty map. -/
theorem missing_property_not_found {σ : Type} (J : GoLib)
    (getByteValueFromMap : GoMap GoAny → String → Bytes × Option GoError)
    (cl : ovhClient σ)
    (ref : ExternalSecretDataRemoteRef) (w : World σ) (v : Option Nat)
    (metadata : SecretV2Metadata) (version : SecretV2Version) (s1 : σ) (b : Bytes)
    (hkey : ref.Key ≠ "") (hpol : ref.MetadataPolicy ≠ ExternalSecretMetadataPolicyFetch)
    (hver : decodeSecretVersion ref.Version = (v, none))
    (hget : cl.okmsClient.GetSecretV2 w.remote cl.okmsId ref.Key v (some true)
      = ((some ⟨some metadata, some version⟩, none), s1))
    (hprop : ref.Property ≠ "")
    (hjson : J.jsonMarshal (ptrMap version.Data) = .ok b)
    (hmiss : J.gjsonGet b ref.Property = none) :
    getSecretWithOvhSDK J cl.okmsClient cl.okmsId ref w
      = .returns (("", metadata.CurrentVersion,
            some (.text ("secret property \"" ++ ref.Property ++ "\" not found"))),
          { remote := s1,
            log := w.log ++ [⟨Call.GetSecretV2 cl.okmsId ref.Key v (some true), none⟩] }) ∧
    GetSecret J cl ref w
      = .returns (("", some (.text ("secret property \"" ++ ref.Property ++ "\" not found"))),
          { remote := s1,
            log := w.log ++ [⟨Call.GetSecretV2 cl.okmsId ref.Key v (some true), none⟩] }) ∧
    GetSecretMap J getByteValueFromMap cl ref w
      = .returns (([], some (.text ("secret property \"" ++ ref.Property ++ "\" not found"))),
          { remote := s1,
            log := w.log ++ [⟨Call.GetSecretV2 cl.okmsId ref.Key v (some true), none⟩] }) := by
  have h := getSecretWithOvhSDK_read J cl.okmsClient cl.okmsId ref w v metadata version s1
    hkey hpol hver hget
  have h1 : (ref.Property == "") = false := by simpa using hprop
  have h2 : getPropertyValue J version.Data ref.Property
      = ("", some (.text ("secret property \"" ++ ref.Property ++ "\" not found"))) := by
    simp only [getPropertyValue, GoLib.Marshal, hjson, hmiss]
  simp only [h1, h2, Bool.false_eq_true, if_false] at h
  refine ⟨h, ?_, ?_⟩
  · simp only [GetSecret, h]
  · simp only [GetSecretMap, h]

/-- C20, witness: the test case `Invalid property`: the property `Invalid Property` against
the value `key: value`. -/
theorem missing_property_not_found_witness :
    GetSecret refLib (fakeClient "Invalid property")
        { Key := "key", Property := "Invalid Property" } ⟨(), []⟩
      = .returns (("", some (.text "secret property \"Invalid Property\" not found")),
          ⟨(), [⟨Call.GetSecretV2 "id" "key" none (some true), none⟩]⟩) :=
  ((missing_property_not_found refLib (fun _ _ => ("", none)) (fakeClient "Invalid property")
    { Key := "key", Property := "Invalid Property" } ⟨(), []⟩ none ⟨none⟩ ⟨some fakeData⟩ ()
    "\x7b\"key\":\"value\"\x7d" (by decide) (by decide) rfl rfl (by decide) rfl rfl).2.1).trans
    rfl

/-! ## Theorems: errors of the remote read -/

theorem getSecretWithOvhSDK_read_error {σ : Type} (J : GoLib) (cl : ovhClient σ)
    (ref : ExternalSecretDataRemoteRef) (w : World σ) (v : Option Nat)
    (resp : Option GetSecretV2Response) (err : GoError) (s1 : σ)
    (hkey : ref.Key ≠ "") (hpol : ref.MetadataPolicy ≠ ExternalSecretMetadataPolicyFetch)
    (hver : decodeSecretVersion ref.Version = (v, none))
    (hget : cl.okmsClient.GetSecretV2 w.remote cl.okmsId ref.Key v (some true)
      = ((resp, some err), s1)) :
    getSecretWithOvhSDK J cl.okmsClient cl.okmsId ref w
      = .returns (("", none, some (handleOkmsError err)), afterRead cl ref v (some err) s1 w) := by
  have h1 : (ref.Key == "") = false := by simpa using hkey
  have h2 : (ref.MetadataPolicy == ExternalSecretMetadataPolicyFetch) = false := by
    simpa using hpol
  simp only [getSecretWithOvhSDK, h1, h2, hver, callGetSecretV2, hget, Bool.false_eq_true,
    if_false, afterRead]

theorem getSecretWithOvhSDK_read_nil {σ : Type} (J : GoLib) (cl : ovhClient σ)
    (ref : ExternalSecretDataRemoteRef) (w : World σ) (v : Option Nat) (s1 : σ)
    (hkey : ref.Key ≠ "") (hpol : ref.MetadataPolicy ≠ ExternalSecretMetadataPolicyFetch)
    (hver : decodeSecretVersion ref.Version = (v, none))
    (hget : cl.okmsClient.GetSecretV2 w.remote cl.okmsId ref.Key v (some true)
      = ((none, none), s1)) :
    getSecretWithOvhSDK J cl.okmsClient cl.okmsId ref w
      = .returns (("", none, some .NoSecretErr), afterRead cl ref v none s1 w) := by
  have h1 : (ref.Key == "") = false := by simpa using hkey
  have h2 : (ref.MetadataPolicy == ExternalSecretMetadataPolicyFetch) = false := by
    simpa using hpol
  simp only [getSecretWithOvhSDK, h1, h2, hver, callGetSecretV2, hget, Bool.false_eq_true,
    if_false, afterRead]

theorem handleOkmsError_code {err : GoError} {code : Nat} {body : String}
    (h : okmsAsKmsError err = some (code, body)) :
    handleOkmsError err = if code = 17125377 then .NoSecretErr else .KmsError code body := by
  simp only [handleOkmsError, h]
  by_cases hc : code = 17125377
  · simp [hc]
  · simp [hc]

/-- C21: for a reference that passes validation (key not empty, policy not `Fetch`, version
decoded), the single-secret read (`getSecretWithOvhSDK`, `GetSecret`) returns the sentinel
`NoSecretErr` when the collaborator's read fails with an error that carries a KMS error of
code 17125377, and when it succeeds with a nil response; when it fails with an error that
carries a KMS error of another code, the read returns that KMS error, which is not the
sentinel (`errors.Is` answers false). -/
theorem read_not_found_sentinel {σ : Type} (J : GoLib) (cl : ovhClient σ)
    (ref : ExternalSecretDataRemoteRef) (w : World σ) (v : Option Nat)
    (hkey : ref.Key ≠ "") (hpol : ref.MetadataPolicy ≠ ExternalSecretMetadataPolicyFetch)
    (hver : decodeSecretVersion ref.Version = (v, none)) :
    (∀ resp err body s1,
      cl.okmsClient.GetSecretV2 w.remote cl.okmsId ref.Key v (some true)
        = ((resp, some err), s1) →
      okmsAsKmsError err = some (17125377, body) →
      getSecretWithOvhSDK J cl.okmsClient cl.okmsId ref w
        = .returns (("", none, some .NoSecretErr), afterRead cl ref v (some err) s1 w) ∧
      GetSecret J cl ref w
        = .returns (("", some .NoSecretErr), afterRead cl ref v (some err) s1 w)) ∧
    (∀ s1,
      cl.okmsClient.GetSecretV2 w.remote cl.okmsId ref.Key v (some true)
        = ((none, none), s1) →
      getSecretWithOvhSDK J cl.okmsClient cl.okmsId ref w
        = .returns (("", none, some .NoSecretErr), afterRead cl ref v none s1 w) ∧
      GetSecret J cl ref w = .returns (("", some .NoSecretErr), afterRead cl ref v none s1 w)) ∧
    (∀ resp err code body s1,
      cl.okmsClient.GetSecretV2 w.remote cl.okmsId ref.Key v (some true)
        = ((resp, some err), s1) →
      okmsAsKmsError err = some (code, body) → code ≠ 17125377 →
      getSecretWithOvhSDK J cl.okmsClient cl.okmsId ref w
        = .returns (("", none, some (.KmsError code body)),
            afterRead cl ref v (some err) s1 w) ∧
      GetSecret J cl ref w
        = .returns (("", some (.KmsError code body)), afterRead cl ref v (some err) s1 w) ∧
      GoError.KmsError code body ≠ .NoSecretErr ∧
      errorsIsNoSecretErr (.KmsError code body) = false) := by
  refine ⟨?_, ?_, ?_⟩
  · intro resp err body s1 hget hkms
    have h := getSecretWithOvhSDK_read_error J cl ref w v resp err s1 hkey hpol hver hget
    rw [handleOkmsError_code hkms] at h
    simp only [if_true] at h
    exact ⟨h, by simp only [GetSecret, h]⟩
  · intro s1 hget
    have h := getSecretWithOvhSDK_read_nil J cl ref w v s1 hkey hpol hver hget
    exact ⟨h, by simp only [GetSecret, h]⟩
  · intro resp err code body s1 hget hkms hcode
    have h := getSecretWithOvhSDK_read_error J cl ref w v resp err s1 hkey hpol hver hget
    rw [handleOkmsError_code hkms] at h
    simp only [hcode, if_false] at h
    exact ⟨h, by simp only [GetSecret, h], by simp, rfl⟩

/-- C21, witness: the test cases `Non-existent Secret` (code 17125377) and `Invalid Secret
Version` (code 17125378) of the fake client, and a client that answers a nil response. -/
theorem read_not_found_sentinel_witness :
    GetSecret refLib (fakeClient "Non-existent Secret") { Key := "key" } ⟨(), []⟩
      = .returns (("", some .NoSecretErr),
          ⟨(), [⟨Call.GetSecretV2 "id" "key" none (some true),
            some (fakeKmsError 17125377)⟩]⟩) ∧
    GetSecret refLib ⟨"id", false, nilReadClient⟩ { Key := "key" } ⟨(), []⟩
      = .returns (("", some .NoSecretErr),
          ⟨(), [⟨Call.GetSecretV2 "id" "key" none (some true), none⟩]⟩) ∧
    GetSecret refLib (fakeClient "Invalid Secret Version") { Key := "key" } ⟨(), []⟩
      = .returns (("", some (fakeKmsError 17125378)),
          ⟨(), [⟨Call.GetSecretV2 "id" "key" none (some true),
            some (fakeKmsError 17125378)⟩]⟩) :=
  ⟨((read_not_found_sentinel refLib (fakeClient "Non-existent Secret") { Key := "key" }
      ⟨(), []⟩ none (by decide) (by decide) rfl).1 none (fakeKmsError 17125377) _ () rfl
        rfl).2,
   ((read_not_found_sentinel refLib ⟨"id", false, nilReadClient⟩ { Key := "key" }
      ⟨(), []⟩ none (by decide) (by decide) rfl).2.1 () rfl).2,
   ((read_not_found_sentinel refLib (fakeClient "Invalid Secret Version") { Key := "key" }
      ⟨(), []⟩ none (by decide) (by decide) rfl).2.2 none (fakeKmsError 17125378) 17125378 _ ()
        rfl rfl (by decide)).2.1⟩

/-- C22, counterexample: in the test case `Error case` the collaborator's read fails with
the plain error `SecretExists error`, which is not a not-found error; `GetSecret` returns
another error, `failed to parse okms error: SecretExists error`, that wraps it. -/
theorem GetSecret_wraps_plain_error :
    (fakeClient "Error case").okmsClient.GetSecretV2 () "id" "key" none (some true)
      = ((some emptyResponse, some (.text "SecretExists error")), ()) ∧
    GetSecret refLib (fakeClient "Error case") { Key := "key" } ⟨(), []⟩
      = .returns (("", some (.wrap "failed to parse okms error" (.text "SecretExists error"))),
          ⟨(), [⟨Call.GetSecretV2 "id" "key" none (some true),
            some (.text "SecretExists error")⟩]⟩) ∧
    GoError.wrap "failed to parse okms error" (.text "SecretExists error")
      ≠ .text "SecretExists error" ∧
    errorsIsNoSecretErr (.text "SecretExists error") = false :=
  ⟨rfl, rfl, by decide, rfl⟩

/-- C22, amended: for a reference that passes validation, when the collaborator's read
fails with the error `err`, `GetSecret` makes that single call and returns no data; it
returns exactly `err` when `err` is a KMS error with a code other than 17125377, and it
returns `err` wrapped as `failed to parse okms error: err` when `err` carries no KMS
error. -/
theorem GetSecret_remote_error {σ : Type} (J : GoLib) (cl : ovhClient σ)
    (ref : ExternalSecretDataRemoteRef) (w : World σ) (v : Option Nat)
    (resp : Option GetSecretV2Response) (err : GoError) (s1 : σ)
    (hkey : ref.Key ≠ "") (hpol : ref.MetadataPolicy ≠ ExternalSecretMetadataPolicyFetch)
    (hver : decodeSecretVersion ref.Version = (v, none))
    (hget : cl.okmsClient.GetSecretV2 w.remote cl.okmsId ref.Key v (some true)
      = ((resp, some err), s1)) :
    (∀ code body, err = .KmsError code body → code ≠ 17125377 →
      GetSecret J cl ref w = .returns (("", some err), afterRead cl ref v (some err) s1 w)) ∧
    (okmsAsKmsError err = none →
      GetSecret J cl ref w
        = .returns (("", some (.wrap "failed to parse okms error" err)),
            afterRead cl ref v (some err) s1 w)) := by
  have h := getSecretWithOvhSDK_read_error J cl ref w v resp err s1 hkey hpol hver hget
  constructor
  · intro code body herr hcode
    subst herr
    have hk : okmsAsKmsError (.KmsError code body) = some (code, body) := rfl
    rw [handleOkmsError_code hk] at h
    simp only [hcode, if_false] at h
    simp only [GetSecret, h]
  · intro hnone
    have hh : handleOkmsError err = .wrap "failed to parse okms error" err := by
      simp only [handleOkmsError, hnone]
    rw [hh] at h
    simp only [GetSecret, h]

/-- C22, amended, witness: the test case `Invalid Secret Version` (a KMS error of code
17125378, returned as it is) and the test case `Error case` (a plain error, wrapped). -/
theorem GetSecret_remote_error_witness :
    GetSecret refLib (fakeClient "Invalid Secret Version") { Key := "key" } ⟨(), []⟩
      = .returns (("", some (fakeKmsError 17125378)),
          ⟨(), [⟨Call.GetSecretV2 "id" "key" none (some true),
            some (fakeKmsError 17125378)⟩]⟩) ∧
    GetSecret refLib (fakeClient "Error case") { Key := "key" } ⟨(), []⟩
      = .returns (("", some (.wrap "failed to parse okms error" (.text "SecretExists error"))),
          ⟨(), [⟨Call.GetSecretV2 "id" "key" none (some true),
            some (.text "SecretExists error")⟩]⟩) :=
  ⟨(GetSecret_remote_error refLib (fakeClient "Invalid Secret Version") { Key := "key" }
      ⟨(), []⟩ none none (fakeKmsError 17125378) () (by decide) (by decide) rfl rfl).1
        17125378 _ rfl (by decide),
   (GetSecret_remote_error refLib (fakeClient "Error case") { Key := "key" }
      ⟨(), []⟩ none (some emptyResponse) (.text "SecretExists error") () (by decide)
      (by decide) rfl rfl).2 rfl⟩

/-! ## Theorems: the push, its guards and its write -/

/-- C23: `PushSecret` with a nil secret returns the error `nil secret`, and with a secret
whose data has no entry it returns `cannot push empty secret`; both in the world it started
from, whatever the push descriptor, the client and the libraries: no call is logged and the
remote state is the same. -/
theorem PushSecret_rejects_empty {σ : Type} (J : GoLib) (cl : ovhClient σ)
    (data : PushSecretData) (w : World σ) :
    PushSecret J cl none data w = .returns (some (.text "nil secret"), w) ∧
    ∀ secret : Secret, secret.Data.length = 0 →
      PushSecret J cl (some secret) data w
        = .returns (some (.text "cannot push empty secret"), w) := by
  refine ⟨rfl, ?_⟩
  intro secret hlen
  simp only [PushSecret, hlen, beq_self_eq_true, if_true]

/-- C23, witness: the test cases `Nil Secret` and `Empty Secret Data`. -/
theorem PushSecret_rejects_empty_witness :
    PushSecret refLib (fakeClient "Nil Secret") none ⟨"secretKey", "remoteKey", "property"⟩
        ⟨(), []⟩
      = .returns (some (.text "nil secret"), ⟨(), []⟩) ∧
    PushSecret refLib (fakeClient "Empty Secret Data") (some ⟨[]⟩)
        ⟨"secretKey", "remoteKey", "property"⟩ ⟨(), []⟩
      = .returns (some (.text "cannot push empty secret"), ⟨(), []⟩) :=
  ⟨(PushSecret_rejects_empty refLib (fakeClient "Nil Secret")
      ⟨"secretKey", "remoteKey", "property"⟩ ⟨(), []⟩).1,
   (PushSecret_rejects_empty refLib (fakeClient "Empty Secret Data")
      ⟨"secretKey", "remoteKey", "property"⟩ ⟨(), []⟩).2 ⟨[]⟩ rfl⟩

theorem countWrites_probe {σ : Type} (J : GoLib) (c : OkmsClient σ) (okmsId : String)
    (ref : ExternalSecretDataRemoteRef) (w : World σ)
    (x : Bytes × Option Nat × Option GoError) (w1 : World σ)
    (hx : getSecretWithOvhSDK J c okmsId ref w = .returns (x, w1)) :
    ∃ new, w1.log = w.log ++ new ∧ ∀ ev ∈ new, isWriteCall ev.call = false := by
  rcases getSecretWithOvhSDK_log J c okmsId ref w x w1 hx with h | ⟨v, e, h⟩
  · exact ⟨[], by rw [h]; simp, by simp⟩
  · refine ⟨_, h, ?_⟩
    intro ev hev
    simp only [List.mem_singleton] at hev
    subst hev
    rfl

/-- C24: a `PushSecret` that returns has logged, after the log it started from, calls among
which at most one is a write (a create or an update); and when a write was logged,
`PushSecret` returns exactly what that call returned: its error, unchanged, or nil. -/
theorem PushSecret_write_error {σ : Type} (J : GoLib) (cl : ovhClient σ)
    (osecret : Option Secret) (data : PushSecretData) (w : World σ) (e : Option GoError)
    (w2 : World σ) (h : PushSecret J cl osecret data w = .returns (e, w2)) :
    ∃ new, w2.log = w.log ++ new ∧ countWrites new ≤ 1 ∧
      ∀ ev ∈ new, isWriteCall ev.call = true → ev.err = e := by
  rcases PushSecret_inv J cl osecret data w e w2 h with hw |
    ⟨secret, remote, ver, perr, w1, _, _, hprobe, hrest⟩
  · exact ⟨[], by rw [hw]; simp, by simp [countWrites], by simp⟩
  · obtain ⟨new1, hlog1, hnw⟩ := countWrites_probe J _ _ _ w _ w1 hprobe
    have hc1 : countWrites new1 = 0 := by
      simp only [countWrites, List.length_eq_zero, List.filter_eq_nil_iff]
      intro ev hev
      simp [hnw ev hev]
    rcases hrest with hw1 | ⟨_, cand, _, _, hpush⟩
    · refine ⟨new1, by rw [hw1]; exact hlog1, by omega, ?_⟩
      intro ev hev hwr
      rw [hnw ev hev] at hwr
      cases hwr
    · have hlog := pushNewSecret_log cl data cand ver (perr.any errorsIsNoSecretErr) w1
      rw [hpush] at hlog
      simp only at hlog
      refine ⟨new1 ++ [⟨expectedWrite cl data cand ver (perr.any errorsIsNoSecretErr), e⟩],
        by rw [hlog, hlog1, List.append_assoc], ?_, ?_⟩
      · rw [countWrites_append, hc1]
        simp only [countWrites, zero_add]
        exact (List.length_filter_le _ _).trans (by simp)
      · intro ev hev hwr
        rcases List.mem_append.mp hev with h1 | h1
        · rw [hnw ev h1] at hwr
          cases hwr
        · simp only [List.mem_singleton] at h1
          subst h1
          rfl

/-- C24, witness: the test case "non-equal data": the update of
`pattern2/test/test-secret` is answered by the fake store with an error (the JSON text of
the payload), and `PushSecret` returns that error after one read and one write. -/
theorem PushSecret_write_error_witness :
    PushSecret refLib ⟨"id", false, FakeOkmsClient refLib nonEqualDataCase⟩
        (some secretNewValue4) (pushWhole "pattern2/test/test-secret") ⟨(), []⟩
      = .returns (some (.text "\x7b\"new-test4\":\"new-value4\"\x7d"),
          ⟨(), [⟨Call.GetSecretV2 "id" "pattern2/test/test-secret" none (some true), none⟩,
            ⟨Call.PutSecretV2 "id" "pattern2/test/test-secret" none
              { Version := some { Data := some [("new-test4", .RawMessage "\"new-value4\"")] } },
              some (.text "\x7b\"new-test4\":\"new-value4\"\x7d")⟩]⟩) ∧
    ∃ new,
      [⟨Call.GetSecretV2 "id" "pattern2/test/test-secret" none (some true), none⟩,
        ⟨Call.PutSecretV2 "id" "pattern2/test/test-secret" none
          { Version := some { Data := some [("new-test4", .RawMessage "\"new-value4\"")] } },
          some (.text "\x7b\"new-test4\":\"new-value4\"\x7d")⟩] = [] ++ new ∧
      countWrites new ≤ 1 ∧
      ∀ ev ∈ new, isWriteCall ev.call = true →
        ev.err = some (.text "\x7b\"new-test4\":\"new-value4\"\x7d") :=
  ⟨rfl,
   PushSecret_write_error refLib ⟨"id", false, FakeOkmsClient refLib nonEqualDataCase⟩
    (some secretNewValue4) (pushWhole "pattern2/test/test-secret") ⟨(), []⟩
    (some (.text "\x7b\"new-test4\":\"new-value4\"\x7d"))
    ⟨(), [⟨Call.GetSecretV2 "id" "pattern2/test/test-secret" none (some true), none⟩,
      ⟨Call.PutSecretV2 "id" "pattern2/test/test-secret" none
        { Version := some { Data := some [("new-test4", .RawMessage "\"new-value4\"")] } },
        some (.text "\x7b\"new-test4\":\"new-value4\"\x7d")⟩]⟩ rfl⟩

/-! ## Theorems: the object to push -/

theorem denoteMembers_append_single (J : GoLib) (m n : GoMap GoAny) (k : String) (v y : GoAny)
    (hm : denoteMembers J m = some n) (hv : denote J v = some y) :
    denoteMembers J (m ++ [(k, v)]) = some (n ++ [(k, y)]) := by
  induction m generalizing n with
  | nil =>
    simp only [denoteMembers, Option.some.injEq] at hm
    subst hm
    simp only [List.nil_append, denoteMembers, hv]
  | cons e rest ih =>
    obtain ⟨k1, v1⟩ := e
    simp only [List.cons_append, denoteMembers] at hm ⊢
    cases h1 : denote J v1 with
    | none => simp [h1] at hm
    | some y1 =>
      cases h2 : denoteMembers J rest with
      | none => simp [h1, h2] at hm
      | some ys =>
        simp only [h1, h2, Option.some.injEq] at hm
        subst hm
        have h3 := ih ys h2
        simp only [List.append_eq, h3, List.cons_append]

theorem GoMap.set_fresh {α : Type} (m : GoMap α) (key : String) (v : α)
    (h : key ∉ m.map Prod.fst) : m.set key v = m ++ [(key, v)] := by
  have hany : m.any (fun e => e.1 == key) = false := by
    rw [List.any_eq_false]
    intro e he heq
    apply h
    have : e.1 = key := by simpa using heq
    rw [← this]
    exact List.mem_map_of_mem Prod.fst he
  simp only [GoMap.set, hany, Bool.false_eq_true, if_false]

theorem rangeData_denote (J : GoLib) :
    ∀ (data : GoMap Bytes) (acc accD : GoMap GoAny),
      (data.map Prod.fst).Nodup →
      (∀ k ∈ data.map Prod.fst, k ∉ acc.map Prod.fst) →
      (∀ e ∈ data, ∀ v, J.jsonUnmarshal e.2 = .ok v →
        ∃ c, J.jsonMarshal v = .ok c ∧ J.jsonUnmarshal c = .ok v) →
      denoteMembers J acc = some accD →
      ∃ cand, rangeData J data acc = (cand, none) ∧
        denoteMembers J cand
          = some (accD ++ data.map (fun e => (e.1, parseOrLiteral J e.2))) := by
  intro data
  induction data with
  | nil =>
    intro acc accD _ _ _ hacc
    exact ⟨acc, rfl, by simpa using hacc⟩
  | cons e rest ih =>
    obtain ⟨k, b⟩ := e
    intro acc accD hnodup hfresh hround hacc
    have hk : k ∉ acc.map Prod.fst := hfresh k (by simp)
    have hnd : (rest.map Prod.fst).Nodup := (List.nodup_cons.mp hnodup).2
    have hkrest : k ∉ rest.map Prod.fst := (List.nodup_cons.mp hnodup).1
    have hfresh1 : ∀ (x : GoAny), ∀ k1 ∈ rest.map Prod.fst,
        k1 ∉ (acc ++ [(k, x)]).map Prod.fst := by
      intro x k1 hk1 hmem
      simp only [List.map_append, List.map_cons, List.map_nil, List.mem_append,
        List.mem_singleton] at hmem
      rcases hmem with h | h
      · exact hfresh k1 (List.mem_cons_of_mem _ hk1) h
      · subst h; exact hkrest hk1
    have hround1 : ∀ e ∈ rest, ∀ v, J.jsonUnmarshal e.2 = .ok v →
        ∃ c, J.jsonMarshal v = .ok c ∧ J.jsonUnmarshal c = .ok v :=
      fun e he => hround e (List.mem_cons_of_mem _ he)
    cases hu : J.jsonUnmarshal b with
    | error err =>
      have hd : denote J (.string b) = some (.string b) := by simp only [denote]
      obtain ⟨cand, hc, hden⟩ := ih (acc ++ [(k, .string b)]) (accD ++ [(k, .string b)]) hnd
        (hfresh1 _) hround1 (denoteMembers_append_single J acc accD k _ _ hacc hd)
      refine ⟨cand, ?_, ?_⟩
      · simp only [rangeData, hu, GoMap.set_fresh acc k _ hk, hc]
      · rw [hden]
        simp only [List.map_cons, parseOrLiteral, hu, List.append_assoc, List.singleton_append]
    | ok v =>
      obtain ⟨c, hm, hback⟩ := hround (k, b) (List.mem_cons_self _ _) v hu
      have hd : denote J (.RawMessage c) = some v := by simp only [denote, hback]
      obtain ⟨cand, hc, hden⟩ := ih (acc ++ [(k, .RawMessage c)]) (accD ++ [(k, v)]) hnd
        (hfresh1 _) hround1 (denoteMembers_append_single J acc accD k _ _ hacc hd)
      refine ⟨cand, ?_, ?_⟩
      · simp only [rangeData, hu, Marshal_of_ok hm, GoMap.set_fresh acc k _ hk, hc]
      · rw [hden]
        simp only [List.map_cons, parseOrLiteral, hu, List.append_assoc, List.singleton_append]

/-- C25: `buildSecretToPush` refines the reference definition: when the keys of the local
data are pairwise distinct (it is a Go map) and, for an empty `secretKey`, every local value that
parses is serialized by `json.Marshal` to a text that parses to the same value, `buildSecretToPush` returns no
error and an object that stands for the object of the reference definition (a
`json.RawMessage` standing for the value its bytes parse to): the keys of the local data,
each under the parse-or-literal rule, or the single key `secretKey`, wrapped under the
property when one is set. -/
theorem buildSecretToPush_refines (J : GoLib) (secret : Secret) (data : PushSecretData)
    (hnodup : (secret.Data.map Prod.fst).Nodup)
    (hround : data.SecretKey = "" → ∀ e ∈ secret.Data, ∀ v, J.jsonUnmarshal e.2 = .ok v →
      ∃ c, J.jsonMarshal v = .ok c ∧ J.jsonUnmarshal c = .ok v) :
    ∃ cand, buildSecretToPush J secret data = (cand, none) ∧
      denoteMembers J cand = some (referenceSecretToPush J secret data) := by
  have hbase : ∃ base,
      (if data.SecretKey == "" then rangeData J secret.Data []
        else
          match J.jsonUnmarshal (secret.Data.getBytes data.SecretKey) with
          | .error _ =>
            (GoMap.set [] data.SecretKey (.string (secret.Data.getBytes data.SecretKey)), none)
          | .ok _ =>
            (GoMap.set [] data.SecretKey
              (.RawMessage (secret.Data.getBytes data.SecretKey)), none))
        = (base, none) ∧
      denoteMembers J base
        = some (if data.SecretKey = "" then
            secret.Data.map (fun e => (e.1, parseOrLiteral J e.2))
          else [(data.SecretKey, parseOrLiteral J (secret.Data.getBytes data.SecretKey))]) := by
    by_cases hsk : data.SecretKey = ""
    · obtain ⟨base, hb, hden⟩ := rangeData_denote J secret.Data [] [] hnodup (by simp)
        (hround hsk)
        (by simp only [denoteMembers])
      refine ⟨base, ?_, ?_⟩
      · simp only [hsk, beq_self_eq_true, if_true, hb]
      · simpa only [hsk, if_true, List.nil_append] using hden
    · have hsk1 : (data.SecretKey == "") = false := by simpa using hsk
      simp only [hsk1, hsk, Bool.false_eq_true, if_false]
      cases hu : J.jsonUnmarshal (secret.Data.getBytes data.SecretKey) with
      | error err =>
        exact ⟨_, rfl, by simp [GoMap.set, denoteMembers, denote, parseOrLiteral, hu]⟩
      | ok v =>
        exact ⟨_, rfl, by simp [GoMap.set, denoteMembers, denote, parseOrLiteral, hu]⟩
  obtain ⟨base, hb, hden⟩ := hbase
  by_cases hp : data.Property = ""
  · refine ⟨base, ?_, ?_⟩
    · simp only [buildSecretToPush, hb, hp, beq_self_eq_true, if_true]
    · simp only [referenceSecretToPush, hp, if_true, hden]
  · have hp1 : (data.Property == "") = false := by simpa using hp
    refine ⟨[(data.Property, .map base)], ?_, ?_⟩
    · simp only [buildSecretToPush, hb, hp1, Bool.false_eq_true, if_false]
      rfl
    · simp only [referenceSecretToPush, hp, if_false, denoteMembers, denote, hden]

theorem refLib_roundTrip_secretNested :
    ∀ e ∈ secretNested.Data, ∀ v, refLib.jsonUnmarshal e.2 = .ok v →
      ∃ c, refLib.jsonMarshal v = .ok c ∧ refLib.jsonUnmarshal c = .ok v := by
  intro e he v hv
  simp only [secretNested, List.mem_cons, List.mem_singleton, List.mem_nil_iff, or_false] at he
  rcases he with h | h | h
  · subst h
    have h0 : refLib.jsonUnmarshal
        "\x7b\"sub1\":\x7b\"value\":\"string\"\x7d,\"sub2\":\"Name\"\x7d"
        = .ok (.map [("sub1", .map [("value", .string "string")]), ("sub2", .string "Name")]) :=
      rfl
    rw [h0] at hv
    cases hv
    exact ⟨"\x7b\"sub1\":\x7b\"value\":\"string\"\x7d,\"sub2\":\"Name\"\x7d", rfl, rfl⟩
  · subst h
    have h0 : refLib.jsonUnmarshal "\"value\"" = .ok (.string "value") := rfl
    rw [h0] at hv
    cases hv
    exact ⟨_, rfl, rfl⟩
  · subst h
    have h0 : refLib.jsonUnmarshal "\"value1\"" = .ok (.string "value1") := rfl
    rw [h0] at hv
    cases hv
    exact ⟨_, rfl, rfl⟩

/-- C25, witness: the test case `Empty Secret Key / Property / Non-Existent Remote Key`: the
object built from the local data `root`, `test`, `test1` under the property `property`
stands for the reference object and serializes to the text the test expects. -/
theorem buildSecretToPush_refines_witness :
    (∃ cand, buildSecretToPush refLib secretNested pushUnderProperty = (cand, none) ∧
      denoteMembers refLib cand
        = some (referenceSecretToPush refLib secretNested pushUnderProperty)) ∧
    referenceSecretToPush refLib secretNested pushUnderProperty
      = [("property", .map [("root", .map [("sub1", .map [("value", .string "string")]),
            ("sub2", .string "Name")]), ("test", .string "value"),
          ("test1", .string "value1")])] ∧
    refLib.Marshal (.map (buildSecretToPush refLib secretNested pushUnderProperty).1)
      = ("\x7b\"property\":\x7b\"root\":\x7b\"sub1\":\x7b\"value\":\"string\"\x7d,\"sub2\":\"Name\"\x7d,\"test\":\"value\",\"test1\":\"value1\"\x7d\x7d",
        none) :=
  ⟨buildSecretToPush_refines refLib secretNested pushUnderProperty (by decide)
      (fun _ => refLib_roundTrip_secretNested),
    rfl, rfl⟩

/-- C26, the code at a failing input: for the local value `k` with the JSON text
`"b":1,"a":2` in braces, the descriptor with `secretKey = k` stores the raw bytes, which
serialize with the keys in the order `b`, `a`, whereas the descriptor with an empty
`secretKey` stores the re-serialized value, with the keys in the order `a`, `b`: the two
objects to push serialize to different bytes. -/
theorem buildSecretToPush_modes_differ :
    buildSecretToPush refLib secretUnsorted ⟨"k", "remote", ""⟩
      = ([("k", .RawMessage "\x7b\"b\":1,\"a\":2\x7d")], none) ∧
    buildSecretToPush refLib secretUnsorted ⟨"", "remote", ""⟩
      = ([("k", .RawMessage "\x7b\"a\":2,\"b\":1\x7d")], none) ∧
    refLib.Marshal (.map (buildSecretToPush refLib secretUnsorted ⟨"k", "remote", ""⟩).1)
      = ("\x7b\"k\":\x7b\"b\":1,\"a\":2\x7d\x7d", none) ∧
    refLib.Marshal (.map (buildSecretToPush refLib secretUnsorted ⟨"", "remote", ""⟩).1)
      = ("\x7b\"k\":\x7b\"a\":2,\"b\":1\x7d\x7d", none) ∧
    refLib.Marshal (.map (buildSecretToPush refLib secretUnsorted ⟨"k", "remote", ""⟩).1)
      ≠ refLib.Marshal (.map (buildSecretToPush refLib secretUnsorted ⟨"", "remote", ""⟩).1) :=
  ⟨rfl, rfl, rfl, rfl, by
    have h1 : refLib.Marshal
        (.map (buildSecretToPush refLib secretUnsorted ⟨"k", "remote", ""⟩).1)
        = ("\x7b\"k\":\x7b\"b\":1,\"a\":2\x7d\x7d", none) := rfl
    have h2 : refLib.Marshal
        (.map (buildSecretToPush refLib secretUnsorted ⟨"", "remote", ""⟩).1)
        = ("\x7b\"k\":\x7b\"a\":2,\"b\":1\x7d\x7d", none) := rfl
    rw [h1, h2]
    decide⟩

/-! ## Theorems: static validation -/

/-- C27: `ValidateStore` returns no error exactly when the store, its spec, its provider and
its OVH section are present, exactly one of the two authentication methods is set, and an
mTLS method carries both its certificate and its key reference.  With the OVH section
present it reports `missing authentication method` when neither method is set, `only one
authentication method allowed (mtls | token)` when both are set, and `missing tls
certificate or key` when mTLS alone is set and lacks its certificate or its key. -/
theorem ValidateStore_spec (store : Option GenericStore) :
    ((ValidateStore store).2 = none ↔
      ∃ st spec provider ovh, store = some st ∧ st.GetSpec = some spec ∧
        spec.Provider = some provider ∧ provider.Ovh = some ovh ∧
        ((ovh.Auth.ClientMTLS.isSome ∧ ovh.Auth.ClientToken = none) ∨
          (ovh.Auth.ClientMTLS = none ∧ ovh.Auth.ClientToken.isSome)) ∧
        ∀ mtls, ovh.Auth.ClientMTLS = some mtls →
          mtls.ClientCertificate.isSome ∧ mtls.ClientKey.isSome) ∧
    (∀ st spec provider ovh, store = some st → st.GetSpec = some spec →
      spec.Provider = some provider → provider.Ovh = some ovh →
      (ovh.Auth.ClientMTLS = none → ovh.Auth.ClientToken = none →
        ValidateStore store = ([], some (.text "missing authentication method"))) ∧
      (ovh.Auth.ClientMTLS.isSome → ovh.Auth.ClientToken.isSome →
        ValidateStore store
          = ([], some (.text "only one authentication method allowed (mtls | token)"))) ∧
      (∀ mtls, ovh.Auth.ClientMTLS = some mtls → ovh.Auth.ClientToken = none →
        mtls.ClientCertificate = none ∨ mtls.ClientKey = none →
        ValidateStore store = ([], some (.text "missing tls certificate or key")))) := by
  constructor
  · constructor
    · intro h
      cases store with
      | none => simp [ValidateStore] at h
      | some st =>
        cases hs : st.GetSpec with
        | none => simp [ValidateStore, hs] at h
        | some spec =>
          cases hp : spec.Provider with
          | none => simp [ValidateStore, hs, hp] at h
          | some provider =>
            cases ho : provider.Ovh with
            | none => simp [ValidateStore, hs, hp, ho] at h
            | some ovh =>
              refine ⟨st, spec, provider, ovh, rfl, hs, hp, ho, ?_⟩
              cases hm : ovh.Auth.ClientMTLS with
              | none =>
                cases ht : ovh.Auth.ClientToken with
                | none => simp [ValidateStore, hs, hp, ho, hm, ht] at h
                | some token => simp
              | some mtls =>
                cases ht : ovh.Auth.ClientToken with
                | some token => simp [ValidateStore, hs, hp, ho, hm, ht] at h
                | none =>
                  cases hc : mtls.ClientCertificate <;> cases hk : mtls.ClientKey <;>
                    simp [ValidateStore, hs, hp, ho, hm, ht, hc, hk] at h ⊢
    · rintro ⟨st, spec, provider, ovh, rfl, hs, hp, ho, hone, hboth⟩
      rcases hone with ⟨hm, ht⟩ | ⟨hm, ht⟩
      · cases hm1 : ovh.Auth.ClientMTLS with
        | none => simp [hm1] at hm
        | some mtls =>
          obtain ⟨hc, hk⟩ := hboth mtls hm1
          cases hc1 : mtls.ClientCertificate with
          | none => simp [hc1] at hc
          | some cert =>
            cases hk1 : mtls.ClientKey with
            | none => simp [hk1] at hk
            | some key => simp [ValidateStore, hs, hp, ho, hm1, ht, hc1, hk1]
      · cases ht1 : ovh.Auth.ClientToken with
        | none => simp [ht1] at ht
        | some token => simp [ValidateStore, hs, hp, ho, hm, ht1]
  · rintro st spec provider ovh rfl hs hp ho
    refine ⟨?_, ?_, ?_⟩
    · intro hm ht
      simp [ValidateStore, hs, hp, ho, hm, ht]
    · intro hm ht
      cases hm1 : ovh.Auth.ClientMTLS with
      | none => simp [hm1] at hm
      | some mtls =>
        cases ht1 : ovh.Auth.ClientToken with
        | none => simp [ht1] at ht
        | some token => simp [ValidateStore, hs, hp, ho, hm1, ht1]
    · intro mtls hm ht hlack
      rcases hlack with h | h
      · simp [ValidateStore, hs, hp, ho, hm, ht, h]
      · simp [ValidateStore, hs, hp, ho, hm, ht, h]

/-- C27, witness: the stores of the test cases `Valid token auth` and `Authentication method
conflict`, a store without authentication method, and a store whose mTLS method lacks its
certificate. -/
theorem ValidateStore_spec_witness :
    (ValidateStore (ovhStore ⟨none, some ⟨some testSelector⟩⟩)).2 = none ∧
    ValidateStore (ovhStore ⟨none, none⟩)
      = ([], some (.text "missing authentication method")) ∧
    ValidateStore (ovhStore ⟨some ⟨some testSelector, some testSelector⟩,
        some ⟨some testSelector⟩⟩)
      = ([], some (.text "only one authentication method allowed (mtls | token)")) ∧
    ValidateStore (ovhStore ⟨some ⟨none, some testSelector⟩, none⟩)
      = ([], some (.text "missing tls certificate or key")) :=
  ⟨(ValidateStore_spec (ovhStore ⟨none, some ⟨some testSelector⟩⟩)).1.mpr
      ⟨_, _, _, _, rfl, rfl, rfl, rfl, Or.inr ⟨rfl, rfl⟩, fun _ h => nomatch h⟩,
   ((ValidateStore_spec (ovhStore ⟨none, none⟩)).2 _ _ _ _ rfl rfl rfl rfl).1 rfl rfl,
   ((ValidateStore_spec (ovhStore ⟨some ⟨some testSelector, some testSelector⟩,
      some ⟨some testSelector⟩⟩)).2 _ _ _ _ rfl rfl rfl rfl).2.1 rfl rfl,
   ((ValidateStore_spec (ovhStore ⟨some ⟨none, some testSelector⟩, none⟩)).2 _ _ _ _
      rfl rfl rfl rfl).2.2 _ rfl rfl (Or.inl rfl)⟩

/-! ## Theorems: reads of empty and incomplete responses -/

/-- C28, the code at a failing input: in the test case `Secret without data` (a response
whose version carries an empty map) `GetSecret` returns the text of the empty JSON object
and no error, and `GetSecretMap` returns an empty map and no error: neither reports the
error `empty secret`. -/
theorem read_secret_without_data :
    GetSecret refLib (fakeClient "Secret without data") { Key := "key" } ⟨(), []⟩
      = .returns (("\x7b\x7d", none),
          ⟨(), [⟨Call.GetSecretV2 "id" "key" none (some true), none⟩]⟩) ∧
    GetSecretMap refLib (fun _ _ => ("", none)) (fakeClient "Secret without data")
        { Key := "key" } ⟨(), []⟩
      = .returns (([], none), ⟨(), [⟨Call.GetSecretV2 "id" "key" none (some true), none⟩]⟩) :=
  ⟨rfl, rfl⟩

/-- C29, the code at a failing input: when the collaborator's read returns, without error,
a response whose version part is absent, or whose metadata part is absent,
`getSecretWithOvhSDK` dereferences the absent part and panics; so do `GetSecret` and
`PushSecret`. -/
theorem read_incomplete_response_panics :
    getSecretWithOvhSDK refLib (respondingClient emptyResponse) "id" { Key := "key" } ⟨(), []⟩
      = .panics ∧
    getSecretWithOvhSDK refLib
        (respondingClient { Metadata := none, Version := some { Data := some fakeData } })
        "id" { Key := "key" } ⟨(), []⟩
      = .panics ∧
    getSecretWithOvhSDK refLib
        (respondingClient { Metadata := some { CurrentVersion := none }, Version := none })
        "id" { Key := "key" } ⟨(), []⟩
      = .panics ∧
    GetSecret refLib ⟨"id", false, respondingClient emptyResponse⟩ { Key := "key" } ⟨(), []⟩
      = .panics ∧
    PushSecret refLib ⟨"id", false, respondingClient emptyResponse⟩ (some secretValue4)
        (pushWhole "key") ⟨(), []⟩
      = .panics :=
  ⟨rfl, rfl, rfl, rfl, rfl⟩

/-! ## Theorems: a `secretKey` absent from the local data -/

theorem GoMap.getBytes_absent (m : GoMap Bytes) (key : String)
    (h : key ∉ m.map Prod.fst) : m.getBytes key = "" := by
  have hfind : m.find? (fun e => e.1 == key) = none := by
    rw [List.find?_eq_none]
    intro e he heq
    apply h
    have h1 : e.1 = key := by simpa using heq
    rw [← h1]
    exact List.mem_map_of_mem Prod.fst he
  simp only [GoMap.getBytes, hfind]

theorem buildSecretToPush_absent {J : GoLib} (secret : Secret) (data : PushSecretData)
    (hsk : data.SecretKey ≠ "") (habs : data.SecretKey ∉ secret.Data.map Prod.fst)
    (hlib : ∃ e, J.jsonUnmarshal "" = .error e) :
    buildSecretToPush J secret data = (absentKeyObject data, none) := by
  obtain ⟨e, he⟩ := hlib
  have hsk1 : (data.SecretKey == "") = false := by simpa using hsk
  have hget := GoMap.getBytes_absent secret.Data data.SecretKey habs
  by_cases hp : data.Property = ""
  · simp only [buildSecretToPush, hsk1, hget, he, hp, absentKeyObject, Bool.false_eq_true,
      if_false, beq_self_eq_true, if_true]
    rfl
  · have hp1 : (data.Property == "") = false := by simpa using hp
    simp only [buildSecretToPush, hsk1, hget, he, hp, hp1, absentKeyObject,
      Bool.false_eq_true, if_false]
    rfl

/-- C30: when the push descriptor names a non-empty `secretKey` that the local data lacks,
and `json.Unmarshal` rejects the empty input, `buildSecretToPush` returns no error and the
object that maps `secretKey` to the empty string, wrapped under the property when one is
set; and `PushSecret`, with non-empty local data, a probe that succeeded or reported
not-found and remote bytes that are empty or differ from the serialization of that object,
issues one write (a create after not-found, an update otherwise) whose payload is that
object, and returns what the write returned. -/
theorem PushSecret_absent_secretKey {σ : Type} (J : GoLib) (cl : ovhClient σ)
    (secret : Secret) (data : PushSecretData) (w : World σ)
    (hsk : data.SecretKey ≠ "") (habs : data.SecretKey ∉ secret.Data.map Prod.fst)
    (hlib : ∃ e, J.jsonUnmarshal "" = .error e) :
    buildSecretToPush J secret data = (absentKeyObject data, none) ∧
    ∀ (remote : Bytes) (ver : Option Nat) (err : Option GoError) (w1 : World σ),
      secret.Data.length ≠ 0 →
      getSecretWithOvhSDK J cl.okmsClient cl.okmsId { Key := data.RemoteKey } w
        = .returns ((remote, ver, err), w1) →
      (err = none ∨ err.any errorsIsNoSecretErr = true) →
      (remote = "" ∨ ∃ b, J.jsonMarshal (.map (absentKeyObject data)) = .ok b ∧ b ≠ remote) →
      ∃ e w2 pe, PushSecret J cl (some secret) data w = .returns (e, w2) ∧
        w2.log = w.log ++
          [⟨Call.GetSecretV2 cl.okmsId data.RemoteKey none (some true), pe⟩,
           ⟨expectedWrite cl data (absentKeyObject data) ver (err.any errorsIsNoSecretErr),
            e⟩] := by
  have hbuild := buildSecretToPush_absent (J := J) secret data hsk habs hlib
  refine ⟨hbuild, ?_⟩
  intro remote ver err w1 hdata hprobe hok hdiff
  have hok1 : (err.isSome && !(err.any errorsIsNoSecretErr)) = false := by
    rcases hok with h | h
    · subst h; rfl
    · simp [h]
  have hkey := probe_key_ne J _ _ _ w _ _ _ _ hprobe hok1
  obtain ⟨pe, hlog, _, _⟩ := probe_log J _ _ _ hkey w _ _ _ _ hprobe
  have hd : (secret.Data.length == 0) = false := by simpa using hdata
  have hcmp := compareSecretsData_differs hdiff
  have hpush := pushNewSecret_log cl data (absentKeyObject data) ver
    (err.any errorsIsNoSecretErr) w1
  refine ⟨(pushNewSecret cl.okmsClient cl.okmsId (absentKeyObject data) data.RemoteKey
      (if !cl.cas then none else ver) (!(err.any errorsIsNoSecretErr)) w1).1,
    (pushNewSecret cl.okmsClient cl.okmsId (absentKeyObject data) data.RemoteKey
      (if !cl.cas then none else ver) (!(err.any errorsIsNoSecretErr)) w1).2, pe, ?_, ?_⟩
  · simp only [PushSecret, hd, hprobe, hok1, hbuild, hcmp, Bool.false_eq_true, if_false]
  · rw [hpush, hlog, List.append_assoc]; rfl

/-- C30, witness: the local data of the tests pushed with the `secretKey` `absent` to the
remote key `non-existent`: the fake store reports not-found, a create is issued with the
object that maps `absent` to the empty string, and the fake answers with the JSON text of
that payload. -/
theorem PushSecret_absent_secretKey_witness :
    buildSecretToPush refLib secretNested ⟨"absent", "non-existent", ""⟩
      = ([("absent", .string "")], none) ∧
    ∃ e w2 pe,
      PushSecret refLib (fakeClient "Absent Secret Key") (some secretNested)
          ⟨"absent", "non-existent", ""⟩ ⟨(), []⟩ = .returns (e, w2) ∧
      w2.log = [] ++
        [⟨Call.GetSecretV2 "id" "non-existent" none (some true), pe⟩,
         ⟨Call.PostSecretV2 "id"
            { Path := "non-existent", Version := { Data := some [("absent", .string "")] } },
          e⟩] :=
  ⟨(PushSecret_absent_secretKey refLib (fakeClient "Absent Secret Key") secretNested
      ⟨"absent", "non-existent", ""⟩ ⟨(), []⟩ (by decide) (by decide) ⟨_, rfl⟩).1,
   (PushSecret_absent_secretKey refLib (fakeClient "Absent Secret Key") secretNested
      ⟨"absent", "non-existent", ""⟩ ⟨(), []⟩ (by decide) (by decide) ⟨_, rfl⟩).2
      "" none (some .NoSecretErr)
      ⟨(), [⟨Call.GetSecretV2 "id" "non-existent" none (some true),
        some (fakeKmsError 17125377)⟩]⟩
      (by decide) rfl (Or.inr rfl) (Or.inl rfl)⟩

/-! ## Theorems: pushes against a store that keeps JSON -/

/-- C2, the code at a failing input: against the store that keeps JSON, the local value `k`
with the JSON text `"b":1,"a":2` in braces is pushed under `secretKey = k` to the empty
store.  The first push creates the secret and returns nil; the second push, with the same
inputs and no intervening change, returns nil and issues an update: two writes after two
pushes, three after three.  Under the descriptor with an empty `secretKey` the same data
is written once: the second push returns nil and writes nothing. -/
theorem PushSecret_secretKey_rewrites :
    (PushSecret refLib jsonClient (some secretUnsorted) pushKeyK jsonEmpty).err = some none ∧
    countWrites (jsonAfter pushKeyK 1).log = 1 ∧
    (PushSecret refLib jsonClient (some secretUnsorted) pushKeyK (jsonAfter pushKeyK 1)).err
      = some none ∧
    countWrites (jsonAfter pushKeyK 2).log = 2 ∧
    (jsonAfter pushKeyK 2).log =
      [⟨Call.GetSecretV2 "id" "remote" none (some true), some (.KmsError 17125377 "")⟩,
       ⟨Call.PostSecretV2 "id"
          { Path := "remote",
            Version := { Data := some [("k", .RawMessage "\x7b\"b\":1,\"a\":2\x7d")] } },
          none⟩,
       ⟨Call.GetSecretV2 "id" "remote" none (some true), none⟩,
       ⟨Call.PutSecretV2 "id" "remote" none
          { Version := some { Data := some [("k", .RawMessage "\x7b\"b\":1,\"a\":2\x7d")] } },
          none⟩] ∧
    countWrites (jsonAfter pushKeyK 3).log = 3 ∧
    countWrites (jsonAfter (pushWhole "remote") 1).log = 1 ∧
    (PushSecret refLib jsonClient (some secretUnsorted) (pushWhole "remote")
        (jsonAfter (pushWhole "remote") 1)).err = some none ∧
    countWrites (jsonAfter (pushWhole "remote") 2).log = 1 :=
  ⟨rfl, rfl, rfl, rfl, rfl, rfl, rfl, rfl, rfl⟩

/-- C3, the code at a failing input: against the store that keeps JSON, after the push of
the local value `k` with the JSON text `"b":1,"a":2` in braces under `secretKey = k`
created the secret, `GetSecret` at the remote key with no property returns the object with
the keys of `k` in the order `a`, `b`, whereas the candidate that `buildSecretToPush` built
serializes with the keys in the order `b`, `a`: the bytes differ.  Under the descriptor
with an empty `secretKey` the read returns the serialization of the candidate. -/
theorem GetSecret_after_secretKey_push :
    (PushSecret refLib jsonClient (some secretUnsorted) pushKeyK jsonEmpty).err = some none ∧
    countWrites (jsonAfter pushKeyK 1).log = 1 ∧
    (GetSecret refLib jsonClient { Key := "remote" } (jsonAfter pushKeyK 1)).value
      = some ("\x7b\"k\":\x7b\"a\":2,\"b\":1\x7d\x7d", none) ∧
    refLib.Marshal (.map (buildSecretToPush refLib secretUnsorted pushKeyK).1)
      = ("\x7b\"k\":\x7b\"b\":1,\"a\":2\x7d\x7d", none) ∧
    ("\x7b\"k\":\x7b\"a\":2,\"b\":1\x7d\x7d" : String)
      ≠ "\x7b\"k\":\x7b\"b\":1,\"a\":2\x7d\x7d" ∧
    (PushSecret refLib jsonClient (some secretUnsorted) (pushWhole "remote") jsonEmpty).err
      = some none ∧
    (GetSecret refLib jsonClient { Key := "remote" } (jsonAfter (pushWhole "remote") 1)).value
      = some (refLib.Marshal
          (.map (buildSecretToPush refLib secretUnsorted (pushWhole "remote")).1)) :=
  ⟨rfl, rfl, rfl, rfl, by decide, rfl, rfl⟩

end Ovh
